import Mathlib

/-!
DECO: declarative workflow optimisation.

A shallow embedding of the planner `SearchPrune::OfflineAstar`
(`src/trunk/spot/AstarSearch.cpp`) and of the Monte-Carlo simulator
`Autoscaling::Simulate` (`src/spot/Autoscaling.cpp`).

Conventions of the embedding

* C `float` / `double` values are exact rationals (`ℚ`); every concrete input
  used below is a small integer or dyadic value, which the machine types
  represent exactly.
* Flat C arrays are lists; `a[i] = v` is `List.set`, `a[i]` is `List.getD a i 0`.
  A read or write outside the list is undefined in the source; theorems that
  depend on such an access carry the hypothesis that excludes it.
* Pointers to tasks are pairs (job index, vertex index).
-/

namespace Deco

/-! ## Part 1: definitions -/

/-! ### Task records -/

/-- The life cycle of a task in the simulator (`status` of `taskVertex`). -/
inductive Status where
  | not_ready
  | ready
  | scheduled
  | finished
  deriving DecidableEq, Repr

/-- The vertex property `taskVertex`: the fields that `OfflineAstar` and
`Autoscaling::Simulate` read or write. -/
structure taskVertex where
  cpuTime : List ℚ
  trans_data : ℚ
  rec_data : ℚ
  read_data : ℚ
  seq_data : ℚ
  netUp : List ℚ
  netDown : List ℚ
  randomIO : List ℚ
  seqIO : List ℚ
  probestTime : List ℚ
  estTime : List ℚ
  assigned_type : Nat
  sub_deadline : ℚ
  status : Status
  readyCountdown : Int
  restTime : ℚ
  tasktime : ℚ
  end_time : ℚ
  cost : ℚ
  deriving DecidableEq

/-! ### Derivation of the time vectors
`AstarSearch.cpp` lines 106-123 and `Autoscaling.cpp` lines 112-128 (the two
copies are identical up to the index of the DAG). -/

/-- The four sample tables, each a flat array indexed by `t * randomsize + j`. -/
structure SampleTables where
  random_sequential_io : List ℚ
  random_random_io : List ℚ
  random_network_up : List ℚ
  random_network_down : List ℚ

/-- The call `std::sort(a + lo, a + hi)`: the half-open index range `[lo, hi)` of
the array is put in non-decreasing order, everything else is left in place.
(The values of a sorted range are determined by its contents, whatever the
algorithm.) -/
def std_sort (a : List ℚ) (lo hi : Nat) : List ℚ :=
  a.take lo ++ (((a.drop lo).take (hi - lo)).insertionSort (fun x y => x ≤ y) ++ a.drop hi)

/-- The statement `int quantile = meet_dl * randomsize;`. -/
def quantile (meet_dl : ℚ) (randomsize : Nat) : Nat :=
  (Rat.floor (meet_dl * randomsize)).toNat

/-- The body of the loop over `j` (lines 111-116): one sample of one type. -/
def deriveSample (tb : SampleTables) (randomsize : Nat) (v : taskVertex) (t j : Nat) :
    taskVertex :=
  let k := t * randomsize + j
  let nu := v.trans_data * tb.random_network_up.getD k 0 / 8000
  let nd := v.rec_data * tb.random_network_down.getD k 0 / 8000
  let ri := v.read_data / tb.random_random_io.getD k 0
  let si := v.seq_data / tb.random_sequential_io.getD k 0
  { v with
    netUp := v.netUp.set k nu
    netDown := v.netDown.set k nd
    randomIO := v.randomIO.set k ri
    seqIO := v.seqIO.set k si
    probestTime := v.probestTime.set k (v.cpuTime.getD t 0 + nu + nd + ri + si) }

/-- The body of the loop over `t` (lines 109-123): fill the block of type `t`,
call `std::sort(probestTime + t*randomsize, probestTime + (t+1)*randomsize - 1)`,
then read `estTime[t] = probestTime[t*randomsize + quantile]`. -/
def deriveType (tb : SampleTables) (randomsize q : Nat) (v : taskVertex) (t : Nat) :
    taskVertex :=
  let v1 := (List.range randomsize).foldl (fun w j => deriveSample tb randomsize w t j) v
  let p := std_sort v1.probestTime (t * randomsize) ((t + 1) * randomsize - 1)
  { v1 with
    probestTime := p
    estTime := v1.estTime.set t (p.getD (t * randomsize + q) 0) }

/-- The derivation for one task: the loop over the `types` instance types. -/
def deriveTask (tb : SampleTables) (types randomsize : Nat) (meet_dl : ℚ) (v : taskVertex) :
    taskVertex :=
  (List.range types).foldl (fun w t => deriveType tb randomsize (quantile meet_dl randomsize) w t) v

/-- The derivation for every task of a DAG (the loop over the vertices). -/
def derive_time_vectors (tb : SampleTables) (types randomsize : Nat) (meet_dl : ℚ)
    (g : List taskVertex) : List taskVertex :=
  g.map (deriveTask tb types randomsize meet_dl)

/-- The block of type `t` of a flat per-(type, sample) array. -/
def block (a : List ℚ) (randomsize t : Nat) : List ℚ :=
  (a.drop (t * randomsize)).take randomsize

/-- The `randomsize` sampled times of a task on type `t`, in sample order:
`cpuTime[t] + netUp[t,j] + netDown[t,j] + randomIO[t,j] + seqIO[t,j]`. -/
def sampledTimes (tb : SampleTables) (randomsize : Nat) (v : taskVertex) (t : Nat) : List ℚ :=
  (List.range randomsize).map (fun j =>
    let k := t * randomsize + j
    v.cpuTime.getD t 0 + v.trans_data * tb.random_network_up.getD k 0 / 8000
      + v.rec_data * tb.random_network_down.getD k 0 / 8000
      + v.read_data / tb.random_random_io.getD k 0
      + v.seq_data / tb.random_sequential_io.getD k 0)

/-- The `q`-th smallest (0-based, with multiplicity) of a list of values: the
reading of "quantile" in the specification. -/
def qthSmallest (xs : List ℚ) (q : Nat) : ℚ :=
  (xs.insertionSort (fun x y => x ≤ y)).getD q 0

/-- A task for `types = 4` and `randomsize = 4`: no CPU time, `read_data = 12`, no
network or sequential data; the derived arrays are allocated with 16 entries. -/
def sampleTask : taskVertex :=
  { cpuTime := [0, 0, 0, 0], trans_data := 0, rec_data := 0, read_data := 12, seq_data := 0,
    netUp := List.replicate 16 0, netDown := List.replicate 16 0,
    randomIO := List.replicate 16 0, seqIO := List.replicate 16 0,
    probestTime := List.replicate 16 0, estTime := [0, 0, 0, 0], assigned_type := 0,
    sub_deadline := 0, status := Status.not_ready, readyCountdown := -1, restTime := 0,
    tasktime := 0, end_time := 0, cost := 0 }

/-- Sample tables for `types = 4` and `randomsize = 4`: on every type the random
I/O rates are 6, 4, 3, 12, so that the sampled times of `sampleTask` are
2, 3, 4, 1; the other rates are 1. -/
def sampleTables : SampleTables :=
  { random_sequential_io := List.replicate 16 1,
    random_random_io := [6, 4, 3, 12, 6, 4, 3, 12, 6, 4, 3, 12, 6, 4, 3, 12],
    random_network_up := List.replicate 16 1, random_network_down := List.replicate 16 1 }

/-! ### The configuration search
`SearchPrune::OfflineAstar`, `AstarSearch.cpp` lines 131-142, 199-318 and 389,
the `OMP` variant (the one that is compiled: `OMP` is defined, `CPU` is not). -/

/-- The record `configstack`: a search node. (`childcolor` is never read by the
search loop and is left out.) -/
structure configstack where
  taskno : Int
  fvalue : ℚ
  configurations : List Nat
  deriving DecidableEq

/-- The value of a `configstack*`. `Closeset` receives `&node[tid]`, the address
of a slot of the local array `node[6]`; every child is allocated with
`new configstack()`, a heap address that no earlier allocation has. -/
inductive Addr where
  | slot (tid : Nat)
  | heap (id : Nat)
  deriving DecidableEq

/-- The macro `deadlineapp` of `cudaheader.h`. -/
def deadlineapp : Nat := 0

/-- The macro `ensemble` of `cudaheader.h`. -/
def ensemble : Nat := 1

/-- What the search is given: the number of instance types, `numoftasks`
(`feasible->configurations.size()`), and the two evaluators
`solutionEvalcost` and `solutionEvalconstraint`, whose callees
(`deadlineEvalcost`, `ensembleEvalcost`, ...) are not part of the sources at
hand. Both are functions of the node's `taskno` and `configurations`. -/
structure SearchParams where
  types : Nat
  numoftasks : Nat
  evalcost : Int → List Nat → ℚ
  evalconstraint : Int → List Nat → Bool

/-- The variables of the search loop. `Openset` holds heap pointers (address and
pointee), `Closeset` holds addresses only (it is only ever searched by address).
`heapnext` is the allocator's next fresh address. `expanded` is a ghost log of
the head nodes in the order in which they were expanded. -/
structure SearchState where
  Openset : List (Nat × configstack)
  Closeset : List Addr
  solutions : List configstack
  globalBestCost : ℚ
  searchcount : Nat
  heapnext : Nat
  expanded : List configstack

/-- The call `std::nth_element(Openset.begin(), Openset.end(), Openset.end(), cmp)`
of line 215. Its `nth` argument is `end()`, for which the algorithm has nothing to
place: the library returns at once (libstdc++: `if (__first == __last || __nth
== __last) return;`) and the vector is left as it is, whatever `cmp` is. -/
def nth_element_at_end (Openset : List (Nat × configstack)) : List (Nat × configstack) :=
  Openset

/-- The selection loop of lines 211-220, from worker index `i` for `k` more
rounds: while `i < Openset.size()` the back of `Openset` is copied to `node[i]` and
erased. Returns `node[0..limit)` and what is left of `Openset`. -/
def selectLoop : Nat → Nat → List (Nat × configstack) → List configstack →
    List configstack × List (Nat × configstack)
  | 0, _, O, node => (node, O)
  | k + 1, i, O, node =>
    if i < O.length then
      match (nth_element_at_end O).getLast? with
      | some x => selectLoop k (i + 1) (nth_element_at_end O).dropLast (node ++ [x.2])
      | none => selectLoop k (i + 1) O node
    else selectLoop k (i + 1) O node

/-- The selection of a batch for `nthreads` workers. -/
def selectBatch (nthreads : Nat) (O : List (Nat × configstack)) :
    List configstack × List (Nat × configstack) :=
  selectLoop nthreads 0 O []

/-- Step 4a, lines 233-245: a feasible head node that is cheaper than
`globalBestCost` becomes the new best and is appended to `solutions`. -/
def recordSolution (P : SearchParams) (s : SearchState) (h : configstack) : SearchState :=
  if P.evalconstraint h.taskno h.configurations = true ∧ h.fvalue < s.globalBestCost then
    { s with globalBestCost := h.fvalue, solutions := s.solutions ++ [h] }
  else s

/-- One round of the loop over `t`, lines 261-301. `acc` is the allocator's next
address and the worker's `localOpenset`. The two `std::find` calls compare the
fresh pointer `state` with the stored pointers. -/
def tryChild (P : SearchParams) (s : SearchState) (h : configstack) (nexttask : Nat)
    (acc : Nat × List (Nat × configstack)) (t : Nat) : Nat × List (Nat × configstack) :=
  let state := acc.1
  let configurations := h.configurations.set nexttask t
  let currentcost := P.evalcost nexttask configurations
  let closeset_in := decide (Addr.heap state ∈ s.Closeset)
  if currentcost ≥ s.globalBestCost ∨ closeset_in = true then (state + 1, acc.2)
  else if state ∈ s.Openset.map Prod.fst then (state + 1, acc.2)
  else (state + 1, acc.2 ++
    [(state, { taskno := nexttask, fvalue := currentcost, configurations := configurations })])

/-- The candidate types of lines 253-260: `start .. bound - 1`. -/
def candidateTypes (P : SearchParams) (flag : Nat) (h : configstack) (nexttask : Nat) :
    List Nat :=
  let bound := if flag = ensemble then 2 else P.types
  let start := if flag = ensemble then 0 else h.configurations.getD nexttask 0 + 1
  List.range' start (bound - start)

/-- The work of worker `tid` on its head node `h`, lines 226-304, on the shared
variables `s` (whose `Openset` is what the selection left). Returns the shared
variables and the worker's `localOpenset[tid]`. -/
def expandNode (P : SearchParams) (flag : Nat) (tid : Nat) (s : SearchState) (h : configstack) :
    SearchState × List (Nat × configstack) :=
  let s1 := recordSolution P s h
  let s2 := { s1 with Closeset := s1.Closeset ++ [Addr.slot tid], expanded := s1.expanded ++ [h] }
  let nexttask : Int := h.taskno + 1
  if nexttask < P.numoftasks then
    let r := (candidateTypes P flag h nexttask.toNat).foldl
      (tryChild P s2 h nexttask.toNat) (s2.heapnext, [])
    ({ s2 with heapnext := r.1 }, r.2)
  else (s2, [])

/-- The parallel region, with the workers `tid, tid+1, ...` taken one at a time
in the order of their index. Returns the shared variables and the local open
sets in the order of the workers. -/
def expandBatch (P : SearchParams) (flag : Nat) :
    Nat → SearchState → List configstack → SearchState × List (List (Nat × configstack))
  | _, s, [] => (s, [])
  | tid, s, h :: rest =>
    let r := expandNode P flag tid s h
    let q := expandBatch P flag (tid + 1) r.1 rest
    (q.1, r.2 :: q.2)

/-- The merge of lines 309-316: each local open set is emptied from its back
onto the back of `Openset`. -/
def mergeLocal (O : List (Nat × configstack)) (locals : List (List (Nat × configstack))) :
    List (Nat × configstack) :=
  O ++ (locals.map List.reverse).flatten

/-- The body of the `while` loop, lines 210-317, for `nthreads = 6`. -/
def searchStep (P : SearchParams) (flag : Nat) (s : SearchState) : SearchState :=
  let sel := selectBatch 6 s.Openset
  let limit := sel.1.length
  let r := expandBatch P flag 0 { s with Openset := sel.2 } sel.1
  { r.1 with Openset := mergeLocal sel.2 r.2, searchcount := r.1.searchcount + limit }

/-- The loop guard negated: `Openset.empty() || searchcount > 10000`. -/
def searchDone (s : SearchState) : Bool :=
  s.Openset.isEmpty || decide (s.searchcount > 10000)

/-- The `while` loop of line 208 with a bound on the number of rounds; `none`
when the bound is reached before the guard fails. -/
def searchLoop (P : SearchParams) (flag : Nat) : Nat → SearchState → Option SearchState
  | 0, s => if searchDone s = true then some s else none
  | n + 1, s => if searchDone s = true then some s else searchLoop P flag n (searchStep P flag s)

/-- The state of the loop after `n` rounds (a round is skipped once the guard has
failed): the states the loop head sees. -/
def searchRounds (P : SearchParams) (flag : Nat) : Nat → SearchState → SearchState
  | 0, s => s
  | n + 1, s => if searchDone s = true then s else searchRounds P flag n (searchStep P flag s)

/-- Lines 131-142 and 199: the variables at loop entry, from the two results of
`initialFeasible` (allocated at heap addresses 0 and 1). -/
def searchInit (initialstate feasible : configstack) : SearchState :=
  { Openset := [(0, initialstate)], Closeset := [], solutions := [feasible],
    globalBestCost := feasible.fvalue, searchcount := 0, heapnext := 2, expanded := [] }

/-- The local variable `int flag=0;` of line 185. It is declared in the body of
`OfflineAstar` before the search loop and hides the member `flag` there, so
every test `flag==deadlineapp` / `flag==ensemble` of the loop reads it. -/
def localFlag : Nat := 0

/-- The search of `OfflineAstar` from the results of `initialFeasible` to
`foundsolution = solutions.back()` (line 389), with a bound on the rounds. -/
def OfflineAstar (P : SearchParams) (fuel : Nat) (initialstate feasible : configstack) :
    Option configstack :=
  match searchLoop P localFlag fuel (searchInit initialstate feasible) with
  | some s => s.solutions.getLast?
  | none => none

/-- Modelled from the spec: `deadlineEvalcost`, the deadline-mode cost of an
assignment, which is not part of the sources at hand: the sum over the tasks of
`estTime[assigned_type] * price[assigned_type] / 3600`. `estTime` lists the
per-type estimates of task 0, 1, ...; `configurations` their assigned types. -/
def deadlineEvalcost (estTime : List (List ℚ)) (price : List ℚ) (configurations : List Nat) : ℚ :=
  (List.zipWith (fun est a => est.getD a 0 * price.getD a 0 / 3600) estTime configurations).sum

/-- A one-task search: four types, hourly prices 1, 1, 2, 8, estimated times
36000, 18000, 1800, 900, so that the task costs 10, 5, 1, 2 on the four types.
No node meets the constraint. -/
def oneTaskParams : SearchParams :=
  { types := 4, numoftasks := 1,
    evalcost := fun _ c => deadlineEvalcost [[36000, 18000, 1800, 900]] [1, 1, 2, 8] c,
    evalconstraint := fun _ _ => false }

/-- The initial state of the one-task search: no task decided, type 0. -/
def oneTaskInit : configstack := { taskno := -1, fvalue := 10, configurations := [0] }

/-- The seed of the one-task search, of cost 10. -/
def oneTaskSeed : configstack := { taskno := 0, fvalue := 10, configurations := [0] }

/-- The child that the loop over `t` builds from head node `h` for type `t`
(lines 261-264 and 291): `taskno = nexttask`, the configurations of `h` with
entry `nexttask` set to `t`, and `fvalue = currentcost`. -/
def mkChild (P : SearchParams) (h : configstack) (nexttask t : Nat) : configstack :=
  { taskno := nexttask, fvalue := P.evalcost nexttask (h.configurations.set nexttask t),
    configurations := h.configurations.set nexttask t }

/-- The relation between `solutions`, `globalBestCost` and the expansion log that
the search keeps: `solutions` starts with the seed; every later entry was
expanded, met the constraint and is cheaper than the seed; the costs in
`solutions` are strictly decreasing; `globalBestCost` is the cost of the last
entry and a lower bound of all of them. -/
def SolInv (P : SearchParams) (seed : configstack) (s : SearchState) : Prop :=
  (∃ rest, s.solutions = seed :: rest ∧
    ∀ x ∈ rest, x ∈ s.expanded ∧ P.evalconstraint x.taskno x.configurations = true ∧
      x.fvalue < seed.fvalue) ∧
  (s.solutions.map configstack.fvalue).Pairwise (fun a b => b < a) ∧
  s.solutions.getLast?.map configstack.fvalue = some s.globalBestCost ∧
  ∀ x ∈ s.solutions, s.globalBestCost ≤ x.fvalue

/-- The number of nodes of the complete search tree with `d` undecided tasks,
each node having three children. -/
def treeSize : Nat → Nat
  | 0 => 1
  | d + 1 => 1 + 3 * treeSize d

/-- The search parameters of deadline mode: `solutionEvalcost` is
`deadlineEvalcost` on the given `estTime` and `price` tables. -/
def deadlineParams (types numoftasks : Nat) (estTime : List (List ℚ)) (price : List ℚ)
    (evalconstraint : Int → List Nat → Bool) : SearchParams :=
  { types := types, numoftasks := numoftasks,
    evalcost := fun _ c => deadlineEvalcost estTime price c,
    evalconstraint := evalconstraint }

/-- Child generation, lines 251-264: `c` is the node that the loop over `t`
builds from head node `h` for one of its candidate types. -/
def isChild (P : SearchParams) (flag : Nat) (h c : configstack) : Prop :=
  h.taskno + 1 < P.numoftasks ∧
  ∃ t ∈ candidateTypes P flag h (h.taskno + 1).toNat, c = mkChild P h (h.taskno + 1).toNat t

/-- Entry by entry, the second assignment keeps the type of the first or raises
it to a valid type. -/
def raisedTo (types : Nat) (a b : List Nat) : Prop :=
  List.Forall₂ (fun x y => x = y ∨ (x ≤ y ∧ y < types)) a b

/-- Two tasks and four types of hourly price 1, 2, 9, 9. Task 0 takes an hour on
every type (cost 1, 2, 9, 9); task 1 takes 7200, 1800, 3600, 3600 seconds (cost
2, 1, 9, 9): type 1 is cheaper for it than type 0. -/
def twoTaskParams : SearchParams :=
  deadlineParams 4 2 [[3600, 3600, 3600, 3600], [7200, 1800, 3600, 3600]] [1, 2, 9, 9]
    (fun _ _ => false)

/-- The initial state of the two-task search: both tasks on type 0, cost 3. -/
def twoTaskInit : configstack := { taskno := -1, fvalue := 3, configurations := [0, 0] }

/-- The seed of the two-task search: both tasks on type 2, cost 18. -/
def twoTaskSeed : configstack := { taskno := 1, fvalue := 18, configurations := [2, 2] }

/-- The halving loop behind `natLog2`, with a bound on its rounds. -/
def log2Aux : Nat → Nat → Nat
  | 0, _ => 0
  | f + 1, n => if n < 2 then 0 else log2Aux f (n / 2) + 1

/-- The position of the leading bit of `n`: `floor(log2 n)` for `n ≥ 1`. -/
def natLog2 (n : Nat) : Nat := log2Aux n n

/-- The power of two `2^e` for an integer `e`. -/
def pow2 (e : Int) : ℚ :=
  if 0 ≤ e then ((2 ^ e.toNat : Nat) : ℚ) else 1 / ((2 ^ (-e).toNat : Nat) : ℚ)

/-- The binary exponent of `x ≠ 0`: the `e` with `2^e ≤ |x| < 2^(e+1)`. -/
def binExp (x : ℚ) : Int :=
  let d : Int := (natLog2 x.num.natAbs : Int) - (natLog2 x.den : Int)
  if pow2 d ≤ |x| then d else d - 1

/-- Rounding to the nearest integer, a tie going to the even one. -/
def roundHalfEven (q : ℚ) : Int :=
  if q - (Rat.floor q : ℚ) < 1 / 2 then Rat.floor q
  else if 1 / 2 < q - (Rat.floor q : ℚ) then Rat.floor q + 1
  else if Rat.floor q % 2 = 0 then Rat.floor q
  else Rat.floor q + 1

/-- The rounding of IEEE 754 arithmetic in a binary format of precision `p`
(24 for `float`, 53 for `double`): `x` is rounded to the nearest multiple of
`2^(e - p + 1)`, `e` its binary exponent, ties to even. The exponent range is
taken as unbounded (no overflow, no subnormal numbers). -/
def roundNE (p : Nat) (x : ℚ) : ℚ :=
  if x = 0 then 0
  else (roundHalfEven (x / pow2 (binExp x - ((p : Int) - 1))) : ℚ)
    * pow2 (binExp x - ((p : Int) - 1))

/-- Line 390: `restTime -= 1` in the floating type of precision `p`, the exact
difference rounded. -/
def fsub1 (p : Nat) (x : ℚ) : ℚ := roundNE p (x - 1)

/-! ### The Monte-Carlo simulator
One replica of `Autoscaling::Simulate`, `Autoscaling.cpp` lines 200-456. -/

/-- The workflow tags that the acceptance step of the simulator tells apart;
`other` stands for any further value of `dags[0]->type`. -/
inductive DagType where
  | montage | montage100 | montage1000
  | ligo | ligo100 | ligo1000
  | epigenome | epi100 | epi1000
  | other
  deriving DecidableEq

/-- The table of lines 222-252: `(readys, numtasks)` of a tag; `none` is the
branch that prints "what is the dag type?" and exits. -/
def admissionTable : DagType → Option (Nat × Nat)
  | DagType.montage => some (4, 20)
  | DagType.montage100 => some (16, 100)
  | DagType.montage1000 => some (166, 1000)
  | DagType.ligo => some (9, 40)
  | DagType.ligo100 => some (23, 100)
  | DagType.ligo1000 => some (229, 1000)
  | DagType.epigenome => some (1, 20)
  | DagType.epi100 => some (1, 100)
  | DagType.epi1000 => some (7, 997)
  | DagType.other => none

/-- A task pointer `taskVertex*`: the index of the job and of the vertex. -/
abbrev TaskRef := Nat × Nat

/-- The record `VM`. The field `id` is a ghost: the number of VMs created before
this one in the replica. -/
structure VM where
  life_time : Nat
  tk : Option TaskRef
  type : Nat
  id : Nat
  deriving DecidableEq

/-- What a replica does not change: the constants `types`, `randomsize`,
`OnDemandLag`, `priceOnDemand`, the flag `autoscaling`, the entry
`(readys, numtasks)` of the table for `dags[0]->type`, the number of jobs and of
vertices of the graph, its in-edges (the sources of the in-edges of each
vertex), the arrival time and deadline of each job, the replica index `monte`,
the result of `std::sort(ready_task.begin(), ready_task.end(), myfunction)`
as a function of the task records and the list (the comparator `myfunction` is
not part of the sources at hand), and the precision in bits of the floating
type of the field `restTime` (24 for `float`, 53 for `double`; the header that
declares the field is not part of the sources at hand either). -/
structure SimEnv where
  types : Nat
  randomsize : Nat
  precision : Nat
  OnDemandLag : Nat
  priceOnDemand : List ℚ
  autoscaling : Bool
  readys : Nat
  numtasks : Nat
  numjobs : Nat
  numvertices : Nat
  in_edges : Nat → List Nat
  arrival_time : Nat → ℚ
  deadline : Nat → ℚ
  monte : Nat
  sortReady : (Nat → Nat → taskVertex) → List TaskRef → List TaskRef

/-- The variables of a replica: the task records of `jobs` (by job and vertex),
the pools `VMTP` (by type), the clock `t` and `moneycost`. Two ghosts: `reaped`
logs the VMs deleted so far, as they were when deleted, and `created` counts
the VMs created so far. -/
structure SimState where
  task : Nat → Nat → taskVertex
  VMTP : Nat → List VM
  t : Nat
  moneycost : ℚ
  reaped : List VM
  created : Nat

/-- The conversion `(int)x` of a float: truncation towards zero. -/
def truncInt (x : ℚ) : Int := if 0 ≤ x then Rat.floor x else Rat.ceil x

/-- The expression `ceil(runtime/3600.0)` for a whole number of seconds. -/
def ceilHours (life_time : Nat) : Nat := (life_time + 3599) / 3600

/-- The price that is added to `moneycost` for a VM of pool `i`. -/
def vmCharge (E : SimEnv) (i : Nat) (vm : VM) : ℚ :=
  E.priceOnDemand.getD i 0 * (ceilHours vm.life_time : ℚ)

/-- The assignment `*p = v` through a task pointer. -/
def setTask (s : SimState) (r : TaskRef) (v : taskVertex) : SimState :=
  { s with task := fun j i => if (j, i) = r then v else s.task j i }

/-- The assignment of a pool `VMTP[i]`. -/
def setPool (s : SimState) (i : Nat) (pool : List VM) : SimState :=
  { s with VMTP := fun k => if k = i then pool else s.VMTP k }

/-- Lines 253-276: what the acceptance of a job does to its vertex `j`. -/
def acceptVertex (E : SimEnv) (j : Nat) (v : taskVertex) : taskVertex :=
  if E.autoscaling = true then
    let v1 :=
      if 1 ≤ j ∧ j < E.readys + 1 then
        { v with status := Status.ready, readyCountdown := -1, restTime := 0 }
      else if E.readys + 1 ≤ j ∧ j < E.numtasks + 1 then
        { v with status := Status.not_ready, readyCountdown := -1, restTime := 0 }
      else v
    if j = 0 ∨ j = E.numtasks + 1 then { v1 with status := Status.finished } else v1
  else
    if j < E.readys then
      { v with status := Status.ready, readyCountdown := -1, restTime := 0 }
    else if j < E.numtasks then
      { v with status := Status.not_ready, readyCountdown := -1, restTime := 0 }
    else v

/-- Lines 218-280: every job whose arrival time is the current tick is accepted. -/
def acceptJobs (E : SimEnv) (s : SimState) : SimState :=
  { s with task := fun j i =>
      if j < E.numjobs ∧ (s.t : Int) = truncInt (E.arrival_time j) then
        acceptVertex E i (s.task j i)
      else s.task j i }

/-- Lines 287-305: the test that puts vertex `i` of job `ji` in `ready_task`. -/
def isReady (E : SimEnv) (s : SimState) (ji i : Nat) : Bool :=
  let tag := !(E.in_edges i).isEmpty &&
    (E.in_edges i).all (fun src => decide ((s.task ji src).status = Status.finished))
  decide ((s.task ji i).status = Status.ready) ||
    (tag && decide ((s.task ji i).status ≠ Status.scheduled) &&
      decide ((s.task ji i).status ≠ Status.finished))

/-- Lines 282-310: `ready_task` before it is sorted. -/
def readyList (E : SimEnv) (s : SimState) : List TaskRef :=
  (List.range E.numjobs).flatMap (fun ji =>
    ((List.range E.numvertices).filter (fun i => isReady E s ji i)).map (fun i => (ji, i)))

/-- Lines 324-332: the first VM of the pool without a task is given task `r`;
`none` when every VM of the pool has a task. -/
def bindIdle (r : TaskRef) : List VM → Option (List VM)
  | [] => none
  | vm :: rest =>
    if vm.tk = none then some ({ vm with tk := some r } :: rest)
    else (bindIdle r rest).map (fun l => vm :: l)

/-- Lines 316-355: the body of the dispatch loop for the task `r`. -/
def dispatchOne (E : SimEnv) (s : SimState) (r : TaskRef) : SimState :=
  let curr := s.task r.1 r.2
  if curr.readyCountdown = -1 then
    match bindIdle r (s.VMTP curr.assigned_type) with
    | some pool =>
      setPool (setTask s r
        { curr with
          status := Status.scheduled
          tasktime := s.t
          restTime := curr.probestTime.getD (curr.assigned_type * E.randomsize + E.monte) 0 })
        curr.assigned_type pool
    | none => setTask s r { curr with readyCountdown := E.OnDemandLag, tasktime := s.t }
  else if curr.readyCountdown = 0 then
    let s1 := setTask s r
      { curr with
        status := Status.scheduled
        restTime := curr.probestTime.getD (curr.assigned_type * E.randomsize + E.monte) 0 }
    { setPool s1 curr.assigned_type
        (s.VMTP curr.assigned_type ++
          [{ life_time := E.OnDemandLag, tk := some r, type := curr.assigned_type,
             id := s.created }]) with
      created := s.created + 1 }
  else s

/-- Lines 360-375: the VMs of pool `i` without a task are charged and deleted. -/
def reapPool (E : SimEnv) (s : SimState) (i : Nat) : SimState :=
  let idle := (s.VMTP i).filter (fun vm => decide (vm.tk = none))
  { setPool s i ((s.VMTP i).filter (fun vm => !decide (vm.tk = none))) with
    moneycost := idle.foldl (fun m vm => m + vmCharge E i vm) s.moneycost
    reaped := s.reaped ++ idle }

/-- Lines 358-376: the loop over the pools. -/
def reapIdle (E : SimEnv) (s : SimState) : SimState :=
  (List.range E.types).foldl (reapPool E) s

/-- Lines 379-384: `scheduled_task`. -/
def scheduledList (E : SimEnv) (s : SimState) : List TaskRef :=
  (List.range E.numjobs).flatMap (fun ji =>
    ((List.range E.numvertices).filter
      (fun i => decide ((s.task ji i).status = Status.scheduled))).map (fun i => (ji, i)))

/-- Lines 398-403: the first VM of the pool that holds task `r` loses it. -/
def releaseTask (r : TaskRef) : List VM → List VM
  | [] => []
  | vm :: rest =>
    if vm.tk = some r then { vm with tk := none } :: rest else vm :: releaseTask r rest

/-- Lines 390-404: the body of the progress loop for the scheduled task `r`. -/
def progressOne (E : SimEnv) (s : SimState) (r : TaskRef) : SimState :=
  let curr := s.task r.1 r.2
  let rest := fsub1 E.precision curr.restTime
  if rest ≤ 0 then
    let tasktime := (s.t : ℚ) - curr.tasktime
    setPool (setTask s r
      { curr with
        restTime := rest
        status := Status.finished
        end_time := s.t
        tasktime := tasktime
        cost := tasktime * E.priceOnDemand.getD curr.assigned_type 0 / 3600 })
      curr.assigned_type (releaseTask r (s.VMTP curr.assigned_type))
  else setTask s r { curr with restTime := rest }

/-- Lines 407-415: every VM of the pools `0 .. types-1` ages by one tick. -/
def ageVMs (E : SimEnv) (s : SimState) : SimState :=
  { s with VMTP := fun i =>
      if i < E.types then (s.VMTP i).map (fun vm => { vm with life_time := vm.life_time + 1 })
      else s.VMTP i }

/-- Lines 416-418: the body of the loop over `ready_task` that counts the
provisioning delay down. -/
def countdownOne (s : SimState) (r : TaskRef) : SimState :=
  if (s.task r.1 r.2).readyCountdown > 0 then
    setTask s r { s.task r.1 r.2 with readyCountdown := (s.task r.1 r.2).readyCountdown - 1 }
  else s

/-- Lines 217-356: acceptance, discovery of the ready tasks, sorting, dispatch.
Returns the variables and the sorted `ready_task`. -/
def dispatchPhase (E : SimEnv) (s : SimState) : SimState × List TaskRef :=
  let s1 := acceptJobs E s
  let ready_task := E.sortReady s1.task (readyList E s1)
  (ready_task.foldl (dispatchOne E) s1, ready_task)

/-- Lines 357-419: deletion of idle VMs, progress of the scheduled tasks, aging
of the VMs, countdown of the provisioning delays, `t += 1`. -/
def finishTick (E : SimEnv) (s : SimState) (ready_task : List TaskRef) : SimState :=
  let s2 := reapIdle E s
  let s3 := (scheduledList E s2).foldl (progressOne E) s2
  let s4 := ageVMs E s3
  let s5 := ready_task.foldl countdownOne s4
  { s5 with t := s5.t + 1 }

/-- One round of the `do ... while(condition)` loop of lines 216-433. -/
def tick (E : SimEnv) (s : SimState) : SimState :=
  finishTick E (dispatchPhase E s).1 (dispatchPhase E s).2

/-- Lines 421-432: `condition`, some task of some job is not finished. -/
def unfinished (E : SimEnv) (s : SimState) : Bool :=
  (List.range E.numjobs).any (fun ji =>
    (List.range E.numvertices).any (fun i => decide ((s.task ji i).status ≠ Status.finished)))

/-- The state after `n` rounds of the tick loop, whatever `condition` says. -/
def ticks (E : SimEnv) : Nat → SimState → SimState
  | 0, s => s
  | n + 1, s => ticks E n (tick E s)

/-- The `do ... while(condition)` loop with a bound on the number of rounds;
`none` when the bound is reached while `condition` still holds. -/
def simLoop (E : SimEnv) : Nat → SimState → Option SimState
  | 0, _ => none
  | n + 1, s => if unfinished E (tick E s) = true then simLoop E n (tick E s) else some (tick E s)

/-- The VMs of the pools `0 .. types-1`, pool after pool. -/
def liveVMs (E : SimEnv) (s : SimState) : List VM :=
  (List.range E.types).flatMap s.VMTP

/-- Lines 435-443: every VM that is still in a pool is charged. -/
def finalize (E : SimEnv) (s : SimState) : SimState :=
  (List.range E.types).foldl
    (fun s' i => { s' with moneycost := (s.VMTP i).foldl (fun m vm => m + vmCharge E i vm) s'.moneycost })
    s

/-- Lines 208-214: the variables of a replica before its first tick, given the
task records of its jobs. -/
def simInit (task : Nat → Nat → taskVertex) : SimState :=
  { task := task, VMTP := fun _ => [], t := 0, moneycost := 0, reaped := [], created := 0 }

/-- The accounting invariant of a replica: a VM sits in the pool of its type, and
only the pools `0 .. types-1` are used; every task is assigned a valid type;
`moneycost` is the sum of the charges of the deleted VMs; the VMs deleted so
far and the VMs in the pools are, one for one, the VMs created so far. -/
def AcctInv (E : SimEnv) (s : SimState) : Prop :=
  (∀ i, ∀ vm ∈ s.VMTP i, vm.type = i ∧ i < E.types) ∧
  (∀ j i, (s.task j i).assigned_type < E.types) ∧
  s.moneycost = (s.reaped.map (fun vm => vmCharge E vm.type vm)).sum ∧
  ((s.reaped ++ liveVMs E s).map VM.id).Perm (List.range s.created)

/-- What the countdown loop of lines 416-418 does to the record of a task of
`ready_task`. -/
def countedDown (v : taskVertex) : taskVertex :=
  if v.readyCountdown > 0 then { v with readyCountdown := v.readyCountdown - 1 } else v

/-- The task `r`, of an accepted job, is provisioning at the start of a tick:
it is a vertex of a job whose arrival tick is past, its `readyCountdown` is `c`,
its assigned type is `a`, and the test of lines 287-305 puts it in
`ready_task`. -/
def Waiting (E : SimEnv) (r : TaskRef) (a : Nat) (c : Int) (s : SimState) : Prop :=
  r.1 < E.numjobs ∧ r.2 < E.numvertices ∧ truncInt (E.arrival_time r.1) < (s.t : Int) ∧
  (s.task r.1 r.2).readyCountdown = c ∧ (s.task r.1 r.2).assigned_type = a ∧
  isReady E s r.1 r.2 = true

/-- The record of every task of the example replicas: one sample of 5 time
units on type 0, assigned type 0. -/
def chainTask : taskVertex :=
  { cpuTime := [5], trans_data := 0, rec_data := 0, read_data := 0, seq_data := 0,
    netUp := [0], netDown := [0], randomIO := [0], seqIO := [0],
    probestTime := [5], estTime := [5], assigned_type := 0, sub_deadline := 100,
    status := Status.not_ready, readyCountdown := -1, restTime := 0, tasktime := 0,
    end_time := 0, cost := 0 }

/-- The record `chainTask` with a sampled time of `2^60` time units. -/
def hugeTask : taskVertex :=
  { chainTask with probestTime := [1152921504606846976] }

/-- The record of a task `hugeTask` once it is bound to its VM. -/
def hugeBound : taskVertex :=
  { hugeTask with status := Status.scheduled, readyCountdown := 0,
                  restTime := 1152921504606846976 }

/-- A replica of one job of the tag `epigenome` (`readys = 1`, `numtasks = 20`)
that arrives at time 0, called with `autoscaling = false`: 20 vertices in a
chain, 4 types, provisioning delay `L`. A single list entry is sorted as it is. -/
def chainEnv (L : Nat) : SimEnv :=
  { types := 4, randomsize := 1, precision := 24, OnDemandLag := L,
    priceOnDemand := [1, 2, 4, 8],
    autoscaling := false, readys := 1, numtasks := 20, numjobs := 1, numvertices := 20,
    in_edges := fun i => if i = 0 then [] else [i - 1],
    arrival_time := fun _ => 0, deadline := fun _ => 100, monte := 0,
    sortReady := fun _ l => l }

/-- A replica of two jobs of the tag `montage` (`readys = 4`, `numtasks = 20`),
called with `autoscaling = false`: 20 vertices in a chain (one source, vertex 0,
one sink, vertex 19), the first job arrives at time 0 and the second at time 5. -/
def montageChainEnv : SimEnv :=
  { types := 4, randomsize := 1, precision := 24, OnDemandLag := 0,
    priceOnDemand := [1, 2, 4, 8],
    autoscaling := false, readys := 4, numtasks := 20, numjobs := 2, numvertices := 20,
    in_edges := fun i => if i = 0 then [] else [i - 1],
    arrival_time := fun j => if j = 0 then 0 else 5, deadline := fun _ => 100, monte := 0,
    sortReady := fun _ l => l }

/-- The replica of `chainEnv 0` called with `autoscaling = true`: the chain has
22 vertices, vertex 0 and vertex 21 stand for the source and the sink. -/
def chainEnvAuto : SimEnv :=
  { chainEnv 0 with autoscaling := true, numvertices := 22 }

/-- Line 450: `executiontime` of job `i`, the `end_time` of the vertex
`*(vp.second-2)`, the last but one, minus the arrival time of the job. (With
fewer than two vertices the index lies outside the graph; the truncated
subtraction stands for it here.) -/
def executiontime (E : SimEnv) (s : SimState) (i : Nat) : ℚ :=
  (s.task i (E.numvertices - 2)).end_time - E.arrival_time i

/-- Lines 447-455: the loop over the jobs of a replica that has left its tick
loop in the state `s`, run by the thread `id`: `viol_private[id] += 1.0` for
every job whose execution time exceeds its deadline. -/
def countViolations (E : SimEnv) (viol_private : List ℚ) (id : Nat) (s : SimState) : List ℚ :=
  (List.range E.numjobs).foldl
    (fun vp i =>
      if executiontime E s i > E.deadline i then vp.set id (vp.getD id 0 + 1) else vp)
    viol_private

/-- Lines 33-35 and 187-462: `viol_private` after the replicas, given for each
replica the thread that ran it and the state in which it left its tick loop. -/
def viol_private (E : SimEnv) (replicas : List (Nat × SimState)) : List ℚ :=
  replicas.foldl (fun vp f => countViolations E vp f.1 f.2) (List.replicate 24 0)

/-- Lines 474-480: `violation`, the sum of the 24 entries of `viol_private`
divided by `(float)randomsize*num_jobs`. -/
def violation (E : SimEnv) (num_jobs : ℚ) (replicas : List (Nat × SimState)) : ℚ :=
  (viol_private E replicas).sum / ((E.randomsize : ℚ) * num_jobs)

/-- Line 480: the printed deadline meeting rate, `1.0 - violation`. -/
def deadline_meeting_rate (E : SimEnv) (num_jobs : ℚ) (replicas : List (Nat × SimState)) : ℚ :=
  1 - violation E num_jobs replicas

/-- The task `sampleTask` when the array `probestTime`, allocated and not yet
written, holds the value 7 in each of its 16 entries. -/
def sampleTaskStale : taskVertex :=
  { sampleTask with probestTime := List.replicate 16 7 }

/-- The four sample files as `fopen` and the loop of `fgets`/`atof` see them:
the numbers of the lines of a file, or `none` for a file that cannot be
opened. -/
structure SampleFiles where
  randio : Option (List ℚ)
  seqio : Option (List ℚ)
  netup : Option (List ℚ)
  netdown : Option (List ℚ)

/-- The copy loops of lines 52-56, 66-70, 80-84 and 94-98: entry
`i*randomsize + j` of a table is line `i*10000 + j` of its file. (A line that
the file does not have leaves `random_tmp` as allocated; the value 0 stands for
it here.) -/
def copySamples (types randomsize : Nat) (random_tmp : List ℚ) : List ℚ :=
  (List.range types).flatMap (fun i =>
    (List.range randomsize).map (fun j => random_tmp.getD (i * 10000 + j) 0))

/-- Lines 43-99: the four files are opened and copied; `none` is `exit(1)`,
taken when a file cannot be opened. -/
def readSampleTables (types randomsize : Nat) (f : SampleFiles) : Option SampleTables :=
  match f.randio, f.seqio, f.netup, f.netdown with
  | some r, some s, some u, some d =>
    some { random_sequential_io := copySamples types randomsize s,
           random_random_io := copySamples types randomsize r,
           random_network_up := copySamples types randomsize u,
           random_network_down := copySamples types randomsize d }
  | _, _, _, _ => none

/-- Lines 43-123: the sample files are read and the time vectors of the tasks
are derived. The only exits are those of the four `fopen` tests: no sample is
tested before it is used as a divisor. -/
def readAndDerive (f : SampleFiles) (types randomsize : Nat) (meet_dl : ℚ)
    (g : List taskVertex) : Option (List taskVertex) :=
  (readSampleTables types randomsize f).map
    (fun tb => derive_time_vectors tb types randomsize meet_dl g)

/-- Sample files for one type and one sample: the random I/O rate is `-1`, the
other rates are 1. -/
def negativeFiles : SampleFiles :=
  { randio := some [-1], seqio := some [1], netup := some [1], netdown := some [1] }

/-- A task for one type and one sample: no CPU time, `read_data = 12`. -/
def smallTask : taskVertex :=
  { cpuTime := [0], trans_data := 0, rec_data := 0, read_data := 12, seq_data := 0,
    netUp := [0], netDown := [0], randomIO := [0], seqIO := [0],
    probestTime := [0], estTime := [0], assigned_type := 0,
    sub_deadline := 0, status := Status.not_ready, readyCountdown := -1, restTime := 0,
    tasktime := 0, end_time := 0, cost := 0 }

/-- The bound of the specification on `moneycost`: the sum, over the tasks that
a VM of the pools holds, of `price[assigned_type] * tasktime / 3600`. -/
def boundTaskCost (E : SimEnv) (s : SimState) : ℚ :=
  (((liveVMs E s).filterMap (fun vm => vm.tk)).map (fun r =>
    E.priceOnDemand.getD (s.task r.1 r.2).assigned_type 0 * (s.task r.1 r.2).tasktime
      / 3600)).sum

/-- Lines 463-466: the comparator `configsortfunction` that is passed to
`std::nth_element` in the selection loop. -/
def configsortfunction (a b : configstack) : Bool :=
  decide (a.fvalue > b.fvalue)

/-- A search over 4 tasks and 4 types in which every node that is kept costs 0
and every other node costs 1, the cost of the seed. No node meets the
constraint. -/
def tieParams : SearchParams :=
  { types := 4, numoftasks := 4,
    evalcost := fun _ c =>
      if c ∈ [[1, 0, 0, 0], [2, 0, 0, 0], [3, 0, 0, 0], [1, 1, 0, 0], [1, 2, 0, 0],
              [1, 3, 0, 0], [1, 1, 1, 0], [1, 1, 1, 1], [1, 3, 1, 0], [1, 3, 2, 0]]
      then 0 else 1,
    evalconstraint := fun _ _ => false }

/-- The initial state of the search `tieParams`. -/
def tieInit : configstack := { taskno := -1, fvalue := 0, configurations := [0, 0, 0, 0] }

/-- The seed of the search `tieParams`, of cost 1. -/
def tieSeed : configstack := { taskno := 3, fvalue := 1, configurations := [3, 3, 3, 3] }

/-- The pointers of a search state are those the search can hold: `Closeset`
holds no heap address (it only receives addresses of the slots `node[tid]`),
and every pointer of `Openset` was allocated before the allocator's next
address. -/
def AddrInv (s : SearchState) : Prop :=
  (∀ id, Addr.heap id ∉ s.Closeset) ∧ (∀ x ∈ s.Openset, x.1 < s.heapnext)

/-- The sampled execution time `probestTime[assigned_type*randomsize + monte]`
that a task receives as `restTime` when it is bound to a VM (lines 336, 347). -/
def sampledRest (E : SimEnv) (v : taskVertex) : ℚ :=
  v.probestTime.getD (v.assigned_type * E.randomsize + E.monte) 0

/-- What the progress loop of lines 390-404 does at tick `t` to the record of a
scheduled task. -/
def progressed (E : SimEnv) (t : Nat) (v : taskVertex) : taskVertex :=
  if fsub1 E.precision v.restTime ≤ 0 then
    { v with
      restTime := fsub1 E.precision v.restTime
      status := Status.finished
      end_time := t
      tasktime := (t : ℚ) - v.tasktime
      cost := ((t : ℚ) - v.tasktime) * E.priceOnDemand.getD v.assigned_type 0 / 3600 }
  else { v with restTime := fsub1 E.precision v.restTime }

/-- Lines 333-337: the record of a task that is given an idle VM at tick `t`. -/
def boundNow (E : SimEnv) (t : Nat) (v : taskVertex) : taskVertex :=
  { v with status := Status.scheduled, tasktime := t, restTime := sampledRest E v }

/-- Lines 338-342: the record of a task that finds no idle VM at tick `t` and
starts the provisioning delay. -/
def provisioned (E : SimEnv) (t : Nat) (v : taskVertex) : taskVertex :=
  { v with readyCountdown := E.OnDemandLag, tasktime := t }

/-- Lines 344-355: the record of a task whose delay has run out and that is
given a new VM. -/
def boundNew (E : SimEnv) (v : taskVertex) : taskVertex :=
  { v with status := Status.scheduled, restTime := sampledRest E v }

/-- The number of ticks the progress loop needs to bring a `restTime` of `x` to
zero or below: `ceil(x)`, and one tick when `x ≤ 0`. -/
def ticksNeeded (x : ℚ) : Nat := max ⌈x⌉₊ 1

/-- The number `x` is a value of the floating type of precision `p` (rounding
leaves it as it is) below `2^p`; down to 0 the decrement of such a value is
exact. -/
def SmallFloat (p : Nat) (x : ℚ) : Prop := roundNE p x = x ∧ x < (2 : ℚ) ^ p

/-- The record of vertex `i` of job `j` in tick `n` of the replica that starts
from the records `task`, as the tick sees it after its acceptance step. -/
def jobTask (E : SimEnv) (task : Nat → Nat → taskVertex) (j n i : Nat) : taskVertex :=
  (acceptJobs E (ticks E n (simInit task))).task j i

/-- Lines 36 and 172-178: the arrival time of job `j`. Job 0 is `dags[0]`, with
`arrival_time = 0`; job `j ≥ 1` takes its arrival time from the arrival-time
file, `arrivals` being the numbers of its lines after the two header lines. -/
def jobArrival (arrivals : List ℚ) (j : Nat) : ℚ :=
  if j = 0 then 0 else arrivals.getD (j - 1) 0

/-- Modelled from the spec: the deadline field of job `j`. The constructor
`DAG(deadline, meet_dl)` is not part of the sources at hand; it is taken to
store its first argument, which line 176 gives as
`dags[0]->deadline + arrival_time`. Job 0 is `dags[0]`, of deadline `D`. -/
def jobDeadline (D : ℚ) (arrivals : List ℚ) (j : Nat) : ℚ :=
  if j = 0 then D else D + jobArrival arrivals j

/-- The replica `E` with the jobs of lines 172-183: base deadline `D` and the
arrival times `arrivals`. -/
def jobsEnv (E : SimEnv) (D : ℚ) (arrivals : List ℚ) : SimEnv :=
  { E with arrival_time := jobArrival arrivals, deadline := jobDeadline D arrivals }

/-! ### The two array helpers
`conv` and `calmaxdistr`, `AstarSearch.cpp` lines 472-498. An array is a list;
`result` is the array the function writes to. -/

/-- Lines 475-479: the value `tmp` that `conv` computes for `result[index]`. -/
def convEntry (array1 array2 : List ℚ) (length1 length2 index : Nat) : ℚ :=
  (List.range length1).foldl
    (fun tmp k =>
      if index ≥ k ∧ index - k < length2 then tmp + array1.getD k 0 * array2.getD (index - k) 0
      else tmp)
    0

/-- The function `conv`, lines 472-482: `result[index]` is written for
`index < length1 + length2 - 1`. -/
def conv (array1 array2 result : List ℚ) (length1 length2 : Nat) : List ℚ :=
  (List.range (length1 + length2 - 1)).foldl
    (fun res index => res.set index (convEntry array1 array2 length1 length2 index))
    result

/-- Lines 490-496: the body of the inner loop of `calmaxdistr` for the pair
`(i, j)`. The `printf("")` of line 491 prints nothing. -/
def maxdistrStep (array1 array2 : List ℚ) (i : Nat) (res : List ℚ) (j : Nat) : List ℚ :=
  if i ≥ j then res.set i (res.getD i 0 + array1.getD i 0 * array2.getD j 0)
  else res.set j (res.getD j 0 + array1.getD i 0 * array2.getD j 0)

/-- The function `calmaxdistr`, lines 483-498: `result` is zeroed below
`max(length1, length2)`, then every pair `(i, j)` adds its product. -/
def calmaxdistr (array1 array2 result : List ℚ) (length1 length2 : Nat) : List ℚ :=
  let length := if length1 > length2 then length1 else length2
  let zeroed := (List.range length).foldl (fun res i => res.set i 0) result
  (List.range length1).foldl
    (fun res i => (List.range length2).foldl (maxdistrStep array1 array2 i) res)
    zeroed

/-- The binding of tasks and VMs in a replica: a VM sits in the pool of its type
and the task it holds is a scheduled task of a job, assigned to that type; every
scheduled task of a job is held by a VM of the pool of its assigned type; and
within a pool no task is held twice. -/
def BindInv (E : SimEnv) (s : SimState) : Prop :=
  (∀ k, ∀ vm ∈ s.VMTP k, vm.type = k ∧
    ∀ r, vm.tk = some r →
      r.1 < E.numjobs ∧ r.2 < E.numvertices ∧
      (s.task r.1 r.2).status = Status.scheduled ∧ (s.task r.1 r.2).assigned_type = k) ∧
  (∀ j i, j < E.numjobs → i < E.numvertices → (s.task j i).status = Status.scheduled →
    ∃ vm ∈ s.VMTP (s.task j i).assigned_type, vm.tk = some (j, i)) ∧
  (∀ k, ((s.VMTP k).filterMap VM.tk).Nodup)

/-- The jobs that are still to be accepted are dormant: none of their tasks is
scheduled or passes the test of lines 287-305. -/
def Dormant (E : SimEnv) (s : SimState) : Prop :=
  ∀ j, (s.t : Int) ≤ truncInt (E.arrival_time j) → ∀ i,
    (s.task j i).status ≠ Status.scheduled ∧ isReady E s j i = false

/-- The variables of the replica that starts from the records `task`, after the
dispatch loop of tick `n` (lines 217-356). -/
def dispatched (E : SimEnv) (task : Nat → Nat → taskVertex) (n : Nat) : SimState :=
  (dispatchPhase E (ticks E n (simInit task))).1

/-! ### The parallel region, worker by worker
Lines 221-306: the workers of a batch run at the same time on the shared
variables `globalBestCost`, `solutions` and `Closeset`. A run of the region is
an interleaving of the steps of the workers, each step holding one access to a
shared variable that the region writes. -/

/-- Where a worker stands in its program: before the test of lines 235-236,
before the assignment of line 237, before the `push_back` of lines 238-241,
before the `push_back` of lines 246-249, at the head of a round of the loop over
`t` (lines 261-276: allocation and the `std::find` over `Closeset`), before the
test of line 280, or at its end. -/
inductive Phase where
  | test | store | push | close | find | cost | done
  deriving DecidableEq

/-- The private variables of a worker: its head node `node[tid]`, its place in the
program, the types `t` still to come in its loop, and, within a round of the
loop, the type `t`, the pointer `state` and the flag `closeset_in`; then
`localOpenset[tid]`. `reads` is a ghost: the values of `globalBestCost` that the
tests of line 280 have read so far, in the order of the tests. -/
structure Worker where
  head : configstack
  pc : Phase
  todo : List Nat
  t : Nat
  state : Nat
  closeset_in : Bool
  localOpenset : List (Nat × configstack)
  reads : List ℚ

/-- One step of worker `tid` on the shared variables `s`.
The test of lines 235-236 reads `globalBestCost`; the assignment of line 237 and
the `push_back` of line 240 are steps of their own (only the latter is in a
critical section), and so is the `push_back` of line 248. A round of the loop
over `t` takes two steps: the first allocates `state` and searches `Closeset`
for it (lines 262 and 276), the second reads `globalBestCost` at line 280 and,
when the test passes, searches `Openset`, which no worker writes in the region
(line 286), and pushes `state` on `localOpenset[tid]`. -/
def workerStep (P : SearchParams) (flag : Nat) (tid : Nat) (s : SearchState) (w : Worker) :
    SearchState × Worker :=
  match w.pc with
  | Phase.test =>
    if P.evalconstraint w.head.taskno w.head.configurations = true ∧
        w.head.fvalue < s.globalBestCost then
      (s, { w with pc := Phase.store })
    else (s, { w with pc := Phase.close })
  | Phase.store => ({ s with globalBestCost := w.head.fvalue }, { w with pc := Phase.push })
  | Phase.push => ({ s with solutions := s.solutions ++ [w.head] }, { w with pc := Phase.close })
  | Phase.close =>
    ({ s with Closeset := s.Closeset ++ [Addr.slot tid], expanded := s.expanded ++ [w.head] },
      if w.head.taskno + 1 < P.numoftasks then
        { w with pc := Phase.find,
                 todo := candidateTypes P flag w.head (w.head.taskno + 1).toNat }
      else { w with pc := Phase.done })
  | Phase.find =>
    match w.todo with
    | [] => (s, { w with pc := Phase.done })
    | t :: rest =>
      ({ s with heapnext := s.heapnext + 1 },
        { w with pc := Phase.cost, todo := rest, t := t, state := s.heapnext,
                 closeset_in := decide (Addr.heap s.heapnext ∈ s.Closeset) })
  | Phase.cost =>
    let nexttask := (w.head.taskno + 1).toNat
    let configurations := w.head.configurations.set nexttask w.t
    let currentcost := P.evalcost nexttask configurations
    (s, { w with
      pc := Phase.find
      reads := w.reads ++ [s.globalBestCost]
      localOpenset :=
        if currentcost ≥ s.globalBestCost ∨ w.closeset_in = true then w.localOpenset
        else if w.state ∈ s.Openset.map Prod.fst then w.localOpenset
        else w.localOpenset ++
          [(w.state, { taskno := nexttask, fvalue := currentcost,
                       configurations := configurations })] })
  | Phase.done => (s, w)

/-- The step of the region in which worker `tid` moves. -/
def parStep (P : SearchParams) (flag : Nat) (st : SearchState × List Worker) (tid : Nat) :
    SearchState × List Worker :=
  match st.2.get? tid with
  | some w => ((workerStep P flag tid st.1 w).1, st.2.set tid (workerStep P flag tid st.1 w).2)
  | none => st

/-- The workers at the start of the region, one for each selected node. -/
def startWorkers (batch : List configstack) : List Worker :=
  batch.map (fun h => { head := h, pc := Phase.test, todo := [], t := 0, state := 0,
                        closeset_in := false, localOpenset := [], reads := [] })

/-- The end of the region: every worker is run to the end of its program, which
has at most `2 * types + 8` steps. -/
def drain (P : SearchParams) (limit : Nat) : List Nat :=
  (List.range limit).flatMap (fun tid => List.replicate (2 * P.types + 8) tid)

/-- The parallel region on the selected nodes `batch`, the workers moving in the
order that the schedule `sched` gives (a list of worker indices, one for each
step; an index that is no worker's, or that of a worker at its end, changes
nothing). The region ends when every worker is at its end (the barrier of line
305): workers that the schedule has not brought there are then run to it. Every
interleaving of the workers' steps is the run of some schedule. -/
def parBatch (P : SearchParams) (flag : Nat) (sched : List Nat) (s : SearchState)
    (batch : List configstack) : SearchState × List Worker :=
  (sched ++ drain P batch.length).foldl (parStep P flag) (s, startWorkers batch)

/-- The parallel region of the round that starts in `s`, after the selection of
lines 211-220, under the schedule `sched`. -/
def parRegion (P : SearchParams) (flag : Nat) (sched : List Nat) (s : SearchState) :
    SearchState × List Worker :=
  parBatch P flag sched { s with Openset := (selectBatch 6 s.Openset).2 }
    (selectBatch 6 s.Openset).1

/-- The body of the `while` loop, lines 210-317, with the parallel region run
under the schedule `sched`. -/
def parSearchStep (P : SearchParams) (flag : Nat) (sched : List Nat) (s : SearchState) :
    SearchState :=
  { (parRegion P flag sched s).1 with
    Openset := mergeLocal (selectBatch 6 s.Openset).2
      ((parRegion P flag sched s).2.map Worker.localOpenset)
    searchcount := (parRegion P flag sched s).1.searchcount + (selectBatch 6 s.Openset).1.length }

/-- The rounds of the search loop, one schedule for each round (a round is
skipped once the guard has failed). -/
def parRounds (P : SearchParams) (flag : Nat) : List (List Nat) → SearchState → SearchState
  | [], s => s
  | sched :: rest, s =>
    if searchDone s = true then s else parRounds P flag rest (parSearchStep P flag sched s)

/-- A deadline-mode search over two tasks and four types of hourly price 3600:
task 0 costs 10, 5, 3, 7 on the four types, task 1 costs 0 on type 0 and 100 on
the others. Every node meets the constraint. -/
def raceParams : SearchParams :=
  deadlineParams 4 2 [[10, 5, 3, 7], [0, 100, 100, 100]] [3600, 3600, 3600, 3600]
    (fun _ _ => true)

/-- The initial state of the search `raceParams`: both tasks on type 0, cost
10. -/
def raceInit : configstack := { taskno := -1, fvalue := 10, configurations := [0, 0] }

/-- The seed of the search `raceParams`, of cost 10. -/
def raceSeed : configstack := { taskno := 1, fvalue := 10, configurations := [0, 0] }

/-- The search of `OfflineAstar` with the parallel region of each round run under
the schedule given for it: `foundsolution = solutions.back()` (line 389) once the
loop guard has failed; `none` when the rounds given do not reach that point. -/
def OfflineAstarUnder (P : SearchParams) (scheds : List (List Nat))
    (initialstate feasible : configstack) : Option configstack :=
  if searchDone (parRounds P localFlag scheds (searchInit initialstate feasible)) = true then
    (parRounds P localFlag scheds (searchInit initialstate feasible)).solutions.getLast?
  else none

/-- The search `raceParams` with task 1 costing 1 on the types 1, 2 and 3: the
children of a node of cost `c` for task 1 all cost `c + 1`. -/
def pruneParams : SearchParams :=
  deadlineParams 4 2 [[10, 5, 3, 7], [0, 1, 1, 1]] [3600, 3600, 3600, 3600]
    (fun _ _ => true)

/-! ## Part 2: theorems -/

/-! ### The floating decrement of `restTime` -/

theorem log2Aux_spec : ∀ (f n : Nat), n ≤ f → n ≠ 0 →
    2 ^ log2Aux f n ≤ n ∧ n < 2 ^ (log2Aux f n + 1) := by
  intro f
  induction f with
  | zero => intro n h h0; omega
  | succ f ih =>
    intro n h h0
    simp only [log2Aux]
    split
    · constructor
      · simp; omega
      · simp; omega
    · rename_i h2
      obtain ⟨a, b⟩ := ih (n / 2) (by omega) (by omega)
      constructor
      · rw [pow_succ]
        omega
      · rw [pow_succ]
        omega

theorem natLog2_spec (n : Nat) (h : n ≠ 0) :
    2 ^ natLog2 n ≤ n ∧ n < 2 ^ (natLog2 n + 1) :=
  log2Aux_spec n n (le_refl _) h

theorem pow2_eq_zpow (e : Int) : pow2 e = (2 : ℚ) ^ e := by
  unfold pow2
  split
  · rename_i h
    obtain ⟨k, rfl⟩ := Int.eq_ofNat_of_zero_le h
    simp
  · rename_i h
    obtain ⟨k, hk⟩ := Int.exists_eq_neg_ofNat (le_of_lt (not_le.mp h))
    subst hk
    simp

theorem pow2_pos (e : Int) : 0 < pow2 e := by
  rw [pow2_eq_zpow]
  positivity

theorem binExp_spec (x : ℚ) (hx : x ≠ 0) :
    pow2 (binExp x) ≤ |x| ∧ |x| < pow2 (binExp x + 1) := by
  have hnum : x.num.natAbs ≠ 0 := by
    simpa using (Rat.num_ne_zero.mpr hx)
  obtain ⟨a1, a2⟩ := natLog2_spec x.num.natAbs hnum
  obtain ⟨b1, b2⟩ := natLog2_spec x.den x.den_nz
  have habs : |x| = (x.num.natAbs : ℚ) / (x.den : ℚ) := by
    conv_lhs => rw [← Rat.num_div_den x]
    rw [abs_div, Nat.abs_cast]
    congr 1
    rw [← Int.cast_abs, Int.abs_eq_natAbs, Int.cast_natCast]
  have hden : (0 : ℚ) < (x.den : ℚ) := by exact_mod_cast x.den_pos
  have a1' : (2 : ℚ) ^ (natLog2 x.num.natAbs : Int) ≤ (x.num.natAbs : ℚ) := by
    rw [zpow_natCast]; exact_mod_cast a1
  have a2' : (x.num.natAbs : ℚ) < (2 : ℚ) ^ ((natLog2 x.num.natAbs : Int) + 1) := by
    rw [show ((natLog2 x.num.natAbs : Int) + 1) = ((natLog2 x.num.natAbs + 1 : Nat) : Int) by simp,
      zpow_natCast]
    exact_mod_cast a2
  have b1' : (2 : ℚ) ^ (natLog2 x.den : Int) ≤ (x.den : ℚ) := by
    rw [zpow_natCast]; exact_mod_cast b1
  have b2' : (x.den : ℚ) < (2 : ℚ) ^ ((natLog2 x.den : Int) + 1) := by
    rw [show ((natLog2 x.den : Int) + 1) = ((natLog2 x.den + 1 : Nat) : Int) by simp,
      zpow_natCast]
    exact_mod_cast b2
  have hpb : (0 : ℚ) < (2 : ℚ) ^ (natLog2 x.den : Int) := by positivity
  have two : (2 : ℚ) ≠ 0 := by norm_num
  -- the two outer bounds
  have lo : (2 : ℚ) ^ ((natLog2 x.num.natAbs : Int) - (natLog2 x.den : Int) - 1) ≤ |x| := by
    rw [habs, le_div_iff₀ hden]
    have e : (2 : ℚ) ^ ((natLog2 x.num.natAbs : Int) - (natLog2 x.den : Int) - 1)
        * (2 : ℚ) ^ ((natLog2 x.den : Int) + 1) = (2 : ℚ) ^ (natLog2 x.num.natAbs : Int) := by
      rw [← zpow_add₀ two]
      congr 1
      ring
    have hp : (0 : ℚ) < (2 : ℚ) ^ ((natLog2 x.num.natAbs : Int) - (natLog2 x.den : Int) - 1) := by
      positivity
    calc (2 : ℚ) ^ ((natLog2 x.num.natAbs : Int) - (natLog2 x.den : Int) - 1) * (x.den : ℚ)
        ≤ (2 : ℚ) ^ ((natLog2 x.num.natAbs : Int) - (natLog2 x.den : Int) - 1)
            * (2 : ℚ) ^ ((natLog2 x.den : Int) + 1) :=
          mul_le_mul_of_nonneg_left (le_of_lt b2') (le_of_lt hp)
      _ = (2 : ℚ) ^ (natLog2 x.num.natAbs : Int) := e
      _ ≤ (x.num.natAbs : ℚ) := a1'
  have hi : |x| < (2 : ℚ) ^ ((natLog2 x.num.natAbs : Int) - (natLog2 x.den : Int) + 1) := by
    rw [habs, div_lt_iff₀ hden]
    have e : (2 : ℚ) ^ ((natLog2 x.num.natAbs : Int) - (natLog2 x.den : Int) + 1)
        * (2 : ℚ) ^ (natLog2 x.den : Int) = (2 : ℚ) ^ ((natLog2 x.num.natAbs : Int) + 1) := by
      rw [← zpow_add₀ two]
      congr 1
      ring
    have hp : (0 : ℚ) < (2 : ℚ) ^ ((natLog2 x.num.natAbs : Int) - (natLog2 x.den : Int) + 1) := by
      positivity
    calc (x.num.natAbs : ℚ) < (2 : ℚ) ^ ((natLog2 x.num.natAbs : Int) + 1) := a2'
      _ = (2 : ℚ) ^ ((natLog2 x.num.natAbs : Int) - (natLog2 x.den : Int) + 1)
            * (2 : ℚ) ^ (natLog2 x.den : Int) := e.symm
      _ ≤ (2 : ℚ) ^ ((natLog2 x.num.natAbs : Int) - (natLog2 x.den : Int) + 1) * (x.den : ℚ) :=
          mul_le_mul_of_nonneg_left b1' (le_of_lt hp)
  unfold binExp
  dsimp only
  split
  · rename_i h
    exact ⟨h, by rw [pow2_eq_zpow]; exact hi⟩
  · rename_i h
    refine ⟨by rw [pow2_eq_zpow]; exact lo, ?_⟩
    rw [show (natLog2 x.num.natAbs : Int) - (natLog2 x.den : Int) - 1 + 1
      = (natLog2 x.num.natAbs : Int) - (natLog2 x.den : Int) by ring]
    exact not_le.mp h

theorem binExp_lt (x : ℚ) (hx : x ≠ 0) (k : Int) (h : |x| < (2 : ℚ) ^ k) : binExp x < k := by
  have h1 := (binExp_spec x hx).1
  rw [pow2_eq_zpow] at h1
  exact (zpow_lt_zpow_iff_right₀ (by norm_num : (1 : ℚ) < 2)).mp (lt_of_le_of_lt h1 h)

theorem binExp_mono (x y : ℚ) (hy : y ≠ 0) (hx : x ≠ 0) (h : |y| ≤ |x|) :
    binExp y ≤ binExp x := by
  have h2 := (binExp_spec x hx).2
  rw [pow2_eq_zpow] at h2
  have := binExp_lt y hy (binExp x + 1) (lt_of_le_of_lt h h2)
  omega

theorem roundHalfEven_int (n : Int) : roundHalfEven (n : ℚ) = n := by
  have hf : Rat.floor (n : ℚ) = n := by
    show ⌊(n : ℚ)⌋ = n
    exact Int.floor_intCast n
  unfold roundHalfEven
  rw [hf, sub_self, if_pos (by norm_num)]

theorem roundNE_of_multiple (p : Nat) (x : ℚ) (n : Int)
    (h : x = (n : ℚ) * pow2 (binExp x - ((p : Int) - 1))) : roundNE p x = x := by
  unfold roundNE
  split
  · rename_i h0
    exact h0.symm
  · have hu := pow2_pos (binExp x - ((p : Int) - 1))
    have hq : x / pow2 (binExp x - ((p : Int) - 1)) = (n : ℚ) := by
      rw [div_eq_iff (ne_of_gt hu)]
      exact h
    rw [hq, roundHalfEven_int]
    exact h.symm

theorem multiple_of_roundNE (p : Nat) (x : ℚ) (h : roundNE p x = x) :
    ∃ n : Int, x = (n : ℚ) * pow2 (binExp x - ((p : Int) - 1)) := by
  unfold roundNE at h
  split at h
  · rename_i h0
    exact ⟨0, by rw [h0]; simp⟩
  · exact ⟨_, h.symm⟩

theorem roundHalfEven_nonpos (q : ℚ) (h : q ≤ 0) : roundHalfEven q ≤ 0 := by
  have hf : Rat.floor q ≤ 0 := by
    show ⌊q⌋ ≤ 0
    exact Int.floor_nonpos h
  have hfl : ((Rat.floor q : Int) : ℚ) ≤ q := by
    show ((⌊q⌋ : Int) : ℚ) ≤ q
    exact Int.floor_le q
  unfold roundHalfEven
  split
  · exact hf
  · rename_i h1
    have hlt : (Rat.floor q : ℚ) < 0 := by
      have := not_lt.mp h1
      linarith
    have : Rat.floor q < 0 := by exact_mod_cast hlt
    split
    · omega
    · split
      · exact hf
      · omega

theorem roundNE_nonpos (p : Nat) (x : ℚ) (h : x ≤ 0) : roundNE p x ≤ 0 := by
  unfold roundNE
  split
  · exact le_refl _
  · have hu := pow2_pos (binExp x - ((p : Int) - 1))
    have hq : x / pow2 (binExp x - ((p : Int) - 1)) ≤ 0 := div_nonpos_of_nonpos_of_nonneg h (le_of_lt hu)
    have := roundHalfEven_nonpos _ hq
    have h2 : ((roundHalfEven (x / pow2 (binExp x - ((p : Int) - 1))) : Int) : ℚ) ≤ 0 := by
      exact_mod_cast this
    exact mul_nonpos_of_nonpos_of_nonneg h2 (le_of_lt hu)

theorem fsub1_nonpos (p : Nat) (x : ℚ) (h : x ≤ 1) : fsub1 p x ≤ 0 :=
  roundNE_nonpos p (x - 1) (by linarith)

theorem fsub1_exact (p : Nat) (x : ℚ) (hfl : roundNE p x = x) (h1 : 1 < x)
    (h2 : x < (2 : ℚ) ^ p) : fsub1 p x = x - 1 := by
  obtain ⟨n, hn⟩ := multiple_of_roundNE p x hfl
  have hx0 : x ≠ 0 := by linarith
  have hy0 : x - 1 ≠ 0 := by linarith
  have hmono : binExp (x - 1) ≤ binExp x :=
    binExp_mono x (x - 1) hy0 hx0 (by
      rw [abs_of_pos (by linarith : (0 : ℚ) < x - 1), abs_of_pos (by linarith : (0 : ℚ) < x)]
      linarith)
  have hlt : binExp (x - 1) < (p : Int) :=
    binExp_lt (x - 1) hy0 p (by
      rw [abs_of_pos (by linarith : (0 : ℚ) < x - 1), zpow_natCast]
      linarith)
  have two : (2 : ℚ) ≠ 0 := by norm_num
  unfold fsub1
  apply roundNE_of_multiple p (x - 1)
    (n * 2 ^ (binExp x - binExp (x - 1)).toNat - 2 ^ ((p : Int) - 1 - binExp (x - 1)).toNat)
  have c1 : (((2 : Int) ^ (binExp x - binExp (x - 1)).toNat : Int) : ℚ)
      = (2 : ℚ) ^ (binExp x - binExp (x - 1)) := by
    rw [Int.cast_pow, ← zpow_natCast, Int.toNat_of_nonneg (by omega)]
    rfl
  have c2 : (((2 : Int) ^ ((p : Int) - 1 - binExp (x - 1)).toNat : Int) : ℚ)
      = (2 : ℚ) ^ ((p : Int) - 1 - binExp (x - 1)) := by
    rw [Int.cast_pow, ← zpow_natCast, Int.toNat_of_nonneg (by omega)]
    rfl
  rw [Int.cast_sub, Int.cast_mul, c1, c2, sub_mul, mul_assoc, pow2_eq_zpow,
    ← zpow_add₀ two, ← zpow_add₀ two]
  rw [show binExp x - binExp (x - 1) + (binExp (x - 1) - ((p : Int) - 1))
      = binExp x - ((p : Int) - 1) by ring,
    show (p : Int) - 1 - binExp (x - 1) + (binExp (x - 1) - ((p : Int) - 1)) = 0 by ring,
    zpow_zero, ← pow2_eq_zpow, ← hn]

/-! ### Derivation of the time vectors -/

theorem quantile_half_four : quantile (1/2) 4 = 2 := by
  have h : Rat.floor 2 = 2 := by decide
  have e : (1 / 2 : ℚ) * ((4 : Nat) : ℚ) = 2 := by norm_num
  rw [quantile, e, h]
  rfl

theorem sample_derived :
    (deriveTask sampleTables 4 4 (1/2) sampleTask).probestTime
      = [2, 3, 4, 1, 2, 3, 4, 1, 2, 3, 4, 1, 2, 3, 4, 1] ∧
    (deriveTask sampleTables 4 4 (1/2) sampleTask).estTime = [4, 4, 4, 4] := by
  rw [deriveTask, quantile_half_four]
  simp [deriveType, deriveSample, sampleTask, sampleTables, std_sort,
    List.range, List.range.loop, List.replicate]
  norm_num

theorem sample_sampledTimes : sampledTimes sampleTables 4 sampleTask 0 = [2, 3, 4, 1] := by
  simp [sampledTimes, sampleTask, sampleTables, List.range, List.range.loop, List.replicate]
  norm_num

/-- C1 (fails on the code): with 4 types and 4 samples whose times are 2, 3, 4, 1
on every type, the derivation leaves the block of type 0 of `probestTime` as
`[2, 3, 4, 1]`, which is not in non-decreasing order: `std::sort` is given the
range without its last element. -/
theorem C1_last_sample_left_unsorted :
    block (deriveTask sampleTables 4 4 (1/2) sampleTask).probestTime 4 0 = [2, 3, 4, 1] ∧
    ¬ List.Sorted (fun x y : ℚ => x ≤ y)
        (block (deriveTask sampleTables 4 4 (1/2) sampleTask).probestTime 4 0) := by
  rw [sample_derived.1]
  have h : block [2, 3, 4, 1, 2, 3, 4, 1, 2, 3, 4, 1, 2, 3, 4, 1] 4 0 = [2, 3, 4, 1] := by
    decide
  rw [h]
  refine ⟨rfl, ?_⟩
  simp [List.Sorted]

/-- C2 (fails on the code): with `meet_dl = 1/2` and 4 samples of times 2, 3, 4, 1
the quantile index is 2 and the 2-nd smallest (0-based) sampled time is 3, but
the derivation sets `estTime[0] = 4`. -/
theorem C2_estTime_not_quantile :
    quantile (1/2) 4 = 2 ∧
    qthSmallest (sampledTimes sampleTables 4 sampleTask 0) (quantile (1/2) 4) = 3 ∧
    (deriveTask sampleTables 4 4 (1/2) sampleTask).estTime.getD 0 0 = 4 ∧
    (deriveTask sampleTables 4 4 (1/2) sampleTask).estTime.getD 0 0
      ≠ qthSmallest (sampledTimes sampleTables 4 sampleTask 0) (quantile (1/2) 4) := by
  rw [sample_derived.2, sample_sampledTimes, quantile_half_four]
  refine ⟨rfl, by decide, by decide, by decide⟩

/-! ### The configuration search -/

theorem oneTask_costs :
    deadlineEvalcost [[36000, 18000, 1800, 900]] [1, 1, 2, 8] [1] = 5 ∧
    deadlineEvalcost [[36000, 18000, 1800, 900]] [1, 1, 2, 8] [2] = 1 ∧
    deadlineEvalcost [[36000, 18000, 1800, 900]] [1, 1, 2, 8] [3] = 2 := by
  refine ⟨?_, ?_, ?_⟩ <;> norm_num [deadlineEvalcost]

theorem oneTask_round1 :
    (searchRounds oneTaskParams localFlag 1 (searchInit oneTaskInit oneTaskSeed)).Openset =
      [(4, { taskno := 0, fvalue := 2, configurations := [3] }),
       (3, { taskno := 0, fvalue := 1, configurations := [2] }),
       (2, { taskno := 0, fvalue := 5, configurations := [1] })] := by
  obtain ⟨c1, c2, c3⟩ := oneTask_costs
  simp [searchRounds, searchDone, searchInit, searchStep, selectBatch, selectLoop,
    nth_element_at_end, expandBatch, expandNode, recordSolution, candidateTypes, tryChild,
    mergeLocal, oneTaskParams, oneTaskInit, oneTaskSeed, localFlag, ensemble,
    c1, c2, c3, List.range']
  norm_num

/-- C3 (fails on the code): after the first round of the one-task search `Openset`
holds the children of cost 2, 1 and 5, in this order. The selection of the
second round takes the two nodes at the back, of cost 5 and 1, and leaves the
node of cost 2 in `Openset`: a selected node is dearer than a node that
remains. -/
theorem C3_selection_takes_back_not_smallest :
    selectBatch 6
        (searchRounds oneTaskParams localFlag 1 (searchInit oneTaskInit oneTaskSeed)).Openset =
      ([{ taskno := 0, fvalue := 5, configurations := [1] },
        { taskno := 0, fvalue := 1, configurations := [2] }],
       [(4, { taskno := 0, fvalue := 2, configurations := [3] })]) ∧
    ¬ (∀ x ∈ (selectBatch 6
          (searchRounds oneTaskParams localFlag 1 (searchInit oneTaskInit oneTaskSeed)).Openset).1,
        ∀ y ∈ (selectBatch 6
          (searchRounds oneTaskParams localFlag 1 (searchInit oneTaskInit oneTaskSeed)).Openset).2,
        x.fvalue ≤ y.2.fvalue) := by
  rw [oneTask_round1]
  decide

theorem selectLoop_spec (k : Nat) : ∀ (i : Nat) (O : List (Nat × configstack))
    (node : List configstack),
    ∃ X : List (Nat × configstack),
      selectLoop k i O node = (node ++ (X.map Prod.snd).reverse, O.take (O.length - X.length)) ∧
      X = O.drop (O.length - X.length) ∧ X.length ≤ k ∧ X.length ≤ O.length ∧
      (0 < k → i < O.length → 0 < X.length) := by
  induction k with
  | zero =>
    intro i O node
    exact ⟨[], by simp [selectLoop], by simp, by simp, by simp, by simp⟩
  | succ k ih =>
    intro i O node
    by_cases hi : i < O.length
    · have hne : O ≠ [] := by
        intro h
        simp [h] at hi
      obtain ⟨x, hx⟩ : ∃ x, O.getLast? = some x := by
        cases hO : O.getLast? with
        | none => simp [List.getLast?_eq_none_iff] at hO; exact absurd hO hne
        | some x => exact ⟨x, rfl⟩
      have hOx : O = O.dropLast ++ [x] := by
        have h1 := List.dropLast_append_getLast hne
        rw [List.getLast?_eq_getLast _ hne] at hx
        simp at hx
        rw [hx] at h1
        exact h1.symm
      obtain ⟨X, h1, h2, h3, h4, _⟩ := ih (i + 1) O.dropLast (node ++ [x.2])
      have hlen : O.length = O.dropLast.length + 1 := by
        conv_lhs => rw [hOx]
        simp
      refine ⟨X ++ [x], ?_, ?_, ?_, ?_, ?_⟩
      · simp only [selectLoop, nth_element_at_end, hi, if_true, hx, h1]
        have : O.length - (X ++ [x]).length = O.dropLast.length - X.length := by
          rw [List.length_append, List.length_singleton]
          omega
        rw [this]
        have h5 : (O.dropLast ++ [x]).take (O.dropLast.length - X.length)
            = O.dropLast.take (O.dropLast.length - X.length) := by
          rw [List.take_append_of_le_length (by omega)]
        rw [← hOx] at h5
        rw [h5]
        simp
      · have : O.length - (X ++ [x]).length = O.dropLast.length - X.length := by
          rw [List.length_append, List.length_singleton]
          omega
        rw [this]
        have h5 : (O.dropLast ++ [x]).drop (O.dropLast.length - X.length)
            = O.dropLast.drop (O.dropLast.length - X.length) ++ [x] := by
          rw [List.drop_append_of_le_length (by omega)]
        rw [← hOx] at h5
        rw [h5, ← h2]
      · rw [List.length_append, List.length_singleton]; omega
      · rw [List.length_append, List.length_singleton]; omega
      · intro _ _; rw [List.length_append, List.length_singleton]; omega
    · obtain ⟨X, h1, h2, h3, h4, _⟩ := ih (i + 1) O node
      refine ⟨X, ?_, h2, by omega, h4, ?_⟩
      · simp only [selectLoop, hi, if_false]
        exact h1
      · intro _ h; exact absurd h hi


theorem selectBatch_spec (n : Nat) (O : List (Nat × configstack)) :
    ∃ X : List (Nat × configstack),
      (selectBatch n O).1 = (X.map Prod.snd).reverse ∧ O = (selectBatch n O).2 ++ X ∧
      X.length ≤ n ∧ (0 < n → O ≠ [] → 0 < X.length) := by
  obtain ⟨X, h1, h2, h3, _, h5⟩ := selectLoop_spec n 0 O []
  refine ⟨X, ?_, ?_, h3, ?_⟩
  · simp [selectBatch, h1]
  · simp only [selectBatch, h1]
    conv_lhs => rw [← List.take_append_drop (O.length - X.length) O]
    rw [← h2]
  · intro hn hO
    exact h5 hn (List.length_pos.mpr hO)

theorem tryChild_fst (P : SearchParams) (s : SearchState) (h : configstack) (nt : Nat)
    (acc : Nat × List (Nat × configstack)) (t : Nat) :
    (tryChild P s h nt acc t).1 = acc.1 + 1 := by
  unfold tryChild
  dsimp only
  split
  · rfl
  · split <;> rfl

theorem tryChild_fold (P : SearchParams) (s : SearchState) (h : configstack) (nt : Nat) :
    ∀ (ts : List Nat) (acc : Nat × List (Nat × configstack)),
    (ts.foldl (tryChild P s h nt) acc).1 = acc.1 + ts.length ∧
    ∃ ts' : List Nat, ts'.Sublist ts ∧
      (ts.foldl (tryChild P s h nt) acc).2.map Prod.snd
        = acc.2.map Prod.snd ++ ts'.map (mkChild P h nt) ∧
      (∀ t ∈ ts', P.evalcost nt (h.configurations.set nt t) < s.globalBestCost) ∧
      (∀ x ∈ (ts.foldl (tryChild P s h nt) acc).2,
        x ∈ acc.2 ∨ (acc.1 ≤ x.1 ∧ x.1 < acc.1 + ts.length)) := by
  intro ts
  induction ts with
  | nil =>
    intro acc
    exact ⟨by simp, [], List.Sublist.refl _, by simp, by simp, fun x hx => Or.inl hx⟩
  | cons t ts ih =>
    intro acc
    obtain ⟨h1, ts', hs, hm, hc, ha⟩ := ih (tryChild P s h nt acc t)
    rw [tryChild_fst] at h1 ha
    simp only [List.foldl_cons, List.length_cons]
    refine ⟨by omega, ?_⟩
    by_cases hrej : P.evalcost nt (h.configurations.set nt t) ≥ s.globalBestCost ∨
        decide (Addr.heap acc.1 ∈ s.Closeset) = true
    · have e : (tryChild P s h nt acc t).2 = acc.2 := by
        unfold tryChild; dsimp only; rw [if_pos hrej]
      rw [e] at hm ha
      refine ⟨ts', List.Sublist.cons _ hs, hm, hc, ?_⟩
      intro x hx
      rcases ha x hx with h' | h'
      · exact Or.inl h'
      · exact Or.inr ⟨by omega, by omega⟩
    · by_cases hin : acc.1 ∈ s.Openset.map Prod.fst
      · have e : (tryChild P s h nt acc t).2 = acc.2 := by
          unfold tryChild; dsimp only; rw [if_neg hrej, if_pos hin]
        rw [e] at hm ha
        refine ⟨ts', List.Sublist.cons _ hs, hm, hc, ?_⟩
        intro x hx
        rcases ha x hx with h' | h'
        · exact Or.inl h'
        · exact Or.inr ⟨by omega, by omega⟩
      · have e : (tryChild P s h nt acc t).2 = acc.2 ++ [(acc.1, mkChild P h nt t)] := by
          unfold tryChild; dsimp only; rw [if_neg hrej, if_neg hin]; rfl
        rw [e] at hm ha
        refine ⟨t :: ts', List.Sublist.cons₂ _ hs, ?_, ?_, ?_⟩
        · rw [hm]; simp
        · intro t' ht'
          rcases List.mem_cons.mp ht' with h' | h'
          · subst h'
            have := not_or.mp hrej
            exact lt_of_not_ge this.1
          · exact hc t' h'
        · intro x hx
          rcases ha x hx with h' | h'
          · rcases List.mem_append.mp h' with h'' | h''
            · exact Or.inl h''
            · simp at h''
              subst h''
              exact Or.inr ⟨le_refl _, by simp⟩
          · exact Or.inr ⟨by omega, by omega⟩

theorem recordSolution_frame (P : SearchParams) (s : SearchState) (h : configstack) :
    (recordSolution P s h).Openset = s.Openset ∧
    (recordSolution P s h).Closeset = s.Closeset ∧
    (recordSolution P s h).searchcount = s.searchcount ∧
    (recordSolution P s h).heapnext = s.heapnext ∧
    (recordSolution P s h).expanded = s.expanded := by
  unfold recordSolution
  split <;> simp

theorem expandNode_frame (P : SearchParams) (flag tid : Nat) (s : SearchState) (h : configstack) :
    (expandNode P flag tid s h).1.Openset = s.Openset ∧
    (expandNode P flag tid s h).1.searchcount = s.searchcount ∧
    (expandNode P flag tid s h).1.solutions = (recordSolution P s h).solutions ∧
    (expandNode P flag tid s h).1.globalBestCost = (recordSolution P s h).globalBestCost ∧
    (expandNode P flag tid s h).1.expanded = s.expanded ++ [h] ∧
    (expandNode P flag tid s h).1.Closeset = s.Closeset ++ [Addr.slot tid] := by
  obtain ⟨h1, h2, h3, h4, h5⟩ := recordSolution_frame P s h
  unfold expandNode
  dsimp only
  split <;> simp [h1, h2, h3, h4, h5]

theorem expandNode_addr (P : SearchParams) (flag tid : Nat) (s : SearchState) (h : configstack) :
    s.heapnext ≤ (expandNode P flag tid s h).1.heapnext ∧
    ∀ x ∈ (expandNode P flag tid s h).2,
      s.heapnext ≤ x.1 ∧ x.1 < (expandNode P flag tid s h).1.heapnext := by
  obtain ⟨_, _, _, h4, _⟩ := recordSolution_frame P s h
  unfold expandNode
  dsimp only
  split
  · obtain ⟨h1, _, _, _, _, ha⟩ := tryChild_fold P
      { recordSolution P s h with
        Closeset := (recordSolution P s h).Closeset ++ [Addr.slot tid],
        expanded := (recordSolution P s h).expanded ++ [h] } h (h.taskno + 1).toNat
      (candidateTypes P flag h (h.taskno + 1).toNat) ((recordSolution P s h).heapnext, [])
    dsimp only at h1 ha ⊢
    refine ⟨by omega, ?_⟩
    intro x hx
    rcases ha x hx with h' | h'
    · simp at h'
    · omega
  · simp [h4]

theorem expandBatch_induct (P : SearchParams) (flag : Nat) (I : SearchState → Prop)
    (hI : ∀ tid s h, I s → I (expandNode P flag tid s h).1) :
    ∀ (batch : List configstack) (tid : Nat) (s : SearchState),
      I s → I (expandBatch P flag tid s batch).1 := by
  intro batch
  induction batch with
  | nil => intro tid s hs; exact hs
  | cons h rest ih =>
    intro tid s hs
    exact ih (tid + 1) _ (hI tid s h hs)

theorem searchStep_induct (P : SearchParams) (flag : Nat) (I : SearchState → Prop)
    (hI : ∀ tid s h, I s → I (expandNode P flag tid s h).1)
    (hO : ∀ (s : SearchState) O c, I s → I { s with Openset := O, searchcount := c })
    (s : SearchState) (hs : I s) : I (searchStep P flag s) := by
  unfold searchStep
  dsimp only
  apply hO
  apply expandBatch_induct P flag I hI
  have := hO s (selectBatch 6 s.Openset).2 s.searchcount hs
  exact this

theorem searchRounds_induct (P : SearchParams) (flag : Nat) (I : SearchState → Prop)
    (hstep : ∀ s, I s → I (searchStep P flag s)) :
    ∀ (n : Nat) (s : SearchState), I s → I (searchRounds P flag n s) := by
  intro n
  induction n with
  | zero => intro s hs; exact hs
  | succ n ih =>
    intro s hs
    unfold searchRounds
    split
    · exact hs
    · exact ih _ (hstep s hs)

theorem searchLoop_induct (P : SearchParams) (flag : Nat) (I : SearchState → Prop)
    (hstep : ∀ s, I s → I (searchStep P flag s)) :
    ∀ (n : Nat) (s s' : SearchState), I s → searchLoop P flag n s = some s' → I s' := by
  intro n
  induction n with
  | zero =>
    intro s s' hs h
    unfold searchLoop at h
    split at h
    · cases h; exact hs
    · cases h
  | succ n ih =>
    intro s s' hs h
    unfold searchLoop at h
    split at h
    · cases h; exact hs
    · exact ih _ _ (hstep s hs) h

theorem expandBatch_frame (P : SearchParams) (flag : Nat) :
    ∀ (batch : List configstack) (tid : Nat) (s : SearchState),
      (expandBatch P flag tid s batch).1.Openset = s.Openset ∧
      (expandBatch P flag tid s batch).1.searchcount = s.searchcount ∧
      (expandBatch P flag tid s batch).1.expanded = s.expanded ++ batch ∧
      (expandBatch P flag tid s batch).2.length = batch.length := by
  intro batch
  induction batch with
  | nil => intro tid s; simp [expandBatch]
  | cons h rest ih =>
    intro tid s
    obtain ⟨h1, h2, h3, h4⟩ := ih (tid + 1) (expandNode P flag tid s h).1
    obtain ⟨e1, e2, _, _, e5, _⟩ := expandNode_frame P flag tid s h
    simp only [expandBatch]
    refine ⟨by rw [h1, e1], by rw [h2, e2], by rw [h3, e5]; simp, by simp [h4]⟩

theorem searchStep_searchcount (P : SearchParams) (flag : Nat) (s : SearchState) :
    (searchStep P flag s).searchcount = s.searchcount + (selectBatch 6 s.Openset).1.length := by
  unfold searchStep
  dsimp only
  rw [(expandBatch_frame P flag _ 0 _).2.1]

theorem batch_length_bounds (O : List (Nat × configstack)) :
    (selectBatch 6 O).1.length ≤ 6 ∧ (O ≠ [] → 1 ≤ (selectBatch 6 O).1.length) := by
  obtain ⟨X, h1, _, h3, h4⟩ := selectBatch_spec 6 O
  rw [h1]
  simp only [List.length_reverse, List.length_map]
  exact ⟨h3, fun hO => h4 (by decide) hO⟩

theorem searchDone_false (s : SearchState) (h : ¬ searchDone s = true) :
    s.Openset ≠ [] ∧ s.searchcount ≤ 10000 := by
  unfold searchDone at h
  simp only [Bool.or_eq_true, List.isEmpty_iff, decide_eq_true_eq, not_or, not_lt] at h
  exact ⟨h.1, by omega⟩

theorem searchLoop_terminates (P : SearchParams) (flag : Nat) :
    ∀ (n : Nat) (s : SearchState), 10001 ≤ s.searchcount + n →
      ∃ s', searchLoop P flag n s = some s' ∧ searchDone s' = true ∧
        (s.searchcount ≤ 10006 → s'.searchcount ≤ 10006) := by
  intro n
  induction n with
  | zero =>
    intro s hs
    have hd : searchDone s = true := by
      unfold searchDone
      simp only [Bool.or_eq_true, decide_eq_true_eq]
      right; omega
    exact ⟨s, by simp [searchLoop, hd], hd, fun h => h⟩
  | succ n ih =>
    intro s hs
    by_cases hd : searchDone s = true
    · exact ⟨s, by simp [searchLoop, hd], hd, fun h => h⟩
    · obtain ⟨hne, hle⟩ := searchDone_false s hd
      have hb := batch_length_bounds s.Openset
      have hc := searchStep_searchcount P flag s
      obtain ⟨s', h1, h2, h3⟩ := ih (searchStep P flag s) (by have := hb.2 hne; omega)
      refine ⟨s', ?_, h2, fun _ => h3 (by omega)⟩
      simp only [searchLoop, hd]
      exact h1

theorem recordSolution_SolInv (P : SearchParams) (seed : configstack) (s : SearchState)
    (h : configstack) (E : List configstack) (hs : SolInv P seed s)
    (hE : ∀ x ∈ s.expanded ++ [h], x ∈ E) :
    SolInv P seed { recordSolution P s h with expanded := E } := by
  obtain ⟨⟨rest, hrest, hall⟩, hpw, hlast, hlow⟩ := hs
  unfold recordSolution
  split
  · rename_i hc
    have hseed : s.globalBestCost ≤ seed.fvalue := hlow seed (by rw [hrest]; simp)
    refine ⟨⟨rest ++ [h], by simp [hrest], ?_⟩, ?_, ?_, ?_⟩
    · intro x hx
      rcases List.mem_append.mp hx with h' | h'
      · obtain ⟨a, b, c⟩ := hall x h'
        exact ⟨hE x (List.mem_append_left _ a), b, c⟩
      · simp at h'
        subst h'
        exact ⟨hE x (by simp), hc.1, lt_of_lt_of_le hc.2 hseed⟩
    · simp only [List.map_append, List.map_cons, List.map_nil]
      rw [List.pairwise_append]
      refine ⟨hpw, by simp, ?_⟩
      intro a ha b hb
      simp at hb
      subst hb
      obtain ⟨x, hx, rfl⟩ := List.mem_map.mp ha
      exact lt_of_lt_of_le hc.2 (hlow x hx)
    · simp
    · intro x hx
      simp only [List.mem_append, List.mem_singleton] at hx
      rcases hx with h' | h'
      · exact le_of_lt (lt_of_lt_of_le hc.2 (hlow x h'))
      · subst h'; exact le_refl _
  · refine ⟨⟨rest, hrest, ?_⟩, hpw, hlast, hlow⟩
    intro x hx
    obtain ⟨a, b, c⟩ := hall x hx
    exact ⟨hE x (List.mem_append_left _ a), b, c⟩

theorem expandNode_SolInv (P : SearchParams) (flag : Nat) (seed : configstack) (tid : Nat)
    (s : SearchState) (h : configstack) (hs : SolInv P seed s) :
    SolInv P seed (expandNode P flag tid s h).1 := by
  obtain ⟨_, _, e3, e4, e5, _⟩ := expandNode_frame P flag tid s h
  have := recordSolution_SolInv P seed s h (s.expanded ++ [h]) hs (fun x hx => hx)
  unfold SolInv at this ⊢
  rw [e3, e4, e5]
  exact this

theorem searchStep_SolInv (P : SearchParams) (flag : Nat) (seed : configstack)
    (s : SearchState) (hs : SolInv P seed s) : SolInv P seed (searchStep P flag s) :=
  searchStep_induct P flag (SolInv P seed) (fun tid s h => expandNode_SolInv P flag seed tid s h)
    (fun _ _ _ h => h) s hs

theorem searchInit_SolInv (P : SearchParams) (initialstate feasible : configstack) :
    SolInv P feasible (searchInit initialstate feasible) := by
  refine ⟨⟨[], rfl, by simp⟩, by simp [searchInit], by simp [searchInit], ?_⟩
  intro x hx
  simp [searchInit] at hx
  subst hx
  exact le_refl _


theorem searchRounds_SolInv (P : SearchParams) (flag : Nat) (initialstate feasible : configstack)
    (n : Nat) : SolInv P feasible (searchRounds P flag n (searchInit initialstate feasible)) :=
  searchRounds_induct P flag (SolInv P feasible) (searchStep_SolInv P flag feasible) n _
    (searchInit_SolInv P initialstate feasible)

/-- C5: (a) whenever a worker expands a head node `h`, either `globalBestCost` and
`solutions` are left as they are, or `globalBestCost` is strictly lowered to
`h.fvalue` and `h`, which met the constraint and was strictly cheaper than the
previous `globalBestCost`, is appended to `solutions`; (b) at the head of every
round of the search, `solutions` is the seed followed by nodes that met the
constraint, the costs in `solutions` (the values `globalBestCost` has taken,
starting with the seed's) are strictly decreasing, and `globalBestCost` is the
last of them. -/
theorem C5_globalBestCost_strictly_decreasing (P : SearchParams) (flag : Nat) :
    (∀ (tid : Nat) (s : SearchState) (h : configstack),
      ((expandNode P flag tid s h).1.globalBestCost = s.globalBestCost ∧
        (expandNode P flag tid s h).1.solutions = s.solutions) ∨
      ((expandNode P flag tid s h).1.globalBestCost < s.globalBestCost ∧
        (expandNode P flag tid s h).1.globalBestCost = h.fvalue ∧
        (expandNode P flag tid s h).1.solutions = s.solutions ++ [h] ∧
        P.evalconstraint h.taskno h.configurations = true ∧ h.fvalue < s.globalBestCost)) ∧
    (∀ (initialstate feasible : configstack) (n : Nat),
      (∃ rest, (searchRounds P flag n (searchInit initialstate feasible)).solutions
          = feasible :: rest ∧
        ∀ x ∈ rest, P.evalconstraint x.taskno x.configurations = true) ∧
      ((searchRounds P flag n (searchInit initialstate feasible)).solutions.map
        configstack.fvalue).Pairwise (fun a b => b < a) ∧
      (searchRounds P flag n (searchInit initialstate feasible)).solutions.getLast?.map
        configstack.fvalue
        = some (searchRounds P flag n (searchInit initialstate feasible)).globalBestCost) := by
  constructor
  · intro tid s h
    obtain ⟨_, _, e3, e4, _, _⟩ := expandNode_frame P flag tid s h
    rw [e3, e4]
    unfold recordSolution
    split
    · rename_i hc
      right
      exact ⟨hc.2, rfl, rfl, hc.1, hc.2⟩
    · left
      exact ⟨rfl, rfl⟩
  · intro initialstate feasible n
    obtain ⟨⟨rest, h1, h2⟩, h3, h4, _⟩ := searchRounds_SolInv P flag initialstate feasible n
    exact ⟨⟨rest, h1, fun x hx => (h2 x hx).2.1⟩, h3, h4⟩

/-- With the workers of a batch taken one at a time, in the order of their
index: the search of `OfflineAstar` ends (10001 rounds are enough) and returns a
node `found` of `solutions` whose `fvalue` is the final `globalBestCost` and is
the least `fvalue` in `solutions`; when no expanded node both met the
constraint and was cheaper than the seed, `found` is the seed of
`initialFeasible`. -/
theorem foundsolution_is_best_one_at_a_time (P : SearchParams) (initialstate feasible : configstack) :
    ∃ (s : SearchState) (found : configstack),
      searchLoop P localFlag 10001 (searchInit initialstate feasible) = some s ∧
      OfflineAstar P 10001 initialstate feasible = some found ∧
      found ∈ s.solutions ∧ found.fvalue = s.globalBestCost ∧
      (∀ x ∈ s.solutions, found.fvalue ≤ x.fvalue) ∧
      ((∀ h ∈ s.expanded, ¬ (P.evalconstraint h.taskno h.configurations = true ∧
          h.fvalue < feasible.fvalue)) → found = feasible) := by
  obtain ⟨s, hs, _, _⟩ := searchLoop_terminates P localFlag 10001
    (searchInit initialstate feasible) (by simp)
  have hinv : SolInv P feasible s :=
    searchLoop_induct P localFlag (SolInv P feasible) (searchStep_SolInv P localFlag feasible)
      10001 _ s (searchInit_SolInv P initialstate feasible) hs
  obtain ⟨⟨rest, h1, h2⟩, _, h4, h5⟩ := hinv
  have hne : s.solutions ≠ [] := by rw [h1]; simp
  refine ⟨s, s.solutions.getLast hne, hs, ?_, List.getLast_mem hne, ?_, ?_, ?_⟩
  · simp only [OfflineAstar, hs]
    exact List.getLast?_eq_getLast _ hne
  · rw [List.getLast?_eq_getLast _ hne] at h4
    simpa using h4
  · intro x hx
    rw [List.getLast?_eq_getLast _ hne] at h4
    simp only [Option.map_some', Option.some.injEq] at h4
    rw [h4]
    exact h5 x hx
  · intro hno
    have hrest : rest = [] := by
      cases rest with
      | nil => rfl
      | cons y ys =>
        obtain ⟨a, b, c⟩ := h2 y (by simp)
        exact absurd ⟨b, c⟩ (hno y a)
    subst hrest
    simp [h1]

theorem treeSize_lower (d : Nat) : d + 1 ≤ treeSize d := by
  induction d with
  | zero => simp [treeSize]
  | succ d ih => simp only [treeSize]; omega

theorem raisedTo_refl (types : Nat) (a : List Nat) : raisedTo types a a := by
  induction a with
  | nil => exact List.Forall₂.nil
  | cons x xs ih => exact List.Forall₂.cons (Or.inl rfl) ih

theorem raisedTo_trans (types : Nat) : ∀ (a b c : List Nat),
    raisedTo types a b → raisedTo types b c → raisedTo types a c := by
  intro a b c hab
  induction hab generalizing c with
  | nil => intro h; exact h
  | cons hxy _ ih =>
    intro hbc
    cases hbc with
    | cons hyz htl =>
      refine List.Forall₂.cons ?_ (ih _ htl)
      rcases hxy with h1 | h1 <;> rcases hyz with h2 | h2
      · exact Or.inl (h1.trans h2)
      · exact Or.inr ⟨by omega, h2.2⟩
      · exact Or.inr ⟨by omega, by omega⟩
      · exact Or.inr ⟨by omega, h2.2⟩

theorem raisedTo_set (types : Nat) : ∀ (a : List Nat) (i t : Nat),
    a.getD i 0 ≤ t → t < types → raisedTo types a (a.set i t) := by
  intro a
  induction a with
  | nil => intro i t _ _; exact List.Forall₂.nil
  | cons x xs ih =>
    intro i t h1 h2
    cases i with
    | zero =>
      simp only [List.set_cons_zero]
      exact List.Forall₂.cons (Or.inr ⟨by simpa using h1, h2⟩) (raisedTo_refl types xs)
    | succ i =>
      simp only [List.set_cons_succ]
      exact List.Forall₂.cons (Or.inl rfl) (ih i t (by simpa using h1) h2)

theorem deadlineEvalcost_mono (types : Nat) (price : List ℚ) :
    ∀ (estTime : List (List ℚ)) (a b : List Nat),
    (∀ est ∈ estTime, ∀ x y, x ≤ y → y < types →
      est.getD x 0 * price.getD x 0 ≤ est.getD y 0 * price.getD y 0) →
    raisedTo types a b →
    deadlineEvalcost estTime price a ≤ deadlineEvalcost estTime price b := by
  intro estTime
  induction estTime with
  | nil => intro a b _ _; simp [deadlineEvalcost]
  | cons est rest ih =>
    intro a b hm hab
    cases hab with
    | nil => simp [deadlineEvalcost]
    | cons hxy htl =>
      rename_i x y xs ys
      have h1 : est.getD x 0 * price.getD x 0 ≤ est.getD y 0 * price.getD y 0 := by
        rcases hxy with h | h
        · rw [h]
        · exact hm est (by simp) x y h.1 h.2
      have h2 := ih xs ys (fun e he => hm e (by simp [he])) htl
      simp only [deadlineEvalcost, List.zipWith_cons_cons, List.sum_cons] at h2 ⊢
      have h3 : est.getD x 0 * price.getD x 0 / 3600 ≤ est.getD y 0 * price.getD y 0 / 3600 :=
        div_le_div_of_nonneg_right h1 (by norm_num)
      linarith

theorem isChild_raisedTo (P : SearchParams) (h c : configstack)
    (hc : isChild P localFlag h c) : raisedTo P.types h.configurations c.configurations := by
  obtain ⟨_, t, ht, rfl⟩ := hc
  simp only [candidateTypes, localFlag, ensemble] at ht
  rw [List.mem_range'_1] at ht
  simp only [mkChild]
  apply raisedTo_set
  · simp only [Nat.zero_ne_one, if_false] at ht; omega
  · simp only [Nat.zero_ne_one, if_false] at ht; omega

/-- C4 (as amended): in deadline mode, when for every task the cost
`estTime[t] * price[t]` does not decrease with the type index `t` (over the
valid types), a node `n` that carries its own cost as `fvalue` (as every
generated child does) is a lower bound for all its descendants:
`fvalue(n) ≤ cost(c)` for every `c` reached from `n` by repeated child
generation. -/
theorem C4_fvalue_lower_bound_of_monotone_cost (types numoftasks : Nat)
    (estTime : List (List ℚ)) (price : List ℚ) (evalconstraint : Int → List Nat → Bool)
    (hmono : ∀ est ∈ estTime, ∀ x y, x ≤ y → y < types →
      est.getD x 0 * price.getD x 0 ≤ est.getD y 0 * price.getD y 0)
    (n c : configstack)
    (hn : n.fvalue = deadlineEvalcost estTime price n.configurations)
    (hd : Relation.ReflTransGen
      (isChild (deadlineParams types numoftasks estTime price evalconstraint) localFlag) n c) :
    n.fvalue ≤ deadlineEvalcost estTime price c.configurations := by
  have hr : raisedTo types n.configurations c.configurations := by
    induction hd with
    | refl => exact raisedTo_refl _ _
    | tail _ hstep ih =>
      exact raisedTo_trans types _ _ _ ih
        (isChild_raisedTo (deadlineParams types numoftasks estTime price evalconstraint) _ _ hstep)
  rw [hn]
  exact deadlineEvalcost_mono types price estTime _ _ hmono hr


theorem twoTask_costs (c : List Nat) :
    twoTaskParams.evalcost 0 c
      = deadlineEvalcost [[3600, 3600, 3600, 3600], [7200, 1800, 3600, 3600]] [1, 2, 9, 9] c ∧
    deadlineEvalcost [[3600, 3600, 3600, 3600], [7200, 1800, 3600, 3600]] [1, 2, 9, 9] [1, 0] = 4 ∧
    deadlineEvalcost [[3600, 3600, 3600, 3600], [7200, 1800, 3600, 3600]] [1, 2, 9, 9] [2, 0] = 11 ∧
    deadlineEvalcost [[3600, 3600, 3600, 3600], [7200, 1800, 3600, 3600]] [1, 2, 9, 9] [3, 0] = 11 ∧
    deadlineEvalcost [[3600, 3600, 3600, 3600], [7200, 1800, 3600, 3600]] [1, 2, 9, 9] [1, 1] = 3 ∧
    deadlineEvalcost [[3600, 3600, 3600, 3600], [7200, 1800, 3600, 3600]] [1, 2, 9, 9] [1, 2] = 11 ∧
    deadlineEvalcost [[3600, 3600, 3600, 3600], [7200, 1800, 3600, 3600]] [1, 2, 9, 9] [1, 3] = 11 ∧
    deadlineEvalcost [[3600, 3600, 3600, 3600], [7200, 1800, 3600, 3600]] [1, 2, 9, 9] [2, 1] = 10 ∧
    deadlineEvalcost [[3600, 3600, 3600, 3600], [7200, 1800, 3600, 3600]] [1, 2, 9, 9] [2, 2] = 18 ∧
    deadlineEvalcost [[3600, 3600, 3600, 3600], [7200, 1800, 3600, 3600]] [1, 2, 9, 9] [2, 3] = 18 := by
  refine ⟨rfl, ?_, ?_, ?_, ?_, ?_, ?_, ?_, ?_, ?_⟩ <;> norm_num [deadlineEvalcost]

theorem twoTask_round1 :
    searchRounds twoTaskParams localFlag 1 (searchInit twoTaskInit twoTaskSeed) =
      { Openset := [(4, { taskno := 0, fvalue := 11, configurations := [3, 0] }),
                    (3, { taskno := 0, fvalue := 11, configurations := [2, 0] }),
                    (2, { taskno := 0, fvalue := 4, configurations := [1, 0] })],
        Closeset := [Addr.slot 0], solutions := [twoTaskSeed], globalBestCost := 18,
        searchcount := 1, heapnext := 5, expanded := [twoTaskInit] } := by
  obtain ⟨_, c1, c2, c3, _⟩ := twoTask_costs []
  simp [searchRounds, searchDone, searchInit, searchStep, selectBatch, selectLoop,
    nth_element_at_end, expandBatch, expandNode, recordSolution, candidateTypes, tryChild,
    mergeLocal, twoTaskParams, deadlineParams, twoTaskInit, twoTaskSeed, localFlag, ensemble,
    c1, c2, c3, List.range']
  norm_num

theorem searchRounds_succ (P : SearchParams) (flag n : Nat) (s : SearchState)
    (h : searchDone s = false) :
    searchRounds P flag (n + 1) s = searchRounds P flag n (searchStep P flag s) := by
  simp [searchRounds, h]

theorem twoTask_round2 :
    (searchRounds twoTaskParams localFlag 2 (searchInit twoTaskInit twoTaskSeed)).Openset =
      [(4, { taskno := 0, fvalue := 11, configurations := [3, 0] }),
       (7, { taskno := 1, fvalue := 11, configurations := [1, 3] }),
       (6, { taskno := 1, fvalue := 11, configurations := [1, 2] }),
       (5, { taskno := 1, fvalue := 3, configurations := [1, 1] }),
       (8, { taskno := 1, fvalue := 10, configurations := [2, 1] })] := by
  have e1 := searchRounds_succ twoTaskParams localFlag 0 (searchInit twoTaskInit twoTaskSeed)
    (by simp [searchDone, searchInit])
  have e2 := searchRounds_succ twoTaskParams localFlag 1 (searchInit twoTaskInit twoTaskSeed)
    (by simp [searchDone, searchInit])
  have r1 := twoTask_round1
  rw [e1] at r1
  simp only [searchRounds] at r1
  rw [e2, r1, searchRounds_succ _ _ 0 _ (by simp [searchDone])]
  obtain ⟨_, _, _, _, c4, c5, c6, c7, c8, c9⟩ := twoTask_costs []
  simp [searchRounds, searchStep, selectBatch, selectLoop,
    nth_element_at_end, expandBatch, expandNode, recordSolution, candidateTypes, tryChild,
    mergeLocal, twoTaskParams, deadlineParams, twoTaskSeed, localFlag, ensemble,
    c4, c5, c6, c7, c8, c9, List.range']
  norm_num

/-- C4 (the claim as stated fails): in the two-task search, with non-negative
tables, the first round puts the node `n` with configurations `[1, 0]` and
`fvalue` 4 in `Openset`; the second round generates from it the child `c` with
configurations `[1, 1]`, whose cost is 3: `fvalue(n) > cost(c)`. -/
theorem C4_fvalue_exceeds_descendant_cost :
    (2, ({ taskno := 0, fvalue := 4, configurations := [1, 0] } : configstack)) ∈
      (searchRounds twoTaskParams localFlag 1 (searchInit twoTaskInit twoTaskSeed)).Openset ∧
    (5, ({ taskno := 1, fvalue := 3, configurations := [1, 1] } : configstack)) ∈
      (searchRounds twoTaskParams localFlag 2 (searchInit twoTaskInit twoTaskSeed)).Openset ∧
    isChild twoTaskParams localFlag { taskno := 0, fvalue := 4, configurations := [1, 0] }
      { taskno := 1, fvalue := 3, configurations := [1, 1] } ∧
    deadlineEvalcost [[3600, 3600, 3600, 3600], [7200, 1800, 3600, 3600]] [1, 2, 9, 9] [1, 1]
      < ({ taskno := 0, fvalue := 4, configurations := [1, 0] } : configstack).fvalue := by
  obtain ⟨_, _, _, _, c4, _⟩ := twoTask_costs []
  refine ⟨?_, ?_, ?_, ?_⟩
  · rw [twoTask_round1]; simp
  · rw [twoTask_round2]; simp
  · refine ⟨by simp [twoTaskParams, deadlineParams], 1, ?_, ?_⟩
    · simp [candidateTypes, localFlag, ensemble, twoTaskParams, deadlineParams, List.range']
    · simp [mkChild, twoTaskParams, deadlineParams, c4]
  · rw [c4]; norm_num

theorem C4_fvalue_lower_bound_witness :
    (1 : ℚ) ≤ deadlineEvalcost [[3600, 3600, 3600, 3600]] [1, 2, 4, 8] [1] := by
  have h := C4_fvalue_lower_bound_of_monotone_cost 4 1 [[3600, 3600, 3600, 3600]] [1, 2, 4, 8]
    (fun _ _ => false)
    (by
      intro est he x y hxy hy
      simp only [List.mem_singleton] at he
      subst he
      interval_cases y <;> interval_cases x <;> norm_num)
    { taskno := -1, fvalue := 1, configurations := [0] }
    { taskno := 0, fvalue := deadlineEvalcost [[3600, 3600, 3600, 3600]] [1, 2, 4, 8] [1],
      configurations := [1] }
    (by norm_num [deadlineEvalcost])
    (Relation.ReflTransGen.single
      ⟨by simp [deadlineParams], 1,
        by simp [candidateTypes, localFlag, ensemble, deadlineParams, List.range'],
        by simp [mkChild, deadlineParams]⟩)
  exact h

/-! ### No configuration is expanded twice -/

theorem ceilHours_eq_ceil (n : Nat) : ceilHours n = ⌈(n : ℚ) / 3600⌉₊ := by
  unfold ceilHours
  apply le_antisymm
  · by_cases hk : (n + 3599) / 3600 = 0
    · rw [hk]; exact Nat.zero_le _
    · have h1 : (n + 3599) / 3600 - 1 < ⌈(n : ℚ) / 3600⌉₊ := by
        rw [Nat.lt_ceil, lt_div_iff₀ (by norm_num)]
        have : ((n + 3599) / 3600 - 1) * 3600 < n := by omega
        exact_mod_cast this
      omega
  · apply Nat.ceil_le.mpr
    rw [div_le_iff₀ (by norm_num)]
    have : n ≤ (n + 3599) / 3600 * 3600 := by omega
    exact_mod_cast this

theorem flatMap_pool_split (f : Nat → List VM) (i : Nat) (pool : List VM) :
    ∀ n, i < n → ∃ A B : List VM,
      (List.range n).flatMap f = A ++ f i ++ B ∧
      (List.range n).flatMap (fun k => if k = i then pool else f k) = A ++ pool ++ B := by
  intro n
  induction n with
  | zero => intro h; omega
  | succ n ih =>
    intro h
    by_cases hi : i < n
    · obtain ⟨A, B, h1, h2⟩ := ih hi
      refine ⟨A, B ++ f n, ?_, ?_⟩
      · rw [List.range_succ, List.flatMap_append, h1]; simp
      · rw [List.range_succ, List.flatMap_append, h2]
        have : n ≠ i := by omega
        simp [this]
    · have hin : i = n := by omega
      subst hin
      refine ⟨(List.range i).flatMap f, [], ?_, ?_⟩
      · rw [List.range_succ, List.flatMap_append]; simp
      · rw [List.range_succ, List.flatMap_append]
        have hc : (List.range i).flatMap (fun k => if k = i then pool else f k)
            = (List.range i).flatMap f := by
          simp only [List.flatMap]
          congr 1
          apply List.map_congr_left
          intro k hk
          have : k ≠ i := by
            have := List.mem_range.mp hk
            omega
          simp [this]
        rw [hc]; simp

theorem liveVMs_setPool (E : SimEnv) (s : SimState) (i : Nat) (pool : List VM)
    (hi : i < E.types) :
    ∃ A B : List VM, liveVMs E s = A ++ s.VMTP i ++ B ∧
      liveVMs E (setPool s i pool) = A ++ pool ++ B :=
  flatMap_pool_split s.VMTP i pool E.types hi

theorem foldl_charge (E : SimEnv) (i : Nat) (l : List VM) (m : ℚ) :
    l.foldl (fun m vm => m + vmCharge E i vm) m = m + (l.map (vmCharge E i)).sum := by
  induction l generalizing m with
  | nil => simp
  | cons x xs ih => simp only [List.foldl_cons, ih, List.map_cons, List.sum_cons]; ring

theorem AcctInv_task (E : SimEnv) (s : SimState) (task : Nat → Nat → taskVertex)
    (h : AcctInv E s) (ht : ∀ j i, (task j i).assigned_type < E.types) :
    AcctInv E { s with task := task } := by
  obtain ⟨h1, _, h3, h4⟩ := h
  exact ⟨h1, ht, h3, h4⟩

theorem AcctInv_setTask (E : SimEnv) (s : SimState) (r : TaskRef) (v : taskVertex)
    (h : AcctInv E s) (hv : v.assigned_type < E.types) : AcctInv E (setTask s r v) := by
  apply AcctInv_task E s _ h
  intro j i
  dsimp only
  split
  · exact hv
  · exact h.2.1 j i

theorem AcctInv_setPool_ids (E : SimEnv) (s : SimState) (i : Nat) (pool : List VM)
    (h : AcctInv E s) (hi : i < E.types)
    (hid : pool.map VM.id = (s.VMTP i).map VM.id) (hty : ∀ vm ∈ pool, vm.type = i) :
    AcctInv E (setPool s i pool) := by
  obtain ⟨h1, h2, h3, h4⟩ := h
  refine ⟨?_, h2, h3, ?_⟩
  · intro k vm hvm
    simp only [setPool] at hvm
    split at hvm
    · rename_i hk
      subst hk
      exact ⟨hty vm hvm, hi⟩
    · exact h1 k vm hvm
  · obtain ⟨A, B, e1, e2⟩ := liveVMs_setPool E s i pool hi
    rw [e1] at h4
    rw [e2]
    simp only [List.map_append, hid] at h4 ⊢
    exact h4

theorem bindIdle_ids (r : TaskRef) : ∀ (pool pool' : List VM), bindIdle r pool = some pool' →
    pool'.map VM.id = pool.map VM.id ∧ pool'.map VM.type = pool.map VM.type ∧
    pool'.map VM.life_time = pool.map VM.life_time := by
  intro pool
  induction pool with
  | nil => intro pool' h; simp [bindIdle] at h
  | cons vm rest ih =>
    intro pool' h
    simp only [bindIdle] at h
    split at h
    · cases h; simp
    · cases hb : bindIdle r rest with
      | none => simp [hb] at h
      | some l =>
        simp only [hb, Option.map_some', Option.some.injEq] at h
        subst h
        obtain ⟨a, b, c⟩ := ih l hb
        simp [a, b, c]

theorem releaseTask_ids (r : TaskRef) : ∀ (pool : List VM),
    (releaseTask r pool).map VM.id = pool.map VM.id ∧
    (releaseTask r pool).map VM.type = pool.map VM.type ∧
    (releaseTask r pool).map VM.life_time = pool.map VM.life_time := by
  intro pool
  induction pool with
  | nil => simp [releaseTask]
  | cons vm rest ih =>
    simp only [releaseTask]
    split
    · simp
    · simp [ih.1, ih.2.1, ih.2.2]

theorem types_of_map (i : Nat) (pool pool' : List VM) (h : pool'.map VM.type = pool.map VM.type)
    (hp : ∀ vm ∈ pool, vm.type = i) : ∀ vm ∈ pool', vm.type = i := by
  intro vm hvm
  have : vm.type ∈ pool'.map VM.type := List.mem_map_of_mem _ hvm
  rw [h] at this
  obtain ⟨w, hw, hwe⟩ := List.mem_map.mp this
  rw [← hwe]
  exact hp w hw

theorem AcctInv_dispatchOne (E : SimEnv) (s : SimState) (r : TaskRef) (h : AcctInv E s) :
    AcctInv E (dispatchOne E s r) := by
  have hty := h.2.1 r.1 r.2
  unfold dispatchOne
  dsimp only
  split
  · split
    · rename_i pool hb
      obtain ⟨a, b, _⟩ := bindIdle_ids r _ pool hb
      refine AcctInv_setPool_ids E _ _ _ (AcctInv_setTask E s r _ h ?_) hty a ?_
      · exact hty
      · exact types_of_map _ _ _ b (fun vm hvm => (h.1 _ vm hvm).1)
    · exact AcctInv_setTask E s r _ h hty
  · split
    · have h' := AcctInv_setTask E s r
        { s.task r.1 r.2 with
          status := Status.scheduled
          restTime := (s.task r.1 r.2).probestTime.getD
            ((s.task r.1 r.2).assigned_type * E.randomsize + E.monte) 0 } h hty
      obtain ⟨h1, h2, h3, h4⟩ := h'
      refine ⟨?_, h2, h3, ?_⟩
      · intro k vm hvm
        simp only [setPool, setTask] at hvm
        split at hvm
        · rename_i hk
          subst hk
          rcases List.mem_append.mp hvm with h'' | h''
          · exact h1 _ vm h''
          · simp only [List.mem_singleton] at h''
            subst h''
            exact ⟨rfl, hty⟩
        · exact h1 k vm hvm
      · obtain ⟨A, B, e1, e2⟩ := liveVMs_setPool E (setTask s r
          { s.task r.1 r.2 with
            status := Status.scheduled
            restTime := (s.task r.1 r.2).probestTime.getD
              ((s.task r.1 r.2).assigned_type * E.randomsize + E.monte) 0 })
          (s.task r.1 r.2).assigned_type
          (s.VMTP (s.task r.1 r.2).assigned_type ++
            [{ life_time := E.OnDemandLag, tk := some r, type := (s.task r.1 r.2).assigned_type,
               id := s.created }]) hty
        have e2' : liveVMs E
            { setPool (setTask s r
              { s.task r.1 r.2 with
                status := Status.scheduled
                restTime := (s.task r.1 r.2).probestTime.getD
                  ((s.task r.1 r.2).assigned_type * E.randomsize + E.monte) 0 })
              (s.task r.1 r.2).assigned_type
              (s.VMTP (s.task r.1 r.2).assigned_type ++
                [{ life_time := E.OnDemandLag, tk := some r,
                   type := (s.task r.1 r.2).assigned_type, id := s.created }]) with
              created := s.created + 1 } = _ := e2
        rw [e1] at h4
        rw [e2']
        simp only [setTask, setPool] at h4 ⊢
        rw [List.range_succ]
        simp only [List.map_append, List.map_cons, List.map_nil] at h4 ⊢
        have hp : List.Perm
            (List.map VM.id s.reaped ++ (List.map VM.id A ++
              (List.map VM.id (s.VMTP (s.task r.1 r.2).assigned_type) ++ [s.created]) ++
              List.map VM.id B))
            ((List.map VM.id s.reaped ++ (List.map VM.id A ++
              List.map VM.id (s.VMTP (s.task r.1 r.2).assigned_type) ++
              List.map VM.id B)) ++ [s.created]) := by
          simp only [List.append_assoc]
          refine List.Perm.append_left _ (List.Perm.append_left _ (List.Perm.append_left _ ?_))
          exact List.perm_append_comm
        exact hp.trans (List.Perm.append_right _ h4)
    · exact h


theorem AcctInv_reapPool (E : SimEnv) (s : SimState) (i : Nat) (hi : i < E.types)
    (h : AcctInv E s) : AcctInv E (reapPool E s i) := by
  obtain ⟨h1, h2, h3, h4⟩ := h
  refine ⟨?_, h2, ?_, ?_⟩
  · intro k vm hvm
    simp only [reapPool, setPool] at hvm
    split at hvm
    · rename_i hk
      subst hk
      exact h1 _ vm (List.mem_of_mem_filter hvm)
    · exact h1 k vm hvm
  · simp only [reapPool, setPool]
    rw [foldl_charge, h3, List.map_append, List.sum_append]
    congr 1
    congr 1
    apply List.map_congr_left
    intro vm hvm
    rw [(h1 i vm (List.mem_of_mem_filter hvm)).1]
  · obtain ⟨A, B, e1, e2⟩ := liveVMs_setPool E s i
      ((s.VMTP i).filter (fun vm => !decide (vm.tk = none))) hi
    have e2' : liveVMs E (reapPool E s i)
        = A ++ (s.VMTP i).filter (fun vm => !decide (vm.tk = none)) ++ B := e2
    rw [e1] at h4
    rw [e2']
    have hcr : (reapPool E s i).created = s.created := rfl
    have hre : (reapPool E s i).reaped
        = s.reaped ++ (s.VMTP i).filter (fun vm => decide (vm.tk = none)) := rfl
    rw [hcr, hre]
    refine List.Perm.trans (List.Perm.map _ ?_) h4
    simp only [List.append_assoc]
    apply List.Perm.append_left
    have hf := List.filter_append_perm (fun vm : VM => decide (vm.tk = none)) (s.VMTP i)
    refine (List.perm_append_comm_assoc _ _ _).trans (List.Perm.append_left A ?_)
    rw [← List.append_assoc]
    exact List.Perm.append_right B hf

theorem AcctInv_foldl_range (E : SimEnv) (f : SimState → Nat → SimState)
    (hf : ∀ s i, i < E.types → AcctInv E s → AcctInv E (f s i)) :
    ∀ (l : List Nat) (s : SimState), (∀ i ∈ l, i < E.types) → AcctInv E s →
      AcctInv E (l.foldl f s) := by
  intro l
  induction l with
  | nil => intro s _ h; exact h
  | cons x xs ih =>
    intro s hl h
    exact ih _ (fun i hi => hl i (by simp [hi])) (hf s x (hl x (by simp)) h)

theorem AcctInv_foldl (E : SimEnv) (f : SimState → TaskRef → SimState)
    (hf : ∀ s r, AcctInv E s → AcctInv E (f s r)) :
    ∀ (l : List TaskRef) (s : SimState), AcctInv E s → AcctInv E (l.foldl f s) := by
  intro l
  induction l with
  | nil => intro s h; exact h
  | cons x xs ih => intro s h; exact ih _ (hf s x h)

theorem AcctInv_reapIdle (E : SimEnv) (s : SimState) (h : AcctInv E s) :
    AcctInv E (reapIdle E s) :=
  AcctInv_foldl_range E (reapPool E) (fun s i hi hs => AcctInv_reapPool E s i hi hs)
    (List.range E.types) s (fun _ hi => List.mem_range.mp hi) h

theorem AcctInv_progressOne (E : SimEnv) (s : SimState) (r : TaskRef) (h : AcctInv E s) :
    AcctInv E (progressOne E s r) := by
  have hty := h.2.1 r.1 r.2
  unfold progressOne
  dsimp only
  split
  · obtain ⟨a, b, _⟩ := releaseTask_ids r (s.VMTP (s.task r.1 r.2).assigned_type)
    refine AcctInv_setPool_ids E _ _ _ (AcctInv_setTask E s r _ h ?_) hty a ?_
    · exact hty
    · exact types_of_map _ _ _ b (fun vm hvm => (h.1 _ vm hvm).1)
  · exact AcctInv_setTask E s r _ h hty

theorem liveVMs_ageVMs (E : SimEnv) (s : SimState) :
    liveVMs E (ageVMs E s)
      = (liveVMs E s).map (fun vm => { vm with life_time := vm.life_time + 1 }) := by
  simp only [liveVMs, ageVMs, List.flatMap, List.map_flatten, List.map_map]
  congr 1
  apply List.map_congr_left
  intro k hk
  have := List.mem_range.mp hk
  simp [this]

theorem AcctInv_ageVMs (E : SimEnv) (s : SimState) (h : AcctInv E s) :
    AcctInv E (ageVMs E s) := by
  obtain ⟨h1, h2, h3, h4⟩ := h
  refine ⟨?_, h2, h3, ?_⟩
  · intro k vm hvm
    simp only [ageVMs] at hvm
    split at hvm
    · obtain ⟨w, hw, rfl⟩ := List.mem_map.mp hvm
      exact h1 k w hw
    · exact h1 k vm hvm
  · rw [liveVMs_ageVMs]
    have : (ageVMs E s).reaped = s.reaped := rfl
    rw [this]
    simpa [List.map_append, List.map_map, Function.comp] using h4

theorem AcctInv_countdownOne (E : SimEnv) (s : SimState) (r : TaskRef) (h : AcctInv E s) :
    AcctInv E (countdownOne s r) := by
  unfold countdownOne
  split
  · exact AcctInv_setTask E s r _ h (h.2.1 r.1 r.2)
  · exact h

theorem acceptVertex_type (E : SimEnv) (j : Nat) (v : taskVertex) :
    (acceptVertex E j v).assigned_type = v.assigned_type := by
  unfold acceptVertex
  dsimp only
  repeat' split
  all_goals rfl

theorem AcctInv_acceptJobs (E : SimEnv) (s : SimState) (h : AcctInv E s) :
    AcctInv E (acceptJobs E s) := by
  apply AcctInv_task E s _ h
  intro j i
  dsimp only
  split
  · rw [acceptVertex_type]; exact h.2.1 j i
  · exact h.2.1 j i

theorem AcctInv_tick (E : SimEnv) (s : SimState) (h : AcctInv E s) : AcctInv E (tick E s) := by
  have key : ∀ s5 : SimState, AcctInv E s5 → AcctInv E { s5 with t := s5.t + 1 } :=
    fun s5 h5 => ⟨h5.1, h5.2.1, h5.2.2.1, h5.2.2.2⟩
  unfold tick finishTick dispatchPhase
  dsimp only
  apply key
  apply AcctInv_foldl E countdownOne (AcctInv_countdownOne E)
  apply AcctInv_ageVMs
  apply AcctInv_foldl E (progressOne E) (AcctInv_progressOne E)
  apply AcctInv_reapIdle
  apply AcctInv_foldl E (dispatchOne E) (AcctInv_dispatchOne E)
  exact AcctInv_acceptJobs E s h

theorem AcctInv_ticks (E : SimEnv) : ∀ (n : Nat) (s : SimState), AcctInv E s →
    AcctInv E (ticks E n s) := by
  intro n
  induction n with
  | zero => intro s h; exact h
  | succ n ih => intro s h; exact ih _ (AcctInv_tick E s h)

theorem AcctInv_simInit (E : SimEnv) (task : Nat → Nat → taskVertex)
    (ht : ∀ j i, (task j i).assigned_type < E.types) : AcctInv E (simInit task) := by
  refine ⟨by simp [simInit], ht, by simp [simInit], ?_⟩
  simp [simInit, liveVMs, List.flatMap]

theorem finalize_moneycost (E : SimEnv) (s : SimState) :
    ∀ (l : List Nat) (s0 : SimState),
    (l.foldl (fun s' i =>
      { s' with moneycost := (s.VMTP i).foldl (fun m vm => m + vmCharge E i vm) s'.moneycost })
      s0).moneycost
    = s0.moneycost + (l.map (fun i => ((s.VMTP i).map (vmCharge E i)).sum)).sum := by
  intro l
  induction l with
  | nil => intro s0; simp
  | cons x xs ih =>
    intro s0
    rw [List.foldl_cons, ih]
    simp only [foldl_charge, List.map_cons, List.sum_cons]
    ring

theorem finalize_spec (E : SimEnv) (s : SimState) (h : AcctInv E s) :
    (finalize E s).moneycost
      = ((s.reaped ++ liveVMs E s).map
          (fun vm => E.priceOnDemand.getD vm.type 0 * (ceilHours vm.life_time : ℚ))).sum := by
  obtain ⟨h1, _, h3, _⟩ := h
  unfold finalize
  rw [finalize_moneycost, h3, List.map_append, List.sum_append]
  congr 1
  simp only [liveVMs, List.flatMap, List.map_flatten, List.sum_flatten, List.map_map]
  congr 1
  apply List.map_congr_left
  intro i _
  simp only [Function.comp]
  congr 1
  apply List.map_congr_left
  intro vm hvm
  simp only [vmCharge, (h1 i vm hvm).1]

theorem simLoop_ticks (E : SimEnv) : ∀ (fuel : Nat) (s s' : SimState),
    simLoop E fuel s = some s' → ∃ n, s' = ticks E n s := by
  intro fuel
  induction fuel with
  | zero => intro s s' h; simp [simLoop] at h
  | succ n ih =>
    intro s s' h
    simp only [simLoop] at h
    split at h
    · obtain ⟨k, hk⟩ := ih _ _ h
      exact ⟨k + 1, hk⟩
    · cases h
      exact ⟨1, rfl⟩

/-- C9: in a replica all of whose tasks are assigned a valid type, after any
number of ticks (and so at the end of the tick loop, whenever it ends) the
VMs deleted as idle together with the VMs still in the pools are, one for one,
the VMs created so far, and finalization leaves `moneycost` equal to the sum
over these VMs of `price[type] * ceil(life_time/3600)`, with the `life_time` a
deleted VM had when it was deleted and a live VM has at finalization. -/
theorem C9_every_VM_charged_once (E : SimEnv) (task : Nat → Nat → taskVertex)
    (htype : ∀ j i, (task j i).assigned_type < E.types) :
    (∀ n : Nat,
      (((ticks E n (simInit task)).reaped ++ liveVMs E (ticks E n (simInit task))).map
        VM.id).Perm (List.range (ticks E n (simInit task)).created) ∧
      (finalize E (ticks E n (simInit task))).moneycost
        = (((ticks E n (simInit task)).reaped ++ liveVMs E (ticks E n (simInit task))).map
            (fun vm => E.priceOnDemand.getD vm.type 0 * (ceilHours vm.life_time : ℚ))).sum) ∧
    (∀ (fuel : Nat) (s : SimState), simLoop E fuel (simInit task) = some s →
      ((s.reaped ++ liveVMs E s).map VM.id).Perm (List.range s.created) ∧
      (finalize E s).moneycost
        = ((s.reaped ++ liveVMs E s).map
            (fun vm => E.priceOnDemand.getD vm.type 0 * (ceilHours vm.life_time : ℚ))).sum) := by
  have hall : ∀ n, AcctInv E (ticks E n (simInit task)) :=
    fun n => AcctInv_ticks E n _ (AcctInv_simInit E task htype)
  constructor
  · intro n
    exact ⟨(hall n).2.2.2, finalize_spec E _ (hall n)⟩
  · intro fuel s hs
    obtain ⟨n, rfl⟩ := simLoop_ticks E fuel _ s hs
    exact ⟨(hall n).2.2.2, finalize_spec E _ (hall n)⟩


/-! ### The simulator: what a tick does to one task -/

theorem setTask_task_ne (s : SimState) (r : TaskRef) (v : taskVertex) (j i : Nat)
    (h : (j, i) ≠ r) : (setTask s r v).task j i = s.task j i := by
  simp [setTask, h]

theorem setTask_task_self (s : SimState) (r : TaskRef) (v : taskVertex) :
    (setTask s r v).task r.1 r.2 = v := by
  simp [setTask]

theorem foldl_task_frame (f : SimState → TaskRef → SimState)
    (hf : ∀ σ r' j i, (j, i) ≠ r' → (f σ r').task j i = σ.task j i) :
    ∀ (l : List TaskRef) (σ : SimState) (j i : Nat), (j, i) ∉ l →
      (l.foldl f σ).task j i = σ.task j i := by
  intro l
  induction l with
  | nil => intro σ j i _; rfl
  | cons x xs ih =>
    intro σ j i h
    simp only [List.mem_cons, not_or] at h
    rw [List.foldl_cons, ih _ j i h.2, hf σ x j i h.1]

theorem foldl_t_frame (f : SimState → TaskRef → SimState)
    (hf : ∀ σ r', (f σ r').t = σ.t) :
    ∀ (l : List TaskRef) (σ : SimState), (l.foldl f σ).t = σ.t := by
  intro l
  induction l with
  | nil => intro σ; rfl
  | cons x xs ih => intro σ; rw [List.foldl_cons, ih, hf]

theorem dispatchOne_task_ne (E : SimEnv) (s : SimState) (r : TaskRef) (j i : Nat)
    (h : (j, i) ≠ r) : (dispatchOne E s r).task j i = s.task j i := by
  unfold dispatchOne
  dsimp only
  split
  · split <;> simp [setPool, setTask, h]
  · split <;> simp [setPool, setTask, h]

theorem dispatchOne_t (E : SimEnv) (s : SimState) (r : TaskRef) :
    (dispatchOne E s r).t = s.t := by
  unfold dispatchOne
  dsimp only
  split
  · split <;> simp [setPool, setTask]
  · split <;> simp [setPool, setTask]

theorem dispatchOne_created (E : SimEnv) (s : SimState) (r : TaskRef) :
    s.created ≤ (dispatchOne E s r).created := by
  unfold dispatchOne
  dsimp only
  split
  · split <;> simp [setPool, setTask]
  · split <;> simp [setPool, setTask]

theorem dispatch_created (E : SimEnv) : ∀ (l : List TaskRef) (s : SimState),
    s.created ≤ (l.foldl (dispatchOne E) s).created := by
  intro l
  induction l with
  | nil => intro s; exact le_refl _
  | cons x xs ih =>
    intro s
    exact le_trans (dispatchOne_created E s x) (ih _)

theorem progressOne_task_ne (E : SimEnv) (s : SimState) (r : TaskRef) (j i : Nat)
    (h : (j, i) ≠ r) : (progressOne E s r).task j i = s.task j i := by
  unfold progressOne
  dsimp only
  split <;> simp [setPool, setTask, h]

theorem progressOne_t (E : SimEnv) (s : SimState) (r : TaskRef) :
    (progressOne E s r).t = s.t := by
  unfold progressOne
  dsimp only
  split <;> simp [setPool, setTask]

theorem countdownOne_task_ne (s : SimState) (r : TaskRef) (j i : Nat)
    (h : (j, i) ≠ r) : (countdownOne s r).task j i = s.task j i := by
  unfold countdownOne
  split
  · simp [setTask, h]
  · rfl

theorem countdownOne_t (s : SimState) (r : TaskRef) : (countdownOne s r).t = s.t := by
  unfold countdownOne
  split <;> rfl

theorem reapIdle_frame (E : SimEnv) (s : SimState) :
    (reapIdle E s).task = s.task ∧ (reapIdle E s).t = s.t := by
  unfold reapIdle
  generalize List.range E.types = l
  induction l generalizing s with
  | nil => exact ⟨rfl, rfl⟩
  | cons x xs ih =>
    rw [List.foldl_cons]
    obtain ⟨a, b⟩ := ih (reapPool E s x)
    exact ⟨a, b⟩

theorem mem_readyList (E : SimEnv) (s : SimState) (j i : Nat) :
    (j, i) ∈ readyList E s ↔ j < E.numjobs ∧ i < E.numvertices ∧ isReady E s j i = true := by
  simp only [readyList, List.mem_flatMap, List.mem_range, List.mem_map, List.mem_filter,
    Prod.mk.injEq]
  constructor
  · rintro ⟨a, ha, b, ⟨hb, hr⟩, rfl, rfl⟩
    exact ⟨ha, hb, hr⟩
  · rintro ⟨h1, h2, h3⟩
    exact ⟨j, h1, i, ⟨h2, h3⟩, rfl, rfl⟩

theorem mem_scheduledList (E : SimEnv) (s : SimState) (j i : Nat) :
    (j, i) ∈ scheduledList E s ↔
      j < E.numjobs ∧ i < E.numvertices ∧ (s.task j i).status = Status.scheduled := by
  simp only [scheduledList, List.mem_flatMap, List.mem_range, List.mem_map, List.mem_filter,
    Prod.mk.injEq, decide_eq_true_eq]
  constructor
  · rintro ⟨a, ha, b, ⟨hb, hr⟩, rfl, rfl⟩
    exact ⟨ha, hb, hr⟩
  · rintro ⟨h1, h2, h3⟩
    exact ⟨j, h1, i, ⟨h2, h3⟩, rfl, rfl⟩

theorem nodup_pairs (p : Nat → Nat → Bool) (n m : Nat) :
    ((List.range n).flatMap (fun ji =>
      ((List.range m).filter (fun i => p ji i)).map (fun i => (ji, i)))).Nodup := by
  rw [List.nodup_flatMap]
  constructor
  · intro ji _
    apply List.Nodup.map
    · intro a b h
      exact (Prod.mk.injEq _ _ _ _ ▸ h).2
    · exact List.Nodup.filter _ (List.nodup_range m)
  · apply List.Nodup.pairwise_of_forall_ne (List.nodup_range n)
    intro a _ b _ hab
    simp only [Function.onFun, List.Disjoint]
    intro x hx hy
    obtain ⟨_, _, rfl⟩ := List.mem_map.mp hx
    obtain ⟨_, _, h⟩ := List.mem_map.mp hy
    exact hab (Prod.mk.injEq _ _ _ _ ▸ h).1.symm

theorem nodup_readyList (E : SimEnv) (s : SimState) : (readyList E s).Nodup :=
  nodup_pairs (fun ji i => isReady E s ji i) E.numjobs E.numvertices


theorem countdown_fold (r : TaskRef) : ∀ (l : List TaskRef) (s : SimState),
    l.Nodup → r ∈ l →
    (l.foldl countdownOne s).task r.1 r.2 = countedDown (s.task r.1 r.2) := by
  intro l
  induction l with
  | nil => intro s _ h; simp at h
  | cons x xs ih =>
    intro s hnd hr
    rw [List.foldl_cons]
    obtain ⟨hx, hxs⟩ := List.nodup_cons.mp hnd
    by_cases hxr : x = r
    · subst hxr
      rw [foldl_task_frame countdownOne countdownOne_task_ne xs _ x.1 x.2 hx]
      unfold countdownOne countedDown
      split
      · simp [setTask]
      · rfl
    · have hr' : r ∈ xs := by
        rcases List.mem_cons.mp hr with h | h
        · exact absurd h.symm hxr
        · exact h
      rw [ih _ hxs hr', countdownOne_task_ne s x r.1 r.2 (fun h => hxr h.symm)]

theorem finishTick_t (E : SimEnv) (σ : SimState) (rl : List TaskRef) :
    (finishTick E σ rl).t = σ.t + 1 := by
  unfold finishTick
  dsimp only
  rw [foldl_t_frame countdownOne countdownOne_t]
  have : (ageVMs E ((scheduledList E (reapIdle E σ)).foldl (progressOne E) (reapIdle E σ))).t
      = ((scheduledList E (reapIdle E σ)).foldl (progressOne E) (reapIdle E σ)).t := rfl
  rw [this, foldl_t_frame (progressOne E) (progressOne_t E), (reapIdle_frame E σ).2]

theorem finishTick_task (E : SimEnv) (σ : SimState) (rl : List TaskRef) (hnd : rl.Nodup)
    (j i : Nat) (hns : (σ.task j i).status ≠ Status.scheduled) :
    (finishTick E σ rl).task j i
      = if (j, i) ∈ rl then countedDown (σ.task j i) else σ.task j i := by
  have h4 : (ageVMs E ((scheduledList E (reapIdle E σ)).foldl (progressOne E)
      (reapIdle E σ))).task j i = σ.task j i := by
    have : (ageVMs E ((scheduledList E (reapIdle E σ)).foldl (progressOne E)
        (reapIdle E σ))).task
        = ((scheduledList E (reapIdle E σ)).foldl (progressOne E) (reapIdle E σ)).task := rfl
    rw [this, foldl_task_frame (progressOne E) (progressOne_task_ne E), (reapIdle_frame E σ).1]
    intro hmem
    have := ((mem_scheduledList E _ j i).mp hmem).2.2
    rw [(reapIdle_frame E σ).1] at this
    exact hns this
  unfold finishTick
  dsimp only
  split
  · rename_i hmem
    have := countdown_fold (j, i) rl
      (ageVMs E ((scheduledList E (reapIdle E σ)).foldl (progressOne E) (reapIdle E σ)))
      hnd hmem
    dsimp only at this
    rw [this, h4]
  · rename_i hmem
    rw [foldl_task_frame countdownOne countdownOne_task_ne rl _ j i hmem, h4]

theorem acceptJobs_task_of_not_now (E : SimEnv) (s : SimState) (j i : Nat)
    (h : (s.t : Int) ≠ truncInt (E.arrival_time j)) :
    (acceptJobs E s).task j i = s.task j i := by
  simp [acceptJobs, h]

theorem isReady_persist (E : SimEnv) (s1 s2 : SimState) (j i : Nat)
    (h : isReady E s1 j i = true)
    (hst : (s2.task j i).status = (s1.task j i).status)
    (hfin : ∀ p, (s1.task j p).status = Status.finished →
      (s2.task j p).status = Status.finished) :
    isReady E s2 j i = true := by
  unfold isReady at h ⊢
  dsimp only at h ⊢
  rw [hst]
  simp only [Bool.or_eq_true, Bool.and_eq_true, decide_eq_true_eq, List.all_eq_true] at h ⊢
  rcases h with h | ⟨⟨⟨h1, h2⟩, h3⟩, h4⟩
  · exact Or.inl h
  · exact Or.inr ⟨⟨⟨h1, fun p hp => hfin p (h2 p hp)⟩, h3⟩, h4⟩

theorem not_ready_of_finished (E : SimEnv) (s : SimState) (j i : Nat)
    (h : (s.task j i).status = Status.finished) : (j, i) ∉ readyList E s := by
  intro hmem
  have := ((mem_readyList E s j i).mp hmem).2.2
  unfold isReady at this
  simp [h] at this

theorem dispatch_split (E : SimEnv) (r : TaskRef) (rl : List TaskRef) (s1 : SimState)
    (hnd : rl.Nodup) (hr : r ∈ rl) :
    ∃ pre post, rl = pre ++ r :: post ∧ r ∉ pre ∧ r ∉ post ∧
      (pre.foldl (dispatchOne E) s1).task r.1 r.2 = s1.task r.1 r.2 ∧
      (rl.foldl (dispatchOne E) s1).task r.1 r.2
        = (dispatchOne E (pre.foldl (dispatchOne E) s1) r).task r.1 r.2 := by
  obtain ⟨pre, post, hsplit⟩ := List.append_of_mem hr
  subst hsplit
  have h1 : r ∉ pre := by
    intro h
    have := (List.nodup_append.mp hnd).2.2
    exact this h (by simp)
  have h2 : r ∉ post := by
    have := (List.nodup_append.mp hnd).2.1
    exact (List.nodup_cons.mp this).1
  refine ⟨pre, post, rfl, h1, h2, ?_, ?_⟩
  · exact foldl_task_frame (dispatchOne E) (dispatchOne_task_ne E) pre s1 r.1 r.2 h1
  · rw [List.foldl_append, List.foldl_cons]
    exact foldl_task_frame (dispatchOne E) (dispatchOne_task_ne E) post _ r.1 r.2 h2


theorem isReady_not_scheduled (E : SimEnv) (s : SimState) (j i : Nat)
    (h : isReady E s j i = true) : (s.task j i).status ≠ Status.scheduled := by
  unfold isReady at h
  dsimp only at h
  simp only [Bool.or_eq_true, Bool.and_eq_true, decide_eq_true_eq] at h
  rcases h with h | ⟨⟨_, h3⟩, _⟩
  · rw [h]; decide
  · exact h3

theorem countedDown_status (v : taskVertex) : (countedDown v).status = v.status := by
  unfold countedDown
  split <;> rfl

theorem countedDown_type (v : taskVertex) :
    (countedDown v).assigned_type = v.assigned_type := by
  unfold countedDown
  split <;> rfl

theorem tick_keeps_finished (E : SimEnv) (s : SimState)
    (hperm : ∀ task l, (E.sortReady task l).Perm l) (j p : Nat)
    (h : ((acceptJobs E s).task j p).status = Status.finished) :
    (tick E s).task j p = (acceptJobs E s).task j p := by
  have hnot := not_ready_of_finished E (acceptJobs E s) j p h
  have hnot' : (j, p) ∉ E.sortReady (acceptJobs E s).task (readyList E (acceptJobs E s)) :=
    fun hm => hnot ((hperm _ _).mem_iff.mp hm)
  have hd : ((dispatchPhase E s).1.task j p) = (acceptJobs E s).task j p :=
    foldl_task_frame (dispatchOne E) (dispatchOne_task_ne E) _ _ j p hnot'
  have hnd : (dispatchPhase E s).2.Nodup :=
    (List.Perm.nodup_iff (hperm _ _)).mpr (nodup_readyList E _)
  unfold tick
  rw [finishTick_task E _ _ hnd j p (by rw [hd, h]; decide), hd]
  exact if_neg hnot'

theorem dispatchPhase_t (E : SimEnv) (s : SimState) : (dispatchPhase E s).1.t = s.t := by
  show ((E.sortReady (acceptJobs E s).task (readyList E (acceptJobs E s))).foldl
    (dispatchOne E) (acceptJobs E s)).t = s.t
  rw [foldl_t_frame (dispatchOne E) (dispatchOne_t E)]
  rfl

theorem tick_t (E : SimEnv) (s : SimState) : (tick E s).t = s.t + 1 := by
  unfold tick
  rw [finishTick_t, dispatchPhase_t]

theorem dispatchOne_skip (E : SimEnv) (σ : SimState) (r : TaskRef)
    (h1 : (σ.task r.1 r.2).readyCountdown ≠ -1) (h2 : (σ.task r.1 r.2).readyCountdown ≠ 0) :
    dispatchOne E σ r = σ := by
  unfold dispatchOne
  dsimp only
  rw [if_neg h1, if_neg h2]

theorem dispatchOne_start (E : SimEnv) (σ : SimState) (r : TaskRef)
    (h1 : (σ.task r.1 r.2).readyCountdown = -1)
    (h2 : bindIdle r (σ.VMTP (σ.task r.1 r.2).assigned_type) = none) :
    dispatchOne E σ r
      = setTask σ r { σ.task r.1 r.2 with readyCountdown := E.OnDemandLag, tasktime := σ.t } := by
  unfold dispatchOne
  dsimp only
  rw [if_pos h1, h2]

theorem dispatchOne_create (E : SimEnv) (σ : SimState) (r : TaskRef)
    (h1 : (σ.task r.1 r.2).readyCountdown = 0) :
    dispatchOne E σ r
      = { setPool (setTask σ r
            { σ.task r.1 r.2 with
              status := Status.scheduled
              restTime := (σ.task r.1 r.2).probestTime.getD
                ((σ.task r.1 r.2).assigned_type * E.randomsize + E.monte) 0 })
            (σ.task r.1 r.2).assigned_type
            (σ.VMTP (σ.task r.1 r.2).assigned_type ++
              [{ life_time := E.OnDemandLag, tk := some r,
                 type := (σ.task r.1 r.2).assigned_type, id := σ.created }]) with
          created := σ.created + 1 } := by
  unfold dispatchOne
  dsimp only
  rw [if_neg (by rw [h1]; decide), if_pos h1]

theorem tick_keeps_waiting (E : SimEnv) (s : SimState)
    (hperm : ∀ task l, (E.sortReady task l).Perm l) (r : TaskRef)
    (hr1 : r.1 < E.numjobs) (hr2 : r.2 < E.numvertices)
    (harr : truncInt (E.arrival_time r.1) ≤ (s.t : Int))
    (hready : isReady E (acceptJobs E s) r.1 r.2 = true)
    (v : taskVertex)
    (hd : (dispatchPhase E s).1.task r.1 r.2 = v)
    (hst : v.status = ((acceptJobs E s).task r.1 r.2).status) :
    (tick E s).task r.1 r.2 = countedDown v ∧
    Waiting E r v.assigned_type (countedDown v).readyCountdown (tick E s) := by
  have hmem : r ∈ readyList E (acceptJobs E s) :=
    (mem_readyList E _ r.1 r.2).mpr ⟨hr1, hr2, hready⟩
  have hmem' : r ∈ E.sortReady (acceptJobs E s).task (readyList E (acceptJobs E s)) :=
    (hperm _ _).mem_iff.mpr hmem
  have hnd : (dispatchPhase E s).2.Nodup :=
    (List.Perm.nodup_iff (hperm _ _)).mpr (nodup_readyList E _)
  have hns : ((dispatchPhase E s).1.task r.1 r.2).status ≠ Status.scheduled := by
    rw [hd, hst]
    exact isReady_not_scheduled E _ _ _ hready
  have ht : (tick E s).task r.1 r.2 = countedDown v := by
    unfold tick
    rw [finishTick_task E _ _ hnd r.1 r.2 hns, hd]
    exact if_pos hmem'
  refine ⟨ht, hr1, hr2, ?_, by rw [ht], by rw [ht, countedDown_type], ?_⟩
  · rw [tick_t]
    push_cast
    omega
  · apply isReady_persist E (acceptJobs E s) (tick E s) r.1 r.2 hready
    · rw [ht, countedDown_status, hst]
    · intro p hp
      rw [tick_keeps_finished E s hperm r.1 p hp]
      exact hp

theorem waiting_accept (E : SimEnv) (r : TaskRef) (a : Nat) (c : Int) (s : SimState)
    (h : Waiting E r a c s) :
    (∀ i, (acceptJobs E s).task r.1 i = s.task r.1 i) ∧
    isReady E (acceptJobs E s) r.1 r.2 = true := by
  obtain ⟨_, _, h3, _, _, h6⟩ := h
  have hne : (s.t : Int) ≠ truncInt (E.arrival_time r.1) := by omega
  have hall : ∀ i, (acceptJobs E s).task r.1 i = s.task r.1 i :=
    fun i => acceptJobs_task_of_not_now E s r.1 i hne
  refine ⟨hall, ?_⟩
  apply isReady_persist E s (acceptJobs E s) r.1 r.2 h6
  · rw [hall]
  · intro p hp
    rw [hall]
    exact hp

theorem waiting_step (E : SimEnv) (s : SimState)
    (hperm : ∀ task l, (E.sortReady task l).Perm l) (r : TaskRef) (a : Nat) (c : Int)
    (hc : 1 ≤ c) (h : Waiting E r a c s) :
    ((dispatchPhase E s).1.task r.1 r.2).status ≠ Status.scheduled ∧
    Waiting E r a (c - 1) (tick E s) := by
  obtain ⟨hall, hready⟩ := waiting_accept E r a c s h
  obtain ⟨hr1, hr2, h3, h4, h5, _⟩ := h
  have hmem : r ∈ E.sortReady (acceptJobs E s).task (readyList E (acceptJobs E s)) :=
    (hperm _ _).mem_iff.mpr ((mem_readyList E _ r.1 r.2).mpr ⟨hr1, hr2, hready⟩)
  have hnd : (E.sortReady (acceptJobs E s).task (readyList E (acceptJobs E s))).Nodup :=
    (List.Perm.nodup_iff (hperm _ _)).mpr (nodup_readyList E _)
  obtain ⟨pre, post, _, _, _, e1, e2⟩ := dispatch_split E r _ (acceptJobs E s) hnd hmem
  have hd : (dispatchPhase E s).1.task r.1 r.2 = s.task r.1 r.2 := by
    show ((E.sortReady (acceptJobs E s).task (readyList E (acceptJobs E s))).foldl
      (dispatchOne E) (acceptJobs E s)).task r.1 r.2 = _
    rw [e2]
    have hrc : ((pre.foldl (dispatchOne E) (acceptJobs E s)).task r.1 r.2).readyCountdown = c := by
      rw [e1, hall, h4]
    rw [dispatchOne_skip E _ r (by rw [hrc]; omega) (by rw [hrc]; omega), e1, hall]
  obtain ⟨t1, t2⟩ := tick_keeps_waiting E s hperm r hr1 hr2 (le_of_lt h3) hready _ hd
    (by rw [hall])
  refine ⟨?_, ?_⟩
  · rw [hd, ← hall r.2]
    exact isReady_not_scheduled E _ _ _ hready
  · have hcd : (countedDown (s.task r.1 r.2)).readyCountdown = c - 1 := by
      unfold countedDown
      rw [if_pos (by rw [h4]; omega)]
      simp [h4]
    rw [hcd, h5] at t2
    exact t2

theorem waiting_ticks (E : SimEnv) (hperm : ∀ task l, (E.sortReady task l).Perm l)
    (r : TaskRef) (a : Nat) : ∀ (n : Nat) (s : SimState), Waiting E r a (n : Int) s →
    (∀ k, k < n →
      ((dispatchPhase E (ticks E k s)).1.task r.1 r.2).status ≠ Status.scheduled) ∧
    Waiting E r a 0 (ticks E n s) ∧ (ticks E n s).t = s.t + n := by
  intro n
  induction n with
  | zero =>
    intro s h
    exact ⟨fun k hk => absurd hk (Nat.not_lt_zero k), by simpa [ticks] using h, rfl⟩
  | succ n ih =>
    intro s h
    obtain ⟨a1, a2⟩ := waiting_step E s hperm r a ((n + 1 : Nat) : Int) (by push_cast; omega) h
    have a2' : Waiting E r a (n : Int) (tick E s) := by
      have : (((n + 1 : Nat) : Int) - 1) = (n : Int) := by push_cast; omega
      rw [this] at a2
      exact a2
    obtain ⟨b1, b2, b3⟩ := ih (tick E s) a2'
    refine ⟨?_, b2, ?_⟩
    · intro k hk
      cases k with
      | zero => exact a1
      | succ k => exact b1 k (by omega)
    · show (ticks E n (tick E s)).t = s.t + (n + 1)
      rw [b3, tick_t]
      omega


theorem bindIdle_keeps (r' : TaskRef) : ∀ (pool pool' : List VM) (vm : VM),
    bindIdle r' pool = some pool' → vm ∈ pool → vm.tk ≠ none → vm ∈ pool' := by
  intro pool
  induction pool with
  | nil => intro pool' vm h; simp [bindIdle] at h
  | cons x rest ih =>
    intro pool' vm h hvm htk
    simp only [bindIdle] at h
    split at h
    · rename_i hx
      cases h
      rcases List.mem_cons.mp hvm with h' | h'
      · subst h'; exact absurd hx htk
      · exact List.mem_cons_of_mem _ h'
    · cases hb : bindIdle r' rest with
      | none => simp [hb] at h
      | some l =>
        simp only [hb, Option.map_some', Option.some.injEq] at h
        subst h
        rcases List.mem_cons.mp hvm with h' | h'
        · subst h'; exact List.mem_cons_self _ _
        · exact List.mem_cons_of_mem _ (ih l vm hb h' htk)

theorem dispatchOne_keeps_vm (E : SimEnv) (σ : SimState) (r' : TaskRef) (a : Nat) (vm : VM)
    (hvm : vm ∈ σ.VMTP a) (htk : vm.tk ≠ none) : vm ∈ (dispatchOne E σ r').VMTP a := by
  unfold dispatchOne
  dsimp only
  split
  · split
    · rename_i pool hb
      simp only [setPool, setTask]
      split
      · rename_i ha
        subst ha
        exact bindIdle_keeps r' _ pool vm hb hvm htk
      · exact hvm
    · exact hvm
  · split
    · simp only [setPool, setTask]
      split
      · rename_i ha
        subst ha
        exact List.mem_append_left _ hvm
      · exact hvm
    · exact hvm

theorem dispatch_keeps_vm (E : SimEnv) (a : Nat) (vm : VM) (htk : vm.tk ≠ none) :
    ∀ (l : List TaskRef) (σ : SimState), vm ∈ σ.VMTP a →
      vm ∈ (l.foldl (dispatchOne E) σ).VMTP a := by
  intro l
  induction l with
  | nil => intro σ h; exact h
  | cons x xs ih =>
    intro σ h
    exact ih _ (dispatchOne_keeps_vm E σ x a vm h htk)

theorem waiting_bind (E : SimEnv) (s : SimState)
    (hperm : ∀ task l, (E.sortReady task l).Perm l) (r : TaskRef) (a : Nat)
    (h : Waiting E r a 0 s) :
    ((dispatchPhase E s).1.task r.1 r.2).status = Status.scheduled ∧
    ∃ vm ∈ (dispatchPhase E s).1.VMTP a,
      vm.tk = some r ∧ vm.type = a ∧ vm.life_time = E.OnDemandLag ∧
      s.created ≤ vm.id ∧ vm.id < (dispatchPhase E s).1.created := by
  obtain ⟨hall, hready⟩ := waiting_accept E r a 0 s h
  obtain ⟨hr1, hr2, h3, h4, h5, _⟩ := h
  have hmem : r ∈ E.sortReady (acceptJobs E s).task (readyList E (acceptJobs E s)) :=
    (hperm _ _).mem_iff.mpr ((mem_readyList E _ r.1 r.2).mpr ⟨hr1, hr2, hready⟩)
  have hnd : (E.sortReady (acceptJobs E s).task (readyList E (acceptJobs E s))).Nodup :=
    (List.Perm.nodup_iff (hperm _ _)).mpr (nodup_readyList E _)
  obtain ⟨pre, post, hsplit, _, _, e1, e2⟩ := dispatch_split E r _ (acceptJobs E s) hnd hmem
  have hrc : ((pre.foldl (dispatchOne E) (acceptJobs E s)).task r.1 r.2).readyCountdown = 0 := by
    rw [e1, hall, h4]
  have hty : ((pre.foldl (dispatchOne E) (acceptJobs E s)).task r.1 r.2).assigned_type = a := by
    rw [e1, hall, h5]
  have hdp : (dispatchPhase E s).1
      = post.foldl (dispatchOne E)
          (dispatchOne E (pre.foldl (dispatchOne E) (acceptJobs E s)) r) := by
    show ((E.sortReady (acceptJobs E s).task (readyList E (acceptJobs E s))).foldl
      (dispatchOne E) (acceptJobs E s)) = _
    rw [hsplit, List.foldl_append, List.foldl_cons]
  have hcr := dispatch_created E pre (acceptJobs E s)
  have hcr2 := dispatch_created E post
    (dispatchOne E (pre.foldl (dispatchOne E) (acceptJobs E s)) r)
  have hs1 : (acceptJobs E s).created = s.created := rfl
  constructor
  · show (((E.sortReady (acceptJobs E s).task (readyList E (acceptJobs E s))).foldl
      (dispatchOne E) (acceptJobs E s)).task r.1 r.2).status = _
    rw [e2, dispatchOne_create E _ r hrc]
    simp [setPool, setTask]
  · refine ⟨{ life_time := E.OnDemandLag, tk := some r, type := a,
              id := (pre.foldl (dispatchOne E) (acceptJobs E s)).created }, ?_, rfl, rfl, rfl,
              ?_, ?_⟩
    · rw [hdp]
      apply dispatch_keeps_vm E a _ (by simp)
      rw [dispatchOne_create E _ r hrc, hty]
      simp [setPool, setTask]
    · dsimp only
      omega
    · have hcreate : (dispatchOne E (pre.foldl (dispatchOne E) (acceptJobs E s)) r).created
          = (pre.foldl (dispatchOne E) (acceptJobs E s)).created + 1 := by
        rw [dispatchOne_create E _ r hrc]
      rw [hdp]
      dsimp only
      omega

theorem waiting_start (E : SimEnv) (s : SimState)
    (hperm : ∀ task l, (E.sortReady task l).Perm l) (r : TaskRef)
    (harr : truncInt (E.arrival_time r.1) ≤ (s.t : Int))
    (hmem : r ∈ readyList E (acceptJobs E s))
    (hrc : ((acceptJobs E s).task r.1 r.2).readyCountdown = -1)
    (hnoidle : ∀ pre post,
      E.sortReady (acceptJobs E s).task (readyList E (acceptJobs E s)) = pre ++ r :: post →
      bindIdle r ((pre.foldl (dispatchOne E) (acceptJobs E s)).VMTP
        ((acceptJobs E s).task r.1 r.2).assigned_type) = none) :
    ((dispatchPhase E s).1.task r.1 r.2).status ≠ Status.scheduled ∧
    ((dispatchPhase E s).1.task r.1 r.2).readyCountdown = E.OnDemandLag ∧
    Waiting E r ((acceptJobs E s).task r.1 r.2).assigned_type
      ((max E.OnDemandLag 1 - 1 : Nat) : Int) (tick E s) := by
  obtain ⟨hr1, hr2, hready⟩ := (mem_readyList E _ r.1 r.2).mp hmem
  have hmem' : r ∈ E.sortReady (acceptJobs E s).task (readyList E (acceptJobs E s)) :=
    (hperm _ _).mem_iff.mpr hmem
  have hnd : (E.sortReady (acceptJobs E s).task (readyList E (acceptJobs E s))).Nodup :=
    (List.Perm.nodup_iff (hperm _ _)).mpr (nodup_readyList E _)
  obtain ⟨pre, post, hsplit, _, _, e1, e2⟩ := dispatch_split E r _ (acceptJobs E s) hnd hmem'
  have hd : (dispatchPhase E s).1.task r.1 r.2
      = { (acceptJobs E s).task r.1 r.2 with
          readyCountdown := E.OnDemandLag, tasktime := s.t } := by
    show ((E.sortReady (acceptJobs E s).task (readyList E (acceptJobs E s))).foldl
      (dispatchOne E) (acceptJobs E s)).task r.1 r.2 = _
    rw [e2, dispatchOne_start E _ r (by rw [e1, hrc]) (by rw [e1]; exact hnoidle pre post hsplit),
      setTask_task_self, e1, foldl_t_frame (dispatchOne E) (dispatchOne_t E)]
    rfl
  obtain ⟨t1, t2⟩ := tick_keeps_waiting E s hperm r hr1 hr2 harr hready _ hd rfl
  refine ⟨?_, by rw [hd], ?_⟩
  · rw [hd]
    exact isReady_not_scheduled E _ _ _ hready
  · have hcd : (countedDown { (acceptJobs E s).task r.1 r.2 with
        readyCountdown := E.OnDemandLag, tasktime := s.t }).readyCountdown
        = ((max E.OnDemandLag 1 - 1 : Nat) : Int) := by
      unfold countedDown
      dsimp only
      split
      · rename_i hpos
        dsimp only
        have : 1 ≤ E.OnDemandLag := by omega
        rw [max_eq_left this]
        omega
      · rename_i hpos
        dsimp only
        have : E.OnDemandLag = 0 := by omega
        rw [this]
        rfl
    rw [hcd] at t2
    exact t2

/-- C10 (as amended): with any sort of `ready_task` that permutes it, if at tick
`t0` a task of `ready_task`, of a job that has arrived, has
`readyCountdown == -1` and finds no idle VM in the pool of its assigned type at
its turn, then it is not bound at any of the ticks `t0, ..., t0 + max(L,1) - 1`,
and in the dispatch of tick `t0 + max(L,1)` it is marked scheduled and given a
VM created in that tick, of its assigned type and with `life_time = L`. For
`L ≥ 1` that is the tick `t0 + L`; for `L = 0` it is `t0 + 1`. -/
theorem C10_bound_after_provisioning_delay (E : SimEnv) (s : SimState) (r : TaskRef)
    (hperm : ∀ task l, (E.sortReady task l).Perm l)
    (harr : truncInt (E.arrival_time r.1) ≤ (s.t : Int))
    (hmem : r ∈ readyList E (acceptJobs E s))
    (hrc : ((acceptJobs E s).task r.1 r.2).readyCountdown = -1)
    (hnoidle : ∀ pre post,
      E.sortReady (acceptJobs E s).task (readyList E (acceptJobs E s)) = pre ++ r :: post →
      bindIdle r ((pre.foldl (dispatchOne E) (acceptJobs E s)).VMTP
        ((acceptJobs E s).task r.1 r.2).assigned_type) = none) :
    (∀ k, k < max E.OnDemandLag 1 →
      ((dispatchPhase E (ticks E k s)).1.task r.1 r.2).status ≠ Status.scheduled) ∧
    (ticks E (max E.OnDemandLag 1) s).t = s.t + max E.OnDemandLag 1 ∧
    ((dispatchPhase E (ticks E (max E.OnDemandLag 1) s)).1.task r.1 r.2).status
      = Status.scheduled ∧
    ∃ vm ∈ (dispatchPhase E (ticks E (max E.OnDemandLag 1) s)).1.VMTP
        ((acceptJobs E s).task r.1 r.2).assigned_type,
      vm.tk = some r ∧ vm.type = ((acceptJobs E s).task r.1 r.2).assigned_type ∧
      vm.life_time = E.OnDemandLag ∧
      (ticks E (max E.OnDemandLag 1) s).created ≤ vm.id ∧
      vm.id < (dispatchPhase E (ticks E (max E.OnDemandLag 1) s)).1.created := by
  obtain ⟨a1, _, a3⟩ := waiting_start E s hperm r harr hmem hrc hnoidle
  obtain ⟨b1, b2, b3⟩ := waiting_ticks E hperm r _ (max E.OnDemandLag 1 - 1) (tick E s) a3
  have hM : max E.OnDemandLag 1 = (max E.OnDemandLag 1 - 1) + 1 := by
    have : 1 ≤ max E.OnDemandLag 1 := le_max_right _ _
    omega
  have hticks : ticks E (max E.OnDemandLag 1) s
      = ticks E (max E.OnDemandLag 1 - 1) (tick E s) := by
    conv_lhs => rw [hM]
    rfl
  obtain ⟨c1, c2⟩ := waiting_bind E _ hperm r _ b2
  refine ⟨?_, ?_, ?_, ?_⟩
  · intro k hk
    cases k with
    | zero => exact a1
    | succ k => exact b1 k (by omega)
  · rw [hticks, b3, tick_t]
    omega
  · rw [hticks]
    exact c1
  · rw [hticks]
    exact c2


theorem chain_readyList2 :
    readyList (chainEnv 2) (acceptJobs (chainEnv 2) (simInit (fun _ _ => chainTask)))
      = [(0, 0)] := by
  decide

/-- C10 (the claim as stated fails): with `OnDemandLag = 0`, the first task of the
chain job is in `ready_task` at tick 0 with `readyCountdown == -1` and an empty
pool of its type. The dispatch of tick 0 (= 0 + `OnDemandLag`) starts its
provisioning (`readyCountdown = 0`) but creates no VM and leaves the task
unscheduled; the VM is created, and the task bound, in the dispatch of tick 1. -/
theorem C10_zero_lag_binds_one_tick_later :
    (chainEnv 0).OnDemandLag = 0 ∧
    (0, 0) ∈ readyList (chainEnv 0) (acceptJobs (chainEnv 0) (simInit (fun _ _ => chainTask))) ∧
    ((acceptJobs (chainEnv 0) (simInit (fun _ _ => chainTask))).task 0 0).readyCountdown = -1 ∧
    (acceptJobs (chainEnv 0) (simInit (fun _ _ => chainTask))).VMTP 0 = [] ∧
    ((dispatchPhase (chainEnv 0) (simInit (fun _ _ => chainTask))).1.task 0 0).status
      = Status.ready ∧
    ((dispatchPhase (chainEnv 0) (simInit (fun _ _ => chainTask))).1.task 0 0).readyCountdown
      = 0 ∧
    (dispatchPhase (chainEnv 0) (simInit (fun _ _ => chainTask))).1.created = 0 ∧
    ((dispatchPhase (chainEnv 0)
      (tick (chainEnv 0) (simInit (fun _ _ => chainTask)))).1.task 0 0).status
      = Status.scheduled ∧
    (dispatchPhase (chainEnv 0)
      (tick (chainEnv 0) (simInit (fun _ _ => chainTask)))).1.created = 1 := by
  refine ⟨rfl, ?_, ?_, rfl, ?_, ?_, ?_, ?_, ?_⟩ <;> decide

theorem C10_bound_after_provisioning_delay_witness :
    (0, 0) ∈ readyList (chainEnv 2) (acceptJobs (chainEnv 2) (simInit (fun _ _ => chainTask))) ∧
    ((dispatchPhase (chainEnv 2)
      (ticks (chainEnv 2) 2 (simInit (fun _ _ => chainTask)))).1.task 0 0).status
      = Status.scheduled :=
  ⟨by decide,
    (C10_bound_after_provisioning_delay (chainEnv 2) (simInit (fun _ _ => chainTask)) (0, 0)
      (fun _ l => List.Perm.refl l) (by decide) (by decide) (by decide)
      (by
        intro pre post h
        have h' : [((0 : Nat), (0 : Nat))] = pre ++ (0, 0) :: post := by
          rw [← chain_readyList2]; exact h
        cases pre with
        | nil => rfl
        | cons x xs =>
          cases xs <;> simp at h')).2.2.1⟩

theorem C9_every_VM_charged_once_witness :
    (∀ j i : Nat, ((fun _ _ => chainTask) j i : taskVertex).assigned_type < (chainEnv 2).types) ∧
    (((ticks (chainEnv 2) 3 (simInit (fun _ _ => chainTask))).reaped ++
        liveVMs (chainEnv 2) (ticks (chainEnv 2) 3 (simInit (fun _ _ => chainTask)))).map
        VM.id).Perm (List.range (ticks (chainEnv 2) 3 (simInit (fun _ _ => chainTask))).created) :=
  ⟨fun _ _ => show chainTask.assigned_type < (chainEnv 2).types by decide,
    ((C9_every_VM_charged_once (chainEnv 2) (fun _ _ => chainTask)
      (fun _ _ => show chainTask.assigned_type < (chainEnv 2).types by decide)).1 3).1⟩

/-! ### The ready list and the acceptance of a job -/

theorem isReady_iff (E : SimEnv) (s : SimState) (ji i : Nat) :
    isReady E s ji i = true ↔
      ((s.task ji i).status = Status.ready ∨
        (E.in_edges i ≠ [] ∧
          (∀ src ∈ E.in_edges i, (s.task ji src).status = Status.finished) ∧
          (s.task ji i).status ≠ Status.scheduled ∧
          (s.task ji i).status ≠ Status.finished)) := by
  simp only [isReady, Bool.or_eq_true, Bool.and_eq_true, decide_eq_true_eq, Bool.not_eq_true',
    List.isEmpty_eq_false, List.all_eq_true, ne_eq, and_assoc]

/-- C11, as the code has it: at every tick a task is in `ready_task` if and only
if its status is `ready`, or it has at least one in-edge, the sources of all its
in-edges are finished and its own status is neither `scheduled` nor
`finished`. -/
theorem C11_ready_list_membership (E : SimEnv) (s : SimState) (ji i : Nat) :
    (ji, i) ∈ readyList E s ↔
      ji < E.numjobs ∧ i < E.numvertices ∧
        ((s.task ji i).status = Status.ready ∨
          (E.in_edges i ≠ [] ∧
            (∀ src ∈ E.in_edges i, (s.task ji src).status = Status.finished) ∧
            (s.task ji i).status ≠ Status.scheduled ∧
            (s.task ji i).status ≠ Status.finished)) := by
  rw [mem_readyList, isReady_iff]

/-- C11, the claim as it stands fails in both directions. In the first tick of
the two-job `montage` replica, vertex 1 of the job that has arrived is in
`ready_task` while the source of its in-edge, vertex 0, is not finished; and
vertex 0 of the job that has not arrived has no in-edge and a status that is
neither `scheduled` nor `finished`, but it is not in `ready_task`. -/
theorem C11_ready_list_not_the_claimed_test :
    ((0, 1) ∈ readyList montageChainEnv
        (acceptJobs montageChainEnv (simInit (fun _ _ => chainTask))) ∧
      montageChainEnv.in_edges 1 = [0] ∧
      ((acceptJobs montageChainEnv (simInit (fun _ _ => chainTask))).task 0 0).status
        ≠ Status.finished) ∧
    ((1, 0) ∉ readyList montageChainEnv
        (acceptJobs montageChainEnv (simInit (fun _ _ => chainTask))) ∧
      montageChainEnv.in_edges 0 = [] ∧
      ((acceptJobs montageChainEnv (simInit (fun _ _ => chainTask))).task 1 0).status
        = Status.not_ready) := by
  decide

theorem admissionTable_bounds (tag : DagType) (r n : Nat)
    (h : admissionTable tag = some (r, n)) : 1 ≤ r ∧ r ≤ n := by
  cases tag <;> simp [admissionTable] at h <;> omega

theorem filter_interval_length (p : Nat → Bool) (a b N : Nat)
    (hp : ∀ i, i < N → (p i = true ↔ a ≤ i ∧ i < b)) (n : Nat) (hn : n ≤ N) :
    ((List.range n).filter p).length = min n b - min n a := by
  induction n with
  | zero => simp
  | succ n ih =>
    rw [List.range_succ, List.filter_append, List.length_append, ih (by omega)]
    by_cases h : p n = true
    · have h2 := (hp n (by omega)).mp h
      simp only [List.filter, h, List.length_singleton]
      omega
    · have h2 : ¬ (a ≤ n ∧ n < b) := fun h3 => h ((hp n (by omega)).mpr h3)
      have h3 : p n = false := by simpa using h
      simp only [List.filter, h3, List.length_nil]
      omega

theorem acceptJobs_task_now (E : SimEnv) (s : SimState) (j i : Nat) (hj : j < E.numjobs)
    (ht : (s.t : Int) = truncInt (E.arrival_time j)) :
    (acceptJobs E s).task j i = acceptVertex E i (s.task j i) := by
  simp only [acceptJobs]
  rw [if_pos ⟨hj, ht⟩]

/-- C12, as the code has it: for each of the nine tags, at the tick of a job's
arrival, with `autoscaling = true` the vertices `1 .. readys` are `ready` and the
vertices `readys+1 .. numtasks` are `not_ready` (all with `readyCountdown = -1`
and `restTime = 0`), vertex 0 and vertex `numtasks+1` are `finished`, and exactly
`readys` of the vertices `0 .. numtasks+1` are `ready`; with
`autoscaling = false` the vertices `0 .. readys-1` are `ready` and the vertices
`readys .. numtasks-1` are `not_ready` (same countdown and rest time), exactly
`readys` of the vertices `0 .. numtasks-1` are `ready`, and no vertex is marked
`finished`: a vertex that is finished after the acceptance was not touched by it
and was finished before. -/
theorem C12_admission_by_flag (E : SimEnv) (s : SimState) (j : Nat) (tag : DagType)
    (hE : admissionTable tag = some (E.readys, E.numtasks)) (hj : j < E.numjobs)
    (ht : (s.t : Int) = truncInt (E.arrival_time j)) :
    (E.autoscaling = true →
      (∀ i, 1 ≤ i → i ≤ E.readys →
        ((acceptJobs E s).task j i).status = Status.ready ∧
        ((acceptJobs E s).task j i).readyCountdown = -1 ∧
        ((acceptJobs E s).task j i).restTime = 0) ∧
      (∀ i, E.readys < i → i ≤ E.numtasks →
        ((acceptJobs E s).task j i).status = Status.not_ready ∧
        ((acceptJobs E s).task j i).readyCountdown = -1 ∧
        ((acceptJobs E s).task j i).restTime = 0) ∧
      ((acceptJobs E s).task j 0).status = Status.finished ∧
      ((acceptJobs E s).task j (E.numtasks + 1)).status = Status.finished ∧
      ((List.range (E.numtasks + 2)).filter
        (fun i => decide (((acceptJobs E s).task j i).status = Status.ready))).length
        = E.readys) ∧
    (E.autoscaling = false →
      (∀ i, i < E.readys →
        ((acceptJobs E s).task j i).status = Status.ready ∧
        ((acceptJobs E s).task j i).readyCountdown = -1 ∧
        ((acceptJobs E s).task j i).restTime = 0) ∧
      (∀ i, E.readys ≤ i → i < E.numtasks →
        ((acceptJobs E s).task j i).status = Status.not_ready ∧
        ((acceptJobs E s).task j i).readyCountdown = -1 ∧
        ((acceptJobs E s).task j i).restTime = 0) ∧
      ((List.range E.numtasks).filter
        (fun i => decide (((acceptJobs E s).task j i).status = Status.ready))).length
        = E.readys ∧
      (∀ i, ((acceptJobs E s).task j i).status = Status.finished →
        E.numtasks ≤ i ∧ (s.task j i).status = Status.finished)) := by
  obtain ⟨hr1, hrn⟩ := admissionTable_bounds tag _ _ hE
  have hacc := acceptJobs_task_now E s j
  constructor
  · intro ha
    have hready : ∀ i, 1 ≤ i → i ≤ E.readys →
        acceptVertex E i (s.task j i) =
          { s.task j i with status := Status.ready, readyCountdown := -1, restTime := 0 } := by
      intro i h1 h2
      have c1 : 1 ≤ i ∧ i < E.readys + 1 := ⟨h1, by omega⟩
      have c2 : ¬ (i = 0 ∨ i = E.numtasks + 1) := by omega
      simp only [acceptVertex, ha, if_true, if_pos c1, if_neg c2]
    have hnot : ∀ i, E.readys < i → i ≤ E.numtasks →
        acceptVertex E i (s.task j i) =
          { s.task j i with status := Status.not_ready, readyCountdown := -1,
                            restTime := 0 } := by
      intro i h1 h2
      have c0 : ¬ (1 ≤ i ∧ i < E.readys + 1) := by omega
      have c1 : E.readys + 1 ≤ i ∧ i < E.numtasks + 1 := ⟨by omega, by omega⟩
      have c2 : ¬ (i = 0 ∨ i = E.numtasks + 1) := by omega
      simp only [acceptVertex, ha, if_true, if_neg c0, if_pos c1, if_neg c2]
    have hfin : ∀ i, i = 0 ∨ i = E.numtasks + 1 →
        (acceptVertex E i (s.task j i)).status = Status.finished := by
      intro i h1
      simp only [acceptVertex, ha, if_true, if_pos h1]
    refine ⟨fun i h1 h2 => ?_, fun i h1 h2 => ?_, ?_, ?_, ?_⟩
    · rw [hacc i hj ht, hready i h1 h2]; exact ⟨rfl, rfl, rfl⟩
    · rw [hacc i hj ht, hnot i h1 h2]; exact ⟨rfl, rfl, rfl⟩
    · rw [hacc 0 hj ht]; exact hfin 0 (Or.inl rfl)
    · rw [hacc _ hj ht]; exact hfin _ (Or.inr rfl)
    · rw [filter_interval_length _ 1 (E.readys + 1) (E.numtasks + 2) _ _ (le_refl _)]
      · omega
      · intro i hi
        rw [decide_eq_true_eq, hacc i hj ht]
        constructor
        · intro h
          by_contra hc
          rcases Nat.lt_or_ge i 1 with h0 | h0
          · have := hfin i (Or.inl (by omega)); rw [h] at this; cases this
          · rcases Nat.lt_or_ge E.numtasks i with h1 | h1
            · rcases Nat.lt_or_ge (E.numtasks + 1) i with h2 | h2
              · have c0 : ¬ (1 ≤ i ∧ i < E.readys + 1) := by omega
                have c1 : ¬ (E.readys + 1 ≤ i ∧ i < E.numtasks + 1) := by omega
                have c2 : ¬ (i = 0 ∨ i = E.numtasks + 1) := by omega
                exact hc (by omega)
              · have := hfin i (Or.inr (by omega)); rw [h] at this; cases this
            · rw [hnot i (by omega) h1] at h; cases h
        · intro h
          rw [hready i h.1 (by omega)]
  · intro ha
    have hready : ∀ i, i < E.readys →
        acceptVertex E i (s.task j i) =
          { s.task j i with status := Status.ready, readyCountdown := -1, restTime := 0 } := by
      intro i h1
      simp only [acceptVertex, ha, Bool.false_eq_true, if_false]
      rw [if_pos h1]
    have hnot : ∀ i, E.readys ≤ i → i < E.numtasks →
        acceptVertex E i (s.task j i) =
          { s.task j i with status := Status.not_ready, readyCountdown := -1,
                            restTime := 0 } := by
      intro i h1 h2
      simp only [acceptVertex, ha, Bool.false_eq_true, if_false]
      rw [if_neg (by omega), if_pos h2]
    have hsame : ∀ i, E.numtasks ≤ i → acceptVertex E i (s.task j i) = s.task j i := by
      intro i h1
      simp only [acceptVertex, ha, Bool.false_eq_true, if_false]
      rw [if_neg (by omega), if_neg (by omega)]
    refine ⟨fun i h1 => ?_, fun i h1 h2 => ?_, ?_, fun i h => ?_⟩
    · rw [hacc i hj ht, hready i h1]; exact ⟨rfl, rfl, rfl⟩
    · rw [hacc i hj ht, hnot i h1 h2]; exact ⟨rfl, rfl, rfl⟩
    · rw [filter_interval_length _ 0 E.readys E.numtasks _ _ (le_refl _)]
      · omega
      · intro i hi
        rw [decide_eq_true_eq, hacc i hj ht]
        constructor
        · intro h
          by_contra hc
          rcases Nat.lt_or_ge i E.numtasks with h2 | h2
          · rw [hnot i (by omega) h2] at h; cases h
          · omega
        · intro h
          rw [hready i h.2]
    · rw [hacc i hj ht] at h
      rcases Nat.lt_or_ge i E.readys with h1 | h1
      · rw [hready i h1] at h; cases h
      · rcases Nat.lt_or_ge i E.numtasks with h2 | h2
        · rw [hnot i h1 h2] at h; cases h
        · rw [hsame i h2] at h; exact ⟨h2, h⟩

theorem C12_admission_by_flag_witness :
    (admissionTable DagType.epigenome = some ((chainEnv 0).readys, (chainEnv 0).numtasks) ∧
      ((simInit (fun _ _ => chainTask)).t : Int) = truncInt ((chainEnv 0).arrival_time 0) ∧
      ((List.range (chainEnv 0).numtasks).filter
        (fun i => decide (((acceptJobs (chainEnv 0) (simInit (fun _ _ => chainTask))).task 0 i).status
          = Status.ready))).length = (chainEnv 0).readys) ∧
    (admissionTable DagType.epigenome = some (chainEnvAuto.readys, chainEnvAuto.numtasks) ∧
      ((acceptJobs chainEnvAuto (simInit (fun _ _ => chainTask))).task 0 0).status
        = Status.finished ∧
      ((acceptJobs chainEnvAuto (simInit (fun _ _ => chainTask))).task 0 21).status
        = Status.finished) :=
  ⟨⟨rfl, by decide,
      ((C12_admission_by_flag (chainEnv 0) (simInit (fun _ _ => chainTask)) 0 DagType.epigenome
        rfl (by decide) (by decide)).2 rfl).2.2.1⟩,
    ⟨rfl,
      ((C12_admission_by_flag chainEnvAuto (simInit (fun _ _ => chainTask)) 0 DagType.epigenome
        rfl (by decide) (by decide)).1 rfl).2.2.1,
      ((C12_admission_by_flag chainEnvAuto (simInit (fun _ _ => chainTask)) 0 DagType.epigenome
        rfl (by decide) (by decide)).1 rfl).2.2.2.1⟩⟩

/-- C12, the claim as it stands fails for `autoscaling = false`, the value that
the search passes: in the replica of one `epigenome` job that arrives at time 0,
the acceptance leaves vertex 0 `ready` and the last vertex `not_ready`; neither
is marked `finished`. -/
theorem C12_no_vertex_finished_without_autoscaling :
    admissionTable DagType.epigenome = some ((chainEnv 0).readys, (chainEnv 0).numtasks) ∧
    (chainEnv 0).autoscaling = false ∧
    ((simInit (fun _ _ => chainTask)).t : Int) = truncInt ((chainEnv 0).arrival_time 0) ∧
    ((acceptJobs (chainEnv 0) (simInit (fun _ _ => chainTask))).task 0 0).status
      = Status.ready ∧
    ((acceptJobs (chainEnv 0) (simInit (fun _ _ => chainTask))).task 0 19).status
      = Status.not_ready ∧
    ∀ i, ((acceptJobs (chainEnv 0) (simInit (fun _ _ => chainTask))).task 0 i).status
      ≠ Status.finished := by
  refine ⟨rfl, rfl, by decide, by decide, by decide, fun i => ?_⟩
  rw [acceptJobs_task_now _ _ 0 i (by decide) (by decide)]
  simp only [acceptVertex, chainEnv, simInit, chainTask, Bool.false_eq_true, if_false]
  split_ifs <;> simp

/-! ### The count of the deadline violations -/

theorem sum_set_add (l : List ℚ) (i : Nat) (x : ℚ) (hi : i < l.length) :
    (l.set i (l.getD i 0 + x)).sum = l.sum + x := by
  induction l generalizing i with
  | nil => simp at hi
  | cons a l ih =>
    cases i with
    | zero => simp [List.set]; ring
    | succ i =>
      have hi2 : i < l.length := by simpa using hi
      simp only [List.set, List.sum_cons, List.getD_cons_succ]
      rw [ih i hi2]; ring

theorem countViolations_fold (E : SimEnv) (s : SimState) (id : Nat) (jobs : List Nat)
    (vp : List ℚ) (hid : id < vp.length) :
    (jobs.foldl
      (fun vp i =>
        if executiontime E s i > E.deadline i then vp.set id (vp.getD id 0 + 1) else vp)
      vp).length = vp.length ∧
    vp.sum ≤ (jobs.foldl
      (fun vp i =>
        if executiontime E s i > E.deadline i then vp.set id (vp.getD id 0 + 1) else vp)
      vp).sum ∧
    (jobs.foldl
      (fun vp i =>
        if executiontime E s i > E.deadline i then vp.set id (vp.getD id 0 + 1) else vp)
      vp).sum ≤ vp.sum + jobs.length := by
  induction jobs generalizing vp with
  | nil => simp
  | cons i jobs ih =>
    simp only [List.foldl_cons, List.length_cons, Nat.cast_add, Nat.cast_one]
    by_cases h : executiontime E s i > E.deadline i
    · rw [if_pos h]
      obtain ⟨h1, h2, h3⟩ := ih (vp.set id (vp.getD id 0 + 1)) (by simpa using hid)
      rw [sum_set_add vp id 1 hid] at h2 h3
      refine ⟨by rw [h1]; simp, by linarith, by linarith⟩
    · rw [if_neg h]
      obtain ⟨h1, h2, h3⟩ := ih vp hid
      exact ⟨h1, h2, by linarith⟩

theorem countViolations_spec (E : SimEnv) (s : SimState) (id : Nat) (vp : List ℚ)
    (hid : id < vp.length) :
    (countViolations E vp id s).length = vp.length ∧
    vp.sum ≤ (countViolations E vp id s).sum ∧
    (countViolations E vp id s).sum ≤ vp.sum + E.numjobs := by
  have h := countViolations_fold E s id (List.range E.numjobs) vp hid
  rw [List.length_range] at h
  exact h

theorem viol_private_fold (E : SimEnv) (replicas : List (Nat × SimState)) (vp : List ℚ)
    (hlen : vp.length = 24) (hid : ∀ f ∈ replicas, f.1 < 24) :
    vp.sum ≤ (replicas.foldl (fun vp f => countViolations E vp f.1 f.2) vp).sum ∧
    (replicas.foldl (fun vp f => countViolations E vp f.1 f.2) vp).sum
      ≤ vp.sum + (replicas.length : ℚ) * E.numjobs := by
  induction replicas generalizing vp with
  | nil => simp
  | cons f replicas ih =>
    simp only [List.foldl_cons, List.length_cons, Nat.cast_add, Nat.cast_one]
    have hf : f.1 < vp.length := by rw [hlen]; exact hid f (List.mem_cons_self _ _)
    obtain ⟨h1, h2, h3⟩ := countViolations_spec E f.2 f.1 vp hf
    obtain ⟨h4, h5⟩ := ih (countViolations E vp f.1 f.2) (by rw [h1, hlen])
      (fun g hg => hid g (List.mem_cons_of_mem _ hg))
    constructor
    · linarith
    · linarith

/-- C14: for every integer `num_jobs = J ≥ 1` (the number of jobs of a replica)
and `S ≥ 1` replicas, each run by one of the 24 threads, a replica adds to
`viol_private` at most one violation per job, at most `J` in all; the total
count is at most `S*J`, and the printed rate `1 - violation` lies in
`[0, 1]`. -/
theorem C14_deadline_meeting_rate_in_unit_interval (E : SimEnv) (J : Nat)
    (replicas : List (Nat × SimState)) (hJ : 1 ≤ J) (hjobs : E.numjobs = J)
    (hS : 1 ≤ E.randomsize) (hlen : replicas.length = E.randomsize)
    (hid : ∀ f ∈ replicas, f.1 < 24) :
    (∀ (vp : List ℚ) (id : Nat) (s : SimState), id < vp.length →
      vp.sum ≤ (countViolations E vp id s).sum ∧
      (countViolations E vp id s).sum ≤ vp.sum + J) ∧
    (viol_private E replicas).sum ≤ (E.randomsize : ℚ) * J ∧
    0 ≤ deadline_meeting_rate E J replicas ∧ deadline_meeting_rate E J replicas ≤ 1 := by
  have hfold := viol_private_fold E replicas (List.replicate 24 0) (by simp) hid
  have hsum0 : (List.replicate 24 (0 : ℚ)).sum = 0 := by simp
  rw [hsum0, hlen, hjobs] at hfold
  have hpos : (0 : ℚ) < (E.randomsize : ℚ) * J := by
    have h1 : (1 : ℚ) ≤ (E.randomsize : ℚ) := by exact_mod_cast hS
    have h2 : (1 : ℚ) ≤ (J : ℚ) := by exact_mod_cast hJ
    nlinarith
  refine ⟨fun vp id s h => ?_, ?_, ?_, ?_⟩
  · have := countViolations_spec E s id vp h
    rw [hjobs] at this
    exact ⟨this.2.1, this.2.2⟩
  · simpa [viol_private] using hfold.2
  · simp only [deadline_meeting_rate, violation, viol_private, sub_nonneg]
    rw [div_le_one hpos]
    simpa using hfold.2
  · simp only [deadline_meeting_rate, violation, viol_private, sub_le_self_iff]
    exact div_nonneg hfold.1 (le_of_lt hpos)

theorem C14_deadline_meeting_rate_witness :
    (chainEnv 0).numjobs = 1 ∧ [((3 : Nat), simInit (fun _ _ => chainTask))].length
      = (chainEnv 0).randomsize ∧
    0 ≤ deadline_meeting_rate (chainEnv 0) (1 : Nat) [(3, simInit (fun _ _ => chainTask))] ∧
    deadline_meeting_rate (chainEnv 0) (1 : Nat) [(3, simInit (fun _ _ => chainTask))] ≤ 1 :=
  ⟨rfl, rfl,
    (C14_deadline_meeting_rate_in_unit_interval (chainEnv 0) 1
      [(3, simInit (fun _ _ => chainTask))] (le_refl 1) rfl (by decide) rfl
      (by intro f hf; rw [List.mem_singleton] at hf; rw [hf]; decide)).2.2⟩

/-! ### The derivation at `meet_dl = 1` and with samples that are not positive -/

theorem quantile_one_four : quantile 1 4 = 4 := by
  have h : Rat.floor 4 = 4 := by decide
  have e : (1 : ℚ) * ((4 : Nat) : ℚ) = 4 := by norm_num
  rw [quantile, e, h]
  rfl

theorem sample_derived_one :
    (deriveTask sampleTables 4 4 1 sampleTask).estTime.getD 0 0 = 0 := by
  rw [deriveTask, quantile_one_four]
  simp [deriveType, deriveSample, sampleTask, sampleTables, std_sort,
    List.range, List.range.loop, List.replicate]
  norm_num [List.orderedInsert]

set_option maxHeartbeats 1600000 in
theorem stale_derived_one :
    (deriveTask sampleTables 4 4 1 sampleTaskStale).estTime.getD 0 0 = 7 := by
  rw [deriveTask, quantile_one_four]
  simp [deriveType, deriveSample, sampleTaskStale, sampleTask, sampleTables, std_sort,
    List.range, List.range.loop, List.replicate]
  norm_num [List.orderedInsert]

/-- C16 (fails on the code): with `meet_dl = 1` and 4 samples per type the
quantile index is 4, so `estTime[0]` is read from `probestTime[4]`, the first
entry of the block of type 1, which the derivation has not written yet. With
sampled times 2, 3, 4, 1, of maximum 4, `estTime[0]` is what the array held
before: 0 when it held zeros, 7 when it held sevens. -/
theorem C16_estTime_read_past_block :
    quantile 1 4 = 4 ∧
    sampledTimes sampleTables 4 sampleTask 0 = [2, 3, 4, 1] ∧
    (deriveTask sampleTables 4 4 1 sampleTask).estTime.getD 0 0 = 0 ∧
    sampledTimes sampleTables 4 sampleTaskStale 0 = [2, 3, 4, 1] ∧
    (deriveTask sampleTables 4 4 1 sampleTaskStale).estTime.getD 0 0 = 7 := by
  refine ⟨quantile_one_four, sample_sampledTimes, sample_derived_one, ?_, stale_derived_one⟩
  simp [sampledTimes, sampleTaskStale, sampleTask, sampleTables, List.range, List.range.loop,
    List.replicate]
  norm_num

theorem quantile_half_one : quantile (1/2) 1 = 0 := by
  have h : Rat.floor (1/2) = 0 := by
    show ⌊(1/2 : ℚ)⌋ = 0
    rw [Int.floor_eq_iff]; norm_num
  have e : (1 / 2 : ℚ) * ((1 : Nat) : ℚ) = 1/2 := by norm_num
  rw [quantile, e, h]
  rfl

/-- C17, as the code has it: the derivation never fails on a sample value. It
fails, by `exit(1)`, exactly when one of the four sample files cannot be
opened; when the four files are read, it produces the vectors of every task
from the tables copied from them, whatever the samples are, zero and negative
divisors included. -/
theorem C17_derivation_fails_only_on_missing_file (f : SampleFiles) (types randomsize : Nat)
    (meet_dl : ℚ) (g : List taskVertex) :
    (readAndDerive f types randomsize meet_dl g).isSome
      = (f.randio.isSome && f.seqio.isSome && f.netup.isSome && f.netdown.isSome) ∧
    (∀ r s u d : List ℚ,
      readAndDerive { randio := some r, seqio := some s, netup := some u, netdown := some d }
          types randomsize meet_dl g
        = some (derive_time_vectors
            { random_sequential_io := copySamples types randomsize s,
              random_random_io := copySamples types randomsize r,
              random_network_up := copySamples types randomsize u,
              random_network_down := copySamples types randomsize d }
            types randomsize meet_dl g)) ∧
    (∀ r s u d : List ℚ,
      (readAndDerive { randio := some r, seqio := some s, netup := some u, netdown := some d }
          types randomsize meet_dl g).map List.length = some g.length) := by
  refine ⟨?_, fun r s u d => rfl, fun r s u d => ?_⟩
  · rcases f with ⟨_ | r, _ | s, _ | u, _ | d⟩ <;> rfl
  · simp [readAndDerive, readSampleTables, derive_time_vectors]

/-- C17, the claim as it stands fails: with a random I/O sample of `-1`, used as
the divisor of `read_data = 12`, the derivation does not fail; it produces
`estTime[0] = -12`. -/
theorem C17_negative_divisor_accepted :
    negativeFiles.randio = some [-1] ∧
    (readAndDerive negativeFiles 1 1 (1/2) [smallTask]).map (fun g => g.map (fun v => v.estTime))
      = some [[-12]] := by
  refine ⟨rfl, ?_⟩
  simp only [readAndDerive, readSampleTables, negativeFiles, derive_time_vectors, deriveTask,
    quantile_half_one, Option.map_some', List.map_cons, List.map_nil]
  simp [deriveType, deriveSample, smallTask, std_sort, copySamples,
    List.range, List.range.loop]
  norm_num

/-! ### The simulator: `moneycost` during the tick loop -/

theorem ticks_succ (E : SimEnv) : ∀ (n : Nat) (s : SimState),
    ticks E (n + 1) s = tick E (ticks E n s) := by
  intro n
  induction n with
  | zero => intro s; rfl
  | succ n ih => intro s; exact ih (tick E s)

theorem ticks_t (E : SimEnv) (n : Nat) (s : SimState) : (ticks E n s).t = s.t + n := by
  induction n with
  | zero => rfl
  | succ n ih => rw [ticks_succ, tick_t, ih]; omega

theorem foldl_money_frame (f : SimState → TaskRef → SimState)
    (hf : ∀ σ r', (f σ r').moneycost = σ.moneycost) :
    ∀ (l : List TaskRef) (σ : SimState), (l.foldl f σ).moneycost = σ.moneycost := by
  intro l
  induction l with
  | nil => intro σ; rfl
  | cons x xs ih => intro σ; rw [List.foldl_cons, ih, hf]

theorem dispatchOne_money (E : SimEnv) (s : SimState) (r : TaskRef) :
    (dispatchOne E s r).moneycost = s.moneycost := by
  unfold dispatchOne
  dsimp only
  split
  · split <;> simp [setPool, setTask]
  · split <;> simp [setPool, setTask]

theorem progressOne_money (E : SimEnv) (s : SimState) (r : TaskRef) :
    (progressOne E s r).moneycost = s.moneycost := by
  unfold progressOne
  dsimp only
  split <;> simp [setPool, setTask]

theorem countdownOne_money (s : SimState) (r : TaskRef) :
    (countdownOne s r).moneycost = s.moneycost := by
  unfold countdownOne
  split <;> rfl

theorem price_getD_nonneg (E : SimEnv) (hprice : ∀ p ∈ E.priceOnDemand, 0 ≤ p) (i : Nat) :
    0 ≤ E.priceOnDemand.getD i 0 := by
  rw [List.getD_eq_getElem?_getD]
  cases h : E.priceOnDemand[i]? with
  | none => simp
  | some p => simpa using hprice p (List.getElem?_mem h)

theorem charges_nonneg (E : SimEnv) (hprice : ∀ p ∈ E.priceOnDemand, 0 ≤ p) (i : Nat)
    (l : List VM) : 0 ≤ (l.map (vmCharge E i)).sum := by
  apply List.sum_nonneg
  intro x hx
  obtain ⟨vm, _, rfl⟩ := List.mem_map.mp hx
  exact mul_nonneg (price_getD_nonneg E hprice i) (Nat.cast_nonneg _)

theorem reapIdle_money (E : SimEnv) (hprice : ∀ p ∈ E.priceOnDemand, 0 ≤ p) (s : SimState) :
    s.moneycost ≤ (reapIdle E s).moneycost := by
  unfold reapIdle
  generalize List.range E.types = l
  induction l generalizing s with
  | nil => exact le_refl _
  | cons x xs ih =>
    rw [List.foldl_cons]
    refine le_trans ?_ (ih (reapPool E s x))
    show s.moneycost ≤ ((s.VMTP x).filter (fun vm => decide (vm.tk = none))).foldl
      (fun m vm => m + vmCharge E x vm) s.moneycost
    rw [foldl_charge]
    have := charges_nonneg E hprice x ((s.VMTP x).filter (fun vm => decide (vm.tk = none)))
    linarith

theorem tick_money (E : SimEnv) (hprice : ∀ p ∈ E.priceOnDemand, 0 ≤ p) (s : SimState) :
    s.moneycost ≤ (tick E s).moneycost := by
  unfold tick finishTick dispatchPhase
  dsimp only
  rw [foldl_money_frame countdownOne countdownOne_money]
  show s.moneycost ≤ ((scheduledList E _).foldl (progressOne E) _).moneycost
  rw [foldl_money_frame (progressOne E) (progressOne_money E)]
  refine le_trans ?_ (reapIdle_money E hprice _)
  rw [foldl_money_frame (dispatchOne E) (dispatchOne_money E)]
  exact le_refl _

/-- C18, as the code has it: with non-negative prices, at the end of every tick
of a replica `moneycost` is non-negative and not below its value at the end of
the tick before; when every task is assigned a valid type it is the sum of
`price[type] * ceil(life_time/3600)` over the VMs deleted so far, and holds
nothing for the tasks still bound to a VM. -/
theorem C18_moneycost_nonnegative_and_monotone (E : SimEnv) (task : Nat → Nat → taskVertex)
    (hprice : ∀ p ∈ E.priceOnDemand, 0 ≤ p) :
    (∀ n : Nat, 0 ≤ (ticks E n (simInit task)).moneycost ∧
      (ticks E n (simInit task)).moneycost ≤ (ticks E (n + 1) (simInit task)).moneycost) ∧
    ((∀ j i, (task j i).assigned_type < E.types) →
      ∀ n : Nat, (ticks E n (simInit task)).moneycost
        = ((ticks E n (simInit task)).reaped.map
            (fun vm => E.priceOnDemand.getD vm.type 0 * (ceilHours vm.life_time : ℚ))).sum) := by
  have hmono : ∀ n : Nat,
      (ticks E n (simInit task)).moneycost ≤ (ticks E (n + 1) (simInit task)).moneycost := by
    intro n
    rw [ticks_succ]
    exact tick_money E hprice _
  refine ⟨fun n => ⟨?_, hmono n⟩, fun htype n => ?_⟩
  · induction n with
    | zero => exact le_refl _
    | succ n ih => exact le_trans ih (hmono n)
  · exact (AcctInv_ticks E n _ (AcctInv_simInit E task htype)).2.2.1

theorem C18_moneycost_witness :
    (∀ p ∈ (chainEnv 0).priceOnDemand, (0 : ℚ) ≤ p) ∧
    0 ≤ (ticks (chainEnv 0) 7 (simInit (fun _ _ => chainTask))).moneycost :=
  ⟨by decide,
    ((C18_moneycost_nonnegative_and_monotone (chainEnv 0) (fun _ _ => chainTask)
      (by decide)).1 7).1⟩

theorem chain_tick7 :
    (ticks (chainEnv 0) 7 (simInit (fun _ _ => chainTask))).moneycost = 0 ∧
    liveVMs (chainEnv 0) (ticks (chainEnv 0) 7 (simInit (fun _ _ => chainTask)))
      = [{ life_time := 6, tk := some (0, 1), type := 0, id := 0 }] ∧
    ((ticks (chainEnv 0) 7 (simInit (fun _ _ => chainTask))).task 0 1).status
      = Status.scheduled ∧
    ((ticks (chainEnv 0) 7 (simInit (fun _ _ => chainTask))).task 0 1).tasktime = 6 ∧
    ((ticks (chainEnv 0) 7 (simInit (fun _ _ => chainTask))).task 0 1).assigned_type = 0 := by
  refine ⟨?_, ?_, ?_, ?_, ?_⟩ <;> decide!

/-- C18, the claim as it stands fails: in the replica of the chain job with
prices 1, 2, 4, 8 and no provisioning delay, at the end of the seventh tick no
VM has been deleted and `moneycost` is 0, while the only VM holds vertex 1,
bound at tick 6, whose `tasktime` field is 6 (the tick of its binding): the
claimed bound is `1 * 6 / 3600 > 0`. -/
theorem C18_moneycost_below_claimed_bound :
    (∀ p ∈ (chainEnv 0).priceOnDemand, (0 : ℚ) ≤ p) ∧
    (ticks (chainEnv 0) 7 (simInit (fun _ _ => chainTask))).moneycost = 0 ∧
    liveVMs (chainEnv 0) (ticks (chainEnv 0) 7 (simInit (fun _ _ => chainTask)))
      = [{ life_time := 6, tk := some (0, 1), type := 0, id := 0 }] ∧
    boundTaskCost (chainEnv 0) (ticks (chainEnv 0) 7 (simInit (fun _ _ => chainTask)))
      = 1 / 600 ∧
    (ticks (chainEnv 0) 7 (simInit (fun _ _ => chainTask))).moneycost
      < boundTaskCost (chainEnv 0) (ticks (chainEnv 0) 7 (simInit (fun _ _ => chainTask))) := by
  have hb : boundTaskCost (chainEnv 0) (ticks (chainEnv 0) 7 (simInit (fun _ _ => chainTask)))
      = 1 / 600 := by
    unfold boundTaskCost
    rw [chain_tick7.2.1]
    simp only [List.filterMap_cons, List.filterMap_nil, List.map_cons, List.map_nil,
      List.sum_cons, List.sum_nil, chain_tick7.2.2.2.1, chain_tick7.2.2.2.2]
    norm_num [chainEnv]
  refine ⟨by decide, chain_tick7.1, chain_tick7.2.1, hb, ?_⟩
  rw [hb, chain_tick7.1]
  norm_num

/-! ### The search: the order of selection -/

theorem tie_round4 :
    (searchRounds tieParams localFlag 4 (searchInit tieInit tieSeed)).Openset
      = [(4, { taskno := 0, fvalue := 0, configurations := [3, 0, 0, 0] }),
         (17, { taskno := 3, fvalue := 0, configurations := [1, 1, 1, 1] }),
         (21, { taskno := 2, fvalue := 0, configurations := [1, 3, 2, 0] }),
         (20, { taskno := 2, fvalue := 0, configurations := [1, 3, 1, 0] })] := by
  decide

/-- C19, as the code has it: the comparator given to the selection orders two
nodes by `fvalue` alone; it does not change when the `taskno` or the
`configurations` of either node change, and of two nodes of equal `fvalue` it
puts neither before the other, whatever their `taskno` and `configurations`. -/
theorem C19_selection_has_no_tie_break :
    (∀ a b : configstack, configsortfunction a b = decide (b.fvalue < a.fvalue)) ∧
    (∀ (a b : configstack) (k l : Int) (c d : List Nat),
      configsortfunction { a with taskno := k, configurations := c }
          { b with taskno := l, configurations := d }
        = configsortfunction a b) ∧
    (∀ a b : configstack, a.fvalue = b.fvalue →
      configsortfunction a b = false ∧ configsortfunction b a = false) := by
  refine ⟨fun a b => rfl, fun a b k l c d => rfl, fun a b h => ?_⟩
  unfold configsortfunction
  rw [h]
  simp

/-- C19, the claim as it stands fails: after four rounds of the search
`tieParams` the open set holds four nodes of `fvalue` 0; the selection of the
fifth round takes the two nodes of `taskno` 2 at the back and leaves the node of
`taskno` 3, and the comparator orders neither of two such nodes before the
other. -/
theorem C19_smaller_taskno_selected_on_tie :
    (selectBatch 6 (searchRounds tieParams localFlag 4 (searchInit tieInit tieSeed)).Openset).1
      = [{ taskno := 2, fvalue := 0, configurations := [1, 3, 1, 0] },
         { taskno := 2, fvalue := 0, configurations := [1, 3, 2, 0] }] ∧
    (selectBatch 6 (searchRounds tieParams localFlag 4
        (searchInit tieInit tieSeed)).Openset).2.map Prod.snd
      = [{ taskno := 0, fvalue := 0, configurations := [3, 0, 0, 0] },
         { taskno := 3, fvalue := 0, configurations := [1, 1, 1, 1] }] ∧
    configsortfunction { taskno := 3, fvalue := 0, configurations := [1, 1, 1, 1] }
      { taskno := 2, fvalue := 0, configurations := [1, 3, 1, 0] } = false ∧
    configsortfunction { taskno := 2, fvalue := 0, configurations := [1, 3, 1, 0] }
      { taskno := 3, fvalue := 0, configurations := [1, 1, 1, 1] } = false := by
  rw [tie_round4]
  decide

/-! ### The search: the children of an expanded node -/

theorem addr_expandNode (P : SearchParams) (flag tid : Nat) (s : SearchState) (h : configstack)
    (hs : AddrInv s) : AddrInv (expandNode P flag tid s h).1 := by
  obtain ⟨e1, _, _, _, _, e6⟩ := expandNode_frame P flag tid s h
  obtain ⟨d1, _⟩ := expandNode_addr P flag tid s h
  constructor
  · intro id hid
    rw [e6, List.mem_append, List.mem_singleton] at hid
    rcases hid with h' | h'
    · exact hs.1 id h'
    · cases h'
  · intro x hx
    rw [e1] at hx
    exact lt_of_lt_of_le (hs.2 x hx) d1

theorem addr_expandBatch (P : SearchParams) (flag : Nat) :
    ∀ (batch : List configstack) (tid : Nat) (s : SearchState), AddrInv s →
    AddrInv (expandBatch P flag tid s batch).1 ∧
    s.heapnext ≤ (expandBatch P flag tid s batch).1.heapnext ∧
    (∀ x ∈ ((expandBatch P flag tid s batch).2.map List.reverse).flatten,
      x.1 < (expandBatch P flag tid s batch).1.heapnext) := by
  intro batch
  induction batch with
  | nil =>
    intro tid s hs
    exact ⟨hs, le_refl _, by simp [expandBatch]⟩
  | cons h rest ih =>
    intro tid s hs
    obtain ⟨d1, d2⟩ := expandNode_addr P flag tid s h
    obtain ⟨b1, b2, b3⟩ := ih (tid + 1) (expandNode P flag tid s h).1
      (addr_expandNode P flag tid s h hs)
    simp only [expandBatch, List.map_cons, List.flatten_cons]
    refine ⟨b1, le_trans d1 b2, ?_⟩
    intro x hx
    rcases List.mem_append.mp hx with h' | h'
    · exact lt_of_lt_of_le (d2 x (List.mem_reverse.mp h')).2 b2
    · exact b3 x h'

theorem addr_searchStep (P : SearchParams) (flag : Nat) (s : SearchState) (hs : AddrInv s) :
    AddrInv (searchStep P flag s) := by
  obtain ⟨X, _, x2, _, _⟩ := selectBatch_spec 6 s.Openset
  have hsel : AddrInv { s with Openset := (selectBatch 6 s.Openset).2 } := by
    refine ⟨hs.1, fun x hx => hs.2 x ?_⟩
    rw [x2]
    exact List.mem_append_left _ hx
  obtain ⟨b1, b2, b3⟩ := addr_expandBatch P flag (selectBatch 6 s.Openset).1 0 _ hsel
  constructor
  · exact b1.1
  · intro x hx
    have hx' : x ∈ (selectBatch 6 s.Openset).2 ++
        ((expandBatch P flag 0 { s with Openset := (selectBatch 6 s.Openset).2 }
          (selectBatch 6 s.Openset).1).2.map List.reverse).flatten := hx
    rcases List.mem_append.mp hx' with h' | h'
    · exact lt_of_lt_of_le (hsel.2 x h') b2
    · exact b3 x h'

theorem progressOne_task_self (E : SimEnv) (s : SimState) (r : TaskRef) :
    (progressOne E s r).task r.1 r.2 = progressed E s.t (s.task r.1 r.2) := by
  unfold progressOne progressed
  dsimp only
  split <;> simp [setPool, setTask]

theorem progress_fold (E : SimEnv) (r : TaskRef) : ∀ (l : List TaskRef) (s : SimState),
    l.Nodup → r ∈ l →
    (l.foldl (progressOne E) s).task r.1 r.2 = progressed E s.t (s.task r.1 r.2) := by
  intro l
  induction l with
  | nil => intro s _ h; simp at h
  | cons x xs ih =>
    intro s hnd hr
    rw [List.foldl_cons]
    obtain ⟨hx, hxs⟩ := List.nodup_cons.mp hnd
    by_cases hxr : x = r
    · subst hxr
      rw [foldl_task_frame (progressOne E) (progressOne_task_ne E) xs _ x.1 x.2 hx]
      exact progressOne_task_self E s x
    · have hr' : r ∈ xs := by
        rcases List.mem_cons.mp hr with h | h
        · exact absurd h.symm hxr
        · exact h
      rw [ih _ hxs hr', progressOne_task_ne E s x r.1 r.2 (fun h => hxr h.symm), progressOne_t]

theorem nodup_scheduledList (E : SimEnv) (s : SimState) : (scheduledList E s).Nodup :=
  nodup_pairs _ _ _

theorem finishTick_task_scheduled (E : SimEnv) (σ : SimState) (rl : List TaskRef)
    (hnd : rl.Nodup) (j i : Nat) (hj : j < E.numjobs) (hi : i < E.numvertices)
    (hs : (σ.task j i).status = Status.scheduled) :
    (finishTick E σ rl).task j i
      = if (j, i) ∈ rl then countedDown (progressed E σ.t (σ.task j i))
        else progressed E σ.t (σ.task j i) := by
  have hmem : (j, i) ∈ scheduledList E (reapIdle E σ) := by
    rw [mem_scheduledList]
    refine ⟨hj, hi, ?_⟩
    rw [(reapIdle_frame E σ).1]
    exact hs
  have h4 : (ageVMs E ((scheduledList E (reapIdle E σ)).foldl (progressOne E)
      (reapIdle E σ))).task j i = progressed E σ.t (σ.task j i) := by
    have : (ageVMs E ((scheduledList E (reapIdle E σ)).foldl (progressOne E)
        (reapIdle E σ))).task
        = ((scheduledList E (reapIdle E σ)).foldl (progressOne E) (reapIdle E σ)).task := rfl
    rw [this]
    have := progress_fold E (j, i) _ (reapIdle E σ) (nodup_scheduledList E _) hmem
    dsimp only at this
    rw [this, (reapIdle_frame E σ).1, (reapIdle_frame E σ).2]
  unfold finishTick
  dsimp only
  split
  · rename_i hmem'
    have := countdown_fold (j, i) rl
      (ageVMs E ((scheduledList E (reapIdle E σ)).foldl (progressOne E) (reapIdle E σ)))
      hnd hmem'
    dsimp only at this
    rw [this, h4]
  · rename_i hmem'
    rw [foldl_task_frame countdownOne countdownOne_task_ne rl _ j i hmem', h4]

theorem dispatchOne_task_self (E : SimEnv) (σ : SimState) (r : TaskRef) :
    (dispatchOne E σ r).task r.1 r.2 =
      if (σ.task r.1 r.2).readyCountdown = -1 then
        (if bindIdle r (σ.VMTP (σ.task r.1 r.2).assigned_type) = none
          then provisioned E σ.t (σ.task r.1 r.2) else boundNow E σ.t (σ.task r.1 r.2))
      else if (σ.task r.1 r.2).readyCountdown = 0 then boundNew E (σ.task r.1 r.2)
      else σ.task r.1 r.2 := by
  unfold dispatchOne
  dsimp only
  split
  · split
    · rename_i pool hp
      rw [if_neg (by rw [hp]; simp)]
      simp [setPool, setTask, boundNow, sampledRest]
    · rename_i hp
      rw [if_pos hp]
      simp [setTask, provisioned]
  · split
    · simp [setPool, setTask, boundNew, sampledRest]
    · rfl
theorem countedDown_id (v : taskVertex) (h : v.readyCountdown ≤ 0) : countedDown v = v := by
  unfold countedDown
  rw [if_neg (by omega)]

theorem progressed_countdown (E : SimEnv) (t : Nat) (v : taskVertex) :
    (progressed E t v).readyCountdown = v.readyCountdown := by
  unfold progressed
  split <;> rfl

theorem tick_task (E : SimEnv) (s : SimState)
    (hperm : ∀ task l, (E.sortReady task l).Perm l) (j i : Nat)
    (hj : j < E.numjobs) (hi : i < E.numvertices) :
    (((acceptJobs E s).task j i).status ≠ Status.scheduled →
      isReady E (acceptJobs E s) j i = false →
      (tick E s).task j i = (acceptJobs E s).task j i) ∧
    (((acceptJobs E s).task j i).status = Status.scheduled →
      (tick E s).task j i = progressed E s.t ((acceptJobs E s).task j i)) ∧
    (isReady E (acceptJobs E s) j i = true →
      ∃ pre post, E.sortReady (acceptJobs E s).task (readyList E (acceptJobs E s))
          = pre ++ (j, i) :: post ∧
        (tick E s).task j i =
          if ((acceptJobs E s).task j i).readyCountdown = -1 then
            (if bindIdle (j, i) ((pre.foldl (dispatchOne E) (acceptJobs E s)).VMTP
                ((acceptJobs E s).task j i).assigned_type) = none
              then countedDown (provisioned E s.t ((acceptJobs E s).task j i))
              else progressed E s.t (boundNow E s.t ((acceptJobs E s).task j i)))
          else if ((acceptJobs E s).task j i).readyCountdown = 0 then
            progressed E s.t (boundNew E ((acceptJobs E s).task j i))
          else countedDown ((acceptJobs E s).task j i)) := by
  have hnd : (dispatchPhase E s).2.Nodup :=
    (List.Perm.nodup_iff (hperm _ _)).mpr (nodup_readyList E _)
  have hdt : (dispatchPhase E s).1.t = s.t := dispatchPhase_t E s
  have hnotin : isReady E (acceptJobs E s) j i = false →
      (j, i) ∉ E.sortReady (acceptJobs E s).task (readyList E (acceptJobs E s)) := by
    intro hr hm
    have := ((mem_readyList E _ j i).mp ((hperm _ _).mem_iff.mp hm)).2.2
    rw [hr] at this
    cases this
  have hframe : isReady E (acceptJobs E s) j i = false →
      (dispatchPhase E s).1.task j i = (acceptJobs E s).task j i :=
    fun hr => foldl_task_frame (dispatchOne E) (dispatchOne_task_ne E) _ _ j i (hnotin hr)
  refine ⟨?_, ?_, ?_⟩
  · intro hns hr
    unfold tick
    rw [finishTick_task E _ _ hnd j i (by rw [hframe hr]; exact hns), hframe hr]
    exact if_neg (hnotin hr)
  · intro hsch
    have hr : isReady E (acceptJobs E s) j i = false := by
      by_contra hc
      have hc' : isReady E (acceptJobs E s) j i = true := by
        cases h : isReady E (acceptJobs E s) j i
        · exact absurd h hc
        · rfl
      exact isReady_not_scheduled E _ j i hc' hsch
    unfold tick
    rw [finishTick_task_scheduled E _ _ hnd j i hj hi (by rw [hframe hr]; exact hsch),
      hframe hr, hdt]
    exact if_neg (hnotin hr)
  · intro hr
    have hmem : (j, i) ∈ E.sortReady (acceptJobs E s).task (readyList E (acceptJobs E s)) :=
      (hperm _ _).mem_iff.mpr ((mem_readyList E _ j i).mpr ⟨hj, hi, hr⟩)
    have hns := isReady_not_scheduled E _ j i hr
    obtain ⟨pre, post, hsplit, _, _, e1, e2⟩ :=
      dispatch_split E (j, i) _ (acceptJobs E s) hnd hmem
    refine ⟨pre, post, hsplit, ?_⟩
    have hpt : (pre.foldl (dispatchOne E) (acceptJobs E s)).t = s.t := by
      rw [foldl_t_frame (dispatchOne E) (dispatchOne_t E)]
      rfl
    have hd : (dispatchPhase E s).1.task j i
        = (dispatchOne E (pre.foldl (dispatchOne E) (acceptJobs E s)) (j, i)).task j i := e2
    rw [dispatchOne_task_self] at hd
    dsimp only at e1 hd
    rw [e1, hpt] at hd
    unfold tick
    by_cases h1 : ((acceptJobs E s).task j i).readyCountdown = -1
    · rw [if_pos h1] at hd
      rw [if_pos h1]
      by_cases h2 : bindIdle (j, i) ((pre.foldl (dispatchOne E) (acceptJobs E s)).VMTP
          ((acceptJobs E s).task j i).assigned_type) = none
      · rw [if_pos h2] at hd
        rw [if_pos h2, finishTick_task E _ _ hnd j i (by rw [hd]; exact hns), hd]
        exact if_pos hmem
      · rw [if_neg h2] at hd
        rw [if_neg h2, finishTick_task_scheduled E _ _ hnd j i hj hi (by rw [hd]; rfl), hd, hdt]
        rw [if_pos (show (j, i) ∈ (dispatchPhase E s).2 from hmem)]
        apply countedDown_id
        rw [progressed_countdown]
        show ((acceptJobs E s).task j i).readyCountdown ≤ 0
        omega
    · rw [if_neg h1] at hd
      rw [if_neg h1]
      by_cases h3 : ((acceptJobs E s).task j i).readyCountdown = 0
      · rw [if_pos h3] at hd
        rw [if_pos h3, finishTick_task_scheduled E _ _ hnd j i hj hi (by rw [hd]; rfl), hd, hdt]
        rw [if_pos (show (j, i) ∈ (dispatchPhase E s).2 from hmem)]
        apply countedDown_id
        rw [progressed_countdown]
        show ((acceptJobs E s).task j i).readyCountdown ≤ 0
        omega
      · rw [if_neg h3] at hd
        rw [if_neg h3, finishTick_task E _ _ hnd j i (by rw [hd]; exact hns), hd]
        exact if_pos hmem

theorem isReady_congr (E : SimEnv) (s1 s2 : SimState) (j i : Nat)
    (h : ∀ p, s2.task j p = s1.task j p) : isReady E s2 j i = isReady E s1 j i := by
  unfold isReady
  simp only [h]

theorem tick_task_later (E : SimEnv) (s : SimState)
    (hperm : ∀ task l, (E.sortReady task l).Perm l) (j i : Nat)
    (hj : j < E.numjobs) (hi : i < E.numvertices)
    (hne : (s.t : Int) ≠ truncInt (E.arrival_time j)) :
    ((s.task j i).status ≠ Status.scheduled → isReady E s j i = false →
      (tick E s).task j i = s.task j i) ∧
    ((s.task j i).status = Status.scheduled →
      (tick E s).task j i = progressed E s.t (s.task j i)) ∧
    (isReady E s j i = true →
      ((s.task j i).readyCountdown = -1 →
        (tick E s).task j i = countedDown (provisioned E s.t (s.task j i)) ∨
        (tick E s).task j i = progressed E s.t (boundNow E s.t (s.task j i))) ∧
      ((s.task j i).readyCountdown = 0 →
        (tick E s).task j i = progressed E s.t (boundNew E (s.task j i))) ∧
      ((s.task j i).readyCountdown ≠ -1 → (s.task j i).readyCountdown ≠ 0 →
        (tick E s).task j i = countedDown (s.task j i))) := by
  have hall : ∀ p, (acceptJobs E s).task j p = s.task j p :=
    fun p => acceptJobs_task_of_not_now E s j p hne
  have hrd : isReady E (acceptJobs E s) j i = isReady E s j i := isReady_congr E s _ j i hall
  obtain ⟨t1, t2, t3⟩ := tick_task E s hperm j i hj hi
  rw [hall i, hrd] at t1
  rw [hall i] at t2
  rw [hall i, hrd] at t3
  refine ⟨t1, t2, fun hr => ?_⟩
  obtain ⟨pre, post, _, ht⟩ := t3 hr
  refine ⟨fun h1 => ?_, fun h0 => ?_, fun h1 h0 => ?_⟩
  · rw [if_pos h1] at ht
    by_cases hb : bindIdle (j, i) ((pre.foldl (dispatchOne E) (acceptJobs E s)).VMTP
        (s.task j i).assigned_type) = none
    · rw [if_pos hb] at ht; exact Or.inl ht
    · rw [if_neg hb] at ht; exact Or.inr ht
  · rw [if_neg (by rw [h0]; decide), if_pos h0] at ht
    exact ht
  · rw [if_neg h1, if_neg h0] at ht
    exact ht
theorem simLoop_exact (E : SimEnv) : ∀ (n : Nat) (s : SimState), 1 ≤ n →
    (∀ k, 1 ≤ k → k < n → unfinished E (ticks E k s) = true) →
    unfinished E (ticks E n s) = false →
    simLoop E n s = some (ticks E n s) ∧
    ∀ fuel s', simLoop E fuel s = some s' → s' = ticks E n s := by
  intro n
  induction n with
  | zero => intro s h; omega
  | succ n ih =>
    intro s _ hbefore hdone
    cases n with
    | zero =>
      have hd : unfinished E (tick E s) = false := hdone
      constructor
      · simp only [simLoop, hd, Bool.false_eq_true, if_false]
        rfl
      · intro fuel s' hs
        cases fuel with
        | zero => simp [simLoop] at hs
        | succ fuel =>
          simp only [simLoop, hd, Bool.false_eq_true, if_false, Option.some.injEq] at hs
          rw [← hs]
          rfl
    | succ n =>
      have h1 : unfinished E (tick E s) = true := hbefore 1 (le_refl 1) (by omega)
      obtain ⟨a, b⟩ := ih (tick E s) (by omega)
        (fun k hk1 hk2 => hbefore (k + 1) (by omega) (by omega)) hdone
      constructor
      · simp only [simLoop, h1, if_true] at a ⊢
        exact a
      · intro fuel s' hs
        cases fuel with
        | zero => simp [simLoop] at hs
        | succ fuel =>
          simp only [simLoop, h1, if_true] at hs
          exact b fuel s' hs

/-! ### The simulator: termination of the tick loop -/

theorem ticksNeeded_pos (x : ℚ) : 1 ≤ ticksNeeded x := le_max_right _ _

theorem run_t (E : SimEnv) (task : Nat → Nat → taskVertex) (n : Nat) :
    (ticks E n (simInit task)).t = n := by
  rw [ticks_t]; simp [simInit]

theorem jobTask_next (E : SimEnv) (task : Nat → Nat → taskVertex) (j a n : Nat)
    (ha : (a : Int) = truncInt (E.arrival_time j)) (hn : a ≤ n) (p : Nat) :
    jobTask E task j (n + 1) p = (tick E (ticks E n (simInit task))).task j p := by
  unfold jobTask
  rw [ticks_succ]
  apply acceptJobs_task_of_not_now
  rw [tick_t, run_t, ← ha]
  push_cast
  omega

theorem job_finished_persists (E : SimEnv) (task : Nat → Nat → taskVertex)
    (hperm : ∀ task l, (E.sortReady task l).Perm l) (j a : Nat)
    (ha : (a : Int) = truncInt (E.arrival_time j)) (p : Nat) :
    ∀ (m n : Nat), a ≤ n → (jobTask E task j n p).status = Status.finished →
      (jobTask E task j (n + m) p).status = Status.finished := by
  intro m
  induction m with
  | zero => intro n _ h; exact h
  | succ m ih =>
    intro n hn h
    have h1 : (jobTask E task j (n + 1) p).status = Status.finished := by
      rw [jobTask_next E task j a n ha hn p,
        tick_keeps_finished E _ hperm j p h]
      exact h
    have := ih (n + 1) (by omega) h1
    rw [show n + (m + 1) = n + 1 + m by omega]
    exact this
theorem huge_fsub1 : fsub1 24 1152921504606846976 = 1152921504606846976 := by
  decide!

theorem huge_progressed (t : Nat) : progressed (chainEnv 0) t hugeBound = hugeBound := by
  unfold progressed
  have h : fsub1 (chainEnv 0).precision hugeBound.restTime = 1152921504606846976 := huge_fsub1
  rw [h, if_neg (by norm_num)]
  rfl

theorem huge_run : ∀ n : Nat,
    (ticks (chainEnv 0) (n + 2) (simInit (fun _ _ => hugeTask))).task 0 0 = hugeBound := by
  intro n
  induction n with
  | zero => decide!
  | succ n ih =>
    have hne : ((ticks (chainEnv 0) (n + 2) (simInit (fun _ _ => hugeTask))).t : Int)
        ≠ truncInt ((chainEnv 0).arrival_time 0) := by
      rw [run_t]
      have : truncInt ((chainEnv 0).arrival_time 0) = 0 := by decide
      rw [this]
      omega
    have h2 := (tick_task_later (chainEnv 0) _ (fun _ l => List.Perm.refl l) 0 0
      (by decide) (by decide) hne).2.1 (by rw [ih]; rfl)
    rw [run_t, ih] at h2
    rw [show n + 1 + 2 = (n + 2) + 1 by omega, ticks_succ, h2]
    exact huge_progressed _

theorem selectLoop_count (k : Nat) : ∀ (i : Nat) (O : List (Nat × configstack))
    (node : List configstack),
    (selectLoop k i O node).1.length = node.length + min k ((O.length - i + 1) / 2) ∧
    (selectLoop k i O node).2.length = O.length - min k ((O.length - i + 1) / 2) := by
  induction k with
  | zero =>
    intro i O node
    simp [selectLoop]
  | succ k ih =>
    intro i O node
    by_cases hi : i < O.length
    · have hne : O ≠ [] := by
        intro h
        simp [h] at hi
      have hx : O.getLast? = some (O.getLast hne) := List.getLast?_eq_getLast _ hne
      simp only [selectLoop, if_pos hi, nth_element_at_end, hx]
      obtain ⟨a, b⟩ := ih (i + 1) O.dropLast (node ++ [(O.getLast hne).2])
      rw [a, b, List.length_append, List.length_singleton, List.length_dropLast]
      constructor <;> omega
    · simp only [selectLoop, if_neg hi]
      obtain ⟨a, b⟩ := ih (i + 1) O node
      rw [a, b]
      constructor <;> omega

/-- C23: in a round of the loop that starts with `n ≥ 1` nodes in `Openset`, the
selection for the 6 workers removes exactly `min(6, ceil(n/2))` nodes, all from
the back of `Openset`; these are the nodes the round expands and the amount by
which `searchcount` grows. So at least one node is expanded, and the selection
leaves `floor(n/2)` or `n - 6` of the `n` nodes, the front part of `Openset`. -/
theorem C23_batch_size (P : SearchParams) (flag : Nat) (s : SearchState)
    (hn : 1 ≤ s.Openset.length) :
    (selectBatch 6 s.Openset).1.length = min 6 ((s.Openset.length + 1) / 2) ∧
    1 ≤ (selectBatch 6 s.Openset).1.length ∧
    (selectBatch 6 s.Openset).2.length
      = s.Openset.length - min 6 ((s.Openset.length + 1) / 2) ∧
    ((selectBatch 6 s.Openset).2.length = s.Openset.length / 2 ∨
      (selectBatch 6 s.Openset).2.length = s.Openset.length - 6) ∧
    (selectBatch 6 s.Openset).2 = s.Openset.take (selectBatch 6 s.Openset).2.length ∧
    (searchStep P flag s).expanded = s.expanded ++ (selectBatch 6 s.Openset).1 ∧
    (searchStep P flag s).searchcount
      = s.searchcount + min 6 ((s.Openset.length + 1) / 2) := by
  obtain ⟨a, b⟩ := selectLoop_count 6 0 s.Openset []
  have a' : (selectBatch 6 s.Openset).1.length = min 6 ((s.Openset.length + 1) / 2) := by
    simpa [selectBatch] using a
  have b' : (selectBatch 6 s.Openset).2.length
      = s.Openset.length - min 6 ((s.Openset.length + 1) / 2) := by
    simpa [selectBatch] using b
  obtain ⟨X, _, x2, _, _⟩ := selectBatch_spec 6 s.Openset
  refine ⟨a', by omega, b', by omega, ?_, ?_, ?_⟩
  · have h := congrArg (fun l => l.take (selectBatch 6 s.Openset).2.length) x2
    simp only [List.take_left'] at h
    exact h.symm
  · unfold searchStep
    dsimp only
    rw [(expandBatch_frame P flag _ 0 _).2.2.1]
  · rw [searchStep_searchcount, a']

theorem C23_batch_size_witness :
    1 ≤ (searchRounds twoTaskParams localFlag 1
        (searchInit twoTaskInit twoTaskSeed)).Openset.length ∧
    (selectBatch 6 (searchRounds twoTaskParams localFlag 1
        (searchInit twoTaskInit twoTaskSeed)).Openset).1.length
      = min 6 (((searchRounds twoTaskParams localFlag 1
          (searchInit twoTaskInit twoTaskSeed)).Openset.length + 1) / 2) :=
  ⟨by rw [twoTask_round1]; decide,
    (C23_batch_size twoTaskParams localFlag
      (searchRounds twoTaskParams localFlag 1 (searchInit twoTaskInit twoTaskSeed))
      (by rw [twoTask_round1]; decide)).1⟩

/-! ### The search: the form of the nodes -/

theorem countViolations_count (E : SimEnv) (s : SimState) (id : Nat) (jobs : List Nat)
    (vp : List ℚ) (hid : id < vp.length) :
    (jobs.foldl
      (fun vp i =>
        if executiontime E s i > E.deadline i then vp.set id (vp.getD id 0 + 1) else vp)
      vp).sum
      = vp.sum + ((jobs.filter
          (fun i => decide (executiontime E s i > E.deadline i))).length : ℚ) := by
  induction jobs generalizing vp with
  | nil => simp
  | cons i jobs ih =>
    simp only [List.foldl_cons]
    by_cases h : executiontime E s i > E.deadline i
    · rw [if_pos h, ih _ (by simpa using hid), sum_set_add vp id 1 hid]
      simp only [List.filter, h, decide_True, List.length_cons]
      push_cast
      ring
    · rw [if_neg h, ih _ hid]
      simp only [List.filter, h, decide_False]

/-- C26: for the jobs of lines 172-183, with base deadline `D`, job `j` of arrival
time `a` (deadline field `D + a`, and `D` for job 0, which arrives at time 0)
is counted as a violation by a replica that ends in state `s` if and only if
the `end_time` of vertex `|V|-2` minus `a` exceeds the deadline field, that is,
if and only if that `end_time` exceeds `D + 2a`; for job 0 the threshold is
`D`. The thread's counter grows by the number of such jobs. -/
theorem C26_violation_threshold (E : SimEnv) (D : ℚ) (arrivals : List ℚ) (s : SimState)
    (vp : List ℚ) (id : Nat) (hid : id < vp.length) :
    (∀ j : Nat,
      (jobsEnv E D arrivals).deadline j = D + (jobsEnv E D arrivals).arrival_time j ∧
      (executiontime (jobsEnv E D arrivals) s j > (jobsEnv E D arrivals).deadline j ↔
        (s.task j (E.numvertices - 2)).end_time - jobArrival arrivals j
          > D + jobArrival arrivals j) ∧
      (executiontime (jobsEnv E D arrivals) s j > (jobsEnv E D arrivals).deadline j ↔
        (s.task j (E.numvertices - 2)).end_time > D + 2 * jobArrival arrivals j)) ∧
    (executiontime (jobsEnv E D arrivals) s 0 > (jobsEnv E D arrivals).deadline 0 ↔
      (s.task 0 (E.numvertices - 2)).end_time > D) ∧
    (countViolations (jobsEnv E D arrivals) vp id s).sum
      = vp.sum + (((List.range E.numjobs).filter (fun j =>
          decide ((s.task j (E.numvertices - 2)).end_time
            > D + 2 * jobArrival arrivals j))).length : ℚ) := by
  have hdl : ∀ j, (jobsEnv E D arrivals).deadline j
      = D + (jobsEnv E D arrivals).arrival_time j := by
    intro j
    show jobDeadline D arrivals j = D + jobArrival arrivals j
    unfold jobDeadline
    split
    · rename_i h0
      simp [jobArrival, h0]
    · rfl
  have hiff : ∀ j, (executiontime (jobsEnv E D arrivals) s j
        > (jobsEnv E D arrivals).deadline j ↔
      (s.task j (E.numvertices - 2)).end_time > D + 2 * jobArrival arrivals j) := by
    intro j
    rw [hdl j]
    show (s.task j (E.numvertices - 2)).end_time - jobArrival arrivals j
        > D + jobArrival arrivals j ↔ _
    constructor <;> intro h <;> linarith
  refine ⟨fun j => ⟨hdl j, ?_, hiff j⟩, ?_, ?_⟩
  · rw [hdl j]
    exact Iff.rfl
  · rw [hiff 0]
    simp [jobArrival]
  · have h := countViolations_count (jobsEnv E D arrivals) s id (List.range E.numjobs) vp hid
    have hf : (List.range E.numjobs).filter (fun i =>
          decide (executiontime (jobsEnv E D arrivals) s i > (jobsEnv E D arrivals).deadline i))
        = (List.range E.numjobs).filter (fun j =>
          decide ((s.task j (E.numvertices - 2)).end_time
            > D + 2 * jobArrival arrivals j)) := by
      apply List.filter_congr
      intro j _
      exact decide_eq_decide.mpr (hiff j)
    rw [hf] at h
    exact h

theorem C26_violation_threshold_witness :
    (3 : Nat) < (List.replicate 24 (0 : ℚ)).length ∧
    (executiontime (jobsEnv (chainEnv 0) 100 [5]) (simInit (fun _ _ => chainTask)) 1
        > (jobsEnv (chainEnv 0) 100 [5]).deadline 1 ↔
      ((simInit (fun _ _ => chainTask)).task 1 ((chainEnv 0).numvertices - 2)).end_time
        > 100 + 2 * jobArrival [5] 1) :=
  ⟨by decide,
    ((C26_violation_threshold (chainEnv 0) 100 [5] (simInit (fun _ _ => chainTask))
      (List.replicate 24 0) 3 (by decide)).1 1).2.2⟩

/-! ### The array helpers `conv` and `calmaxdistr` -/

theorem getD_set_rat (l : List ℚ) (i j : Nat) (x : ℚ) (hi : i < l.length) :
    (l.set i x).getD j 0 = if j = i then x else l.getD j 0 := by
  rw [List.getD_eq_getElem?_getD, List.getD_eq_getElem?_getD]
  by_cases h : j = i
  · subst h
    rw [if_pos rfl, List.getElem?_set_self hi]
    rfl
  · rw [if_neg h, List.getElem?_set_ne (fun e => h e.symm)]

theorem foldl_set_range (f : Nat → ℚ) : ∀ (m : Nat) (res : List ℚ), m ≤ res.length →
    ((List.range m).foldl (fun r i => r.set i (f i)) res).length = res.length ∧
    ∀ n, ((List.range m).foldl (fun r i => r.set i (f i)) res).getD n 0
      = if n < m then f n else res.getD n 0 := by
  intro m
  induction m with
  | zero => intro res _; simp
  | succ m ih =>
    intro res hm
    obtain ⟨h1, h2⟩ := ih res (by omega)
    rw [List.range_succ, List.foldl_append]
    simp only [List.foldl_cons, List.foldl_nil]
    refine ⟨by rw [List.length_set, h1], fun n => ?_⟩
    rw [getD_set_rat _ _ _ _ (by rw [h1]; omega), h2]
    by_cases hn : n = m
    · subst hn
      simp
    · rw [if_neg hn]
      by_cases hlt : n < m
      · rw [if_pos hlt, if_pos (by omega)]
      · rw [if_neg hlt, if_neg (by omega)]

theorem foldl_cond_sum (c : Nat → Prop) [DecidablePred c] (g : Nat → ℚ) (l : Nat) :
    (List.range l).foldl (fun tmp k => if c k then tmp + g k else tmp) 0
      = ∑ k ∈ Finset.range l, if c k then g k else 0 := by
  induction l with
  | zero => simp
  | succ l ih =>
    rw [List.range_succ, List.foldl_append, ih, Finset.sum_range_succ]
    simp only [List.foldl_cons, List.foldl_nil]
    split
    · rfl
    · simp

theorem convEntry_eq_sum (a b : List ℚ) (l1 l2 n : Nat) :
    convEntry a b l1 l2 n
      = ∑ k ∈ Finset.range l1,
          if k ≤ n ∧ n - k < l2 then a.getD k 0 * b.getD (n - k) 0 else 0 := by
  unfold convEntry
  exact foldl_cond_sum (fun k => n ≥ k ∧ n - k < l2) (fun k => a.getD k 0 * b.getD (n - k) 0) l1

theorem conv_term (a b : List ℚ) (l2 n k : Nat) :
    (if k ≤ n ∧ n - k < l2 then a.getD k 0 * b.getD (n - k) 0 else 0)
      = ∑ m ∈ Finset.range l2, if k + m = n then a.getD k 0 * b.getD m 0 else 0 := by
  by_cases h : k ≤ n ∧ n - k < l2
  · rw [if_pos h]
    have : ∀ m ∈ Finset.range l2,
        (if k + m = n then a.getD k 0 * b.getD m 0 else 0)
          = if n - k = m then a.getD k 0 * b.getD m 0 else 0 := by
      intro m _
      by_cases hm : k + m = n
      · rw [if_pos hm, if_pos (by omega)]
      · rw [if_neg hm, if_neg (by omega)]
    rw [Finset.sum_congr rfl this, Finset.sum_ite_eq, if_pos (Finset.mem_range.mpr h.2)]
  · rw [if_neg h]
    symm
    apply Finset.sum_eq_zero
    intro m hm
    rw [if_neg]
    intro hkm
    exact h ⟨by omega, by have := Finset.mem_range.mp hm; omega⟩

theorem convEntry_comm (a b : List ℚ) (l1 l2 n : Nat) :
    convEntry a b l1 l2 n = convEntry b a l2 l1 n := by
  rw [convEntry_eq_sum, convEntry_eq_sum]
  simp only [conv_term]
  rw [Finset.sum_comm]
  apply Finset.sum_congr rfl
  intro m _
  apply Finset.sum_congr rfl
  intro k _
  rw [Nat.add_comm m k, mul_comm]

/-- C27: `conv` leaves the length of `result` as it is and, when `result` has
room for `l1 + l2 - 1` entries, writes exactly the entries below `l1 + l2 - 1`:
entry `n` becomes the sum over `k < l1` of `a[k] * b[n-k]`, the terms with `n-k`
outside `[0, l2)` left out, and the entries from `l1 + l2 - 1` on keep their
value. Over exact arithmetic `conv(a, b, l1, l2)` and `conv(b, a, l2, l1)` give
the same array. -/
theorem C27_conv_is_commutative_convolution (a b result : List ℚ) (l1 l2 : Nat)
    (hroom : l1 + l2 - 1 ≤ result.length) :
    (conv a b result l1 l2).length = result.length ∧
    (∀ n, n < l1 + l2 - 1 →
      (conv a b result l1 l2).getD n 0
        = ∑ k ∈ Finset.range l1,
            if k ≤ n ∧ n - k < l2 then a.getD k 0 * b.getD (n - k) 0 else 0) ∧
    (∀ n, l1 + l2 - 1 ≤ n → (conv a b result l1 l2).getD n 0 = result.getD n 0) ∧
    conv a b result l1 l2 = conv b a result l2 l1 := by
  obtain ⟨h1, h2⟩ := foldl_set_range (convEntry a b l1 l2) (l1 + l2 - 1) result hroom
  refine ⟨h1, fun n hn => ?_, fun n hn => ?_, ?_⟩
  · show ((List.range (l1 + l2 - 1)).foldl
      (fun res index => res.set index (convEntry a b l1 l2 index)) result).getD n 0 = _
    rw [h2 n, if_pos hn, convEntry_eq_sum]
  · show ((List.range (l1 + l2 - 1)).foldl
      (fun res index => res.set index (convEntry a b l1 l2 index)) result).getD n 0 = _
    rw [h2 n, if_neg (by omega)]
  · unfold conv
    rw [Nat.add_comm l2 l1]
    congr 1
    funext res index
    rw [convEntry_comm]

theorem C27_conv_witness :
    2 + 2 - 1 ≤ [(0 : ℚ), 0, 0].length ∧
    conv [1, 2] [3, 4] [0, 0, 0] 2 2 = conv [3, 4] [1, 2] [0, 0, 0] 2 2 :=
  ⟨by decide, (C27_conv_is_commutative_convolution [1, 2] [3, 4] [0, 0, 0] 2 2 (by decide)).2.2.2⟩

theorem foldl_add_at {α : Type} (idx : α → Nat) (val : α → ℚ) :
    ∀ (xs : List α) (res : List ℚ), (∀ x ∈ xs, idx x < res.length) →
    (xs.foldl (fun r x => r.set (idx x) (r.getD (idx x) 0 + val x)) res).length = res.length ∧
    ∀ m, (xs.foldl (fun r x => r.set (idx x) (r.getD (idx x) 0 + val x)) res).getD m 0
      = res.getD m 0 + (xs.map (fun x => if idx x = m then val x else 0)).sum := by
  intro xs
  induction xs with
  | nil => intro res _; simp
  | cons x xs ih =>
    intro res h
    have hx : idx x < res.length := h x (List.mem_cons_self _ _)
    obtain ⟨h1, h2⟩ := ih (res.set (idx x) (res.getD (idx x) 0 + val x))
      (fun y hy => by rw [List.length_set]; exact h y (List.mem_cons_of_mem _ hy))
    simp only [List.foldl_cons, List.map_cons, List.sum_cons]
    refine ⟨by rw [h1, List.length_set], fun m => ?_⟩
    rw [h2 m, getD_set_rat _ _ _ _ hx]
    by_cases hm : m = idx x
    · subst hm
      simp only [if_true]
      ring
    · rw [if_neg hm, if_neg (fun e => hm e.symm)]
      ring

theorem sum_map_range_rat (f : Nat → ℚ) (n : Nat) :
    ((List.range n).map f).sum = ∑ k ∈ Finset.range n, f k := by
  induction n with
  | zero => simp
  | succ n ih => rw [List.range_succ, List.map_append, List.sum_append, ih, Finset.sum_range_succ]; simp

theorem maxdistrStep_eq (a b : List ℚ) (i : Nat) :
    maxdistrStep a b i
      = fun r j => r.set (max i j) (r.getD (max i j) 0 + a.getD i 0 * b.getD j 0) := by
  funext r j
  unfold maxdistrStep
  by_cases h : i ≥ j
  · rw [if_pos h, max_eq_left h]
  · rw [if_neg h, max_eq_right (by omega)]

theorem maxdistr_inner (a b : List ℚ) (i l2 : Nat) (res : List ℚ)
    (h : ∀ j, j < l2 → max i j < res.length) :
    ((List.range l2).foldl (maxdistrStep a b i) res).length = res.length ∧
    ∀ m, ((List.range l2).foldl (maxdistrStep a b i) res).getD m 0
      = res.getD m 0
        + ∑ j ∈ Finset.range l2, if max i j = m then a.getD i 0 * b.getD j 0 else 0 := by
  rw [maxdistrStep_eq]
  obtain ⟨h1, h2⟩ := foldl_add_at (fun j => max i j) (fun j => a.getD i 0 * b.getD j 0)
    (List.range l2) res (fun j hj => h j (List.mem_range.mp hj))
  refine ⟨h1, fun m => ?_⟩
  rw [h2 m, sum_map_range_rat]

theorem maxdistr_outer (a b : List ℚ) (l2 : Nat) : ∀ (l1 : Nat) (res : List ℚ),
    (∀ i j, i < l1 → j < l2 → max i j < res.length) →
    ((List.range l1).foldl
      (fun r i => (List.range l2).foldl (maxdistrStep a b i) r) res).length = res.length ∧
    ∀ m, ((List.range l1).foldl
      (fun r i => (List.range l2).foldl (maxdistrStep a b i) r) res).getD m 0
      = res.getD m 0
        + ∑ i ∈ Finset.range l1, ∑ j ∈ Finset.range l2,
            if max i j = m then a.getD i 0 * b.getD j 0 else 0 := by
  intro l1
  induction l1 with
  | zero => intro res _; simp
  | succ l1 ih =>
    intro res h
    obtain ⟨h1, h2⟩ := ih res (fun i j hi hj => h i j (by omega) hj)
    rw [List.range_succ, List.foldl_append]
    simp only [List.foldl_cons, List.foldl_nil]
    obtain ⟨k1, k2⟩ := maxdistr_inner a b l1 l2
      ((List.range l1).foldl (fun r i => (List.range l2).foldl (maxdistrStep a b i) r) res)
      (fun j hj => by rw [h1]; exact h l1 j (by omega) hj)
    refine ⟨by rw [k1, h1], fun m => ?_⟩
    rw [k2 m, h2 m, Finset.sum_range_succ]
    ring

theorem maxdistr_prefix (a b : Nat → ℚ) (l1 l2 n : Nat) :
    (∑ m ∈ Finset.range (n + 1), ∑ i ∈ Finset.range l1, ∑ j ∈ Finset.range l2,
        if max i j = m then a i * b j else 0)
      = (∑ i ∈ Finset.range l1, if i ≤ n then a i else 0)
        * (∑ j ∈ Finset.range l2, if j ≤ n then b j else 0) := by
  rw [Finset.sum_comm, Finset.sum_mul_sum]
  apply Finset.sum_congr rfl
  intro i _
  rw [Finset.sum_comm]
  apply Finset.sum_congr rfl
  intro j _
  rw [Finset.sum_ite_eq]
  by_cases hi : i ≤ n
  · by_cases hj : j ≤ n
    · rw [if_pos (Finset.mem_range.mpr (by have := max_le hi hj; omega)), if_pos hi, if_pos hj]
    · rw [if_neg (by
        rw [Finset.mem_range]
        have := le_max_right i j
        omega), if_neg hj, mul_zero]
  · rw [if_neg (by
      rw [Finset.mem_range]
      have := le_max_left i j
      omega), if_neg hi, zero_mul]

theorem calmaxdistr_entries (a b result : List ℚ) (l1 l2 : Nat)
    (hroom : max l1 l2 ≤ result.length) :
    (calmaxdistr a b result l1 l2).length = result.length ∧
    ∀ m, (calmaxdistr a b result l1 l2).getD m 0
      = (if m < max l1 l2 then 0 else result.getD m 0)
        + ∑ i ∈ Finset.range l1, ∑ j ∈ Finset.range l2,
            if max i j = m then a.getD i 0 * b.getD j 0 else 0 := by
  have hmax : (if l1 > l2 then l1 else l2) = max l1 l2 := by
    by_cases h : l1 > l2
    · rw [if_pos h, max_eq_left (by omega)]
    · rw [if_neg h, max_eq_right (by omega)]
  obtain ⟨z1, z2⟩ := foldl_set_range (fun _ => (0 : ℚ)) (max l1 l2) result hroom
  obtain ⟨h1, h2⟩ := maxdistr_outer a b l2 l1
    ((List.range (max l1 l2)).foldl (fun res i => res.set i 0) result)
    (fun i j hi hj => by
      rw [z1]
      have : max i j < max l1 l2 := max_lt_max hi hj
      omega)
  unfold calmaxdistr
  simp only [hmax]
  refine ⟨by rw [h1, z1], fun m => ?_⟩
  rw [h2 m, z2 m]

/-- C28: `calmaxdistr` leaves the length of `result` as it is and, when `result`
has room for `max(l1, l2)` entries, writes only below `max(l1, l2)`: the entries
from there on keep their value, and entry `m` below it becomes the sum of
`a[i] * b[j]` over the pairs `i < l1`, `j < l2` with `max(i, j) = m`. Hence for
every `n` the sum of the entries `0..n` of the result equals the sum of the
entries `0..n` of `a` times that of `b`, entries out of range counting as 0. -/
theorem C28_calmaxdistr_is_max_distribution (a b result : List ℚ) (l1 l2 : Nat)
    (hroom : max l1 l2 ≤ result.length) :
    (calmaxdistr a b result l1 l2).length = result.length ∧
    (∀ m, max l1 l2 ≤ m → (calmaxdistr a b result l1 l2).getD m 0 = result.getD m 0) ∧
    (∀ m, m < max l1 l2 →
      (calmaxdistr a b result l1 l2).getD m 0
        = ∑ i ∈ Finset.range l1, ∑ j ∈ Finset.range l2,
            if max i j = m then a.getD i 0 * b.getD j 0 else 0) ∧
    (∀ n, (∑ m ∈ Finset.range (n + 1),
          if m < max l1 l2 then (calmaxdistr a b result l1 l2).getD m 0 else 0)
        = (∑ i ∈ Finset.range l1, if i ≤ n then a.getD i 0 else 0)
          * (∑ j ∈ Finset.range l2, if j ≤ n then b.getD j 0 else 0)) := by
  obtain ⟨h1, h2⟩ := calmaxdistr_entries a b result l1 l2 hroom
  have hzero : ∀ m, max l1 l2 ≤ m →
      (∑ i ∈ Finset.range l1, ∑ j ∈ Finset.range l2,
        if max i j = m then a.getD i 0 * b.getD j 0 else 0) = 0 := by
    intro m hm
    apply Finset.sum_eq_zero
    intro i hi
    apply Finset.sum_eq_zero
    intro j hj
    rw [if_neg]
    have : max i j < max l1 l2 := max_lt_max (Finset.mem_range.mp hi) (Finset.mem_range.mp hj)
    omega
  refine ⟨h1, fun m hm => ?_, fun m hm => ?_, fun n => ?_⟩
  · rw [h2 m, if_neg (by omega), hzero m hm, add_zero]
  · rw [h2 m, if_pos hm, zero_add]
  · rw [← maxdistr_prefix (fun i => a.getD i 0) (fun j => b.getD j 0) l1 l2 n]
    apply Finset.sum_congr rfl
    intro m _
    by_cases hm : m < max l1 l2
    · rw [if_pos hm, h2 m, if_pos hm, zero_add]
    · rw [if_neg hm, hzero m (by omega)]

theorem C28_calmaxdistr_witness :
    max 2 3 ≤ [(7 : ℚ), 7, 7, 7].length ∧
    calmaxdistr [1, 2] [3, 4, 5] [7, 7, 7, 7] 2 3 = [3, 18, 15, 7] ∧
    (calmaxdistr [1, 2] [3, 4, 5] [7, 7, 7, 7] 2 3).length = 4 :=
  ⟨by decide, by decide!,
    (C28_calmaxdistr_is_max_distribution [1, 2] [3, 4, 5] [7, 7, 7, 7] 2 3 (by decide)).1⟩

/-! ### The simulator: dispatch only after the predecessors -/

theorem progressed_status (E : SimEnv) (t : Nat) (v : taskVertex) :
    (progressed E t v).status = Status.finished ∨ (progressed E t v).status = v.status := by
  unfold progressed
  split
  · exact Or.inl rfl
  · exact Or.inr rfl

theorem tick_status (E : SimEnv) (s : SimState)
    (hperm : ∀ task l, (E.sortReady task l).Perm l) (j i : Nat)
    (hj : j < E.numjobs) (hi : i < E.numvertices) :
    ((tick E s).task j i).status = ((acceptJobs E s).task j i).status ∨
    ((tick E s).task j i).status = Status.scheduled ∨
    ((tick E s).task j i).status = Status.finished := by
  obtain ⟨t1, t2, t3⟩ := tick_task E s hperm j i hj hi
  have hp : ∀ v : taskVertex, v.status = Status.scheduled →
      (progressed E s.t v).status = Status.scheduled ∨
      (progressed E s.t v).status = Status.finished := by
    intro v hv
    rcases progressed_status E s.t v with h | h
    · exact Or.inr h
    · exact Or.inl (h.trans hv)
  by_cases hr : isReady E (acceptJobs E s) j i = true
  · obtain ⟨pre, post, _, e⟩ := t3 hr
    rw [e]
    split
    · split
      · left
        rw [countedDown_status]
        rfl
      · exact Or.inr (hp _ rfl)
    · split
      · exact Or.inr (hp _ rfl)
      · left
        rw [countedDown_status]
  · have hr' : isReady E (acceptJobs E s) j i = false := by
      cases h : isReady E (acceptJobs E s) j i
      · rfl
      · exact absurd h hr
    by_cases hs : ((acceptJobs E s).task j i).status = Status.scheduled
    · rw [t2 hs]
      exact Or.inr (hp _ hs)
    · rw [t1 hs hr']
      exact Or.inl rfl

theorem job_never_ready (E : SimEnv) (task : Nat → Nat → taskVertex)
    (hperm : ∀ task l, (E.sortReady task l).Perm l) (j a i : Nat)
    (hj : j < E.numjobs) (hi : i < E.numvertices)
    (ha : (a : Int) = truncInt (E.arrival_time j))
    (h0 : (jobTask E task j a i).status ≠ Status.ready) :
    ∀ m : Nat, (jobTask E task j (a + m) i).status ≠ Status.ready := by
  intro m
  induction m with
  | zero => exact h0
  | succ m ih =>
    have e : jobTask E task j (a + (m + 1)) i
        = (tick E (ticks E (a + m) (simInit task))).task j i :=
      jobTask_next E task j a (a + m) ha (by omega) i
    rw [e]
    rcases tick_status E (ticks E (a + m) (simInit task)) hperm j i hj hi with h | h | h
    · rw [h]; exact ih
    · rw [h]; decide
    · rw [h]; decide

theorem bindIdle_origin (r : TaskRef) : ∀ (pool pool' : List VM) (vm : VM),
    bindIdle r pool = some pool' → vm ∈ pool' → vm ∈ pool ∨ vm.tk = some r := by
  intro pool
  induction pool with
  | nil => intro pool' vm h; simp [bindIdle] at h
  | cons x rest ih =>
    intro pool' vm h hvm
    simp only [bindIdle] at h
    split at h
    · cases h
      rcases List.mem_cons.mp hvm with h' | h'
      · subst h'; exact Or.inr rfl
      · exact Or.inl (List.mem_cons_of_mem _ h')
    · cases hb : bindIdle r rest with
      | none => simp [hb] at h
      | some l =>
        simp only [hb, Option.map_some', Option.some.injEq] at h
        subst h
        rcases List.mem_cons.mp hvm with h' | h'
        · subst h'; exact Or.inl (List.mem_cons_self _ _)
        · rcases ih l vm hb h' with h'' | h''
          · exact Or.inl (List.mem_cons_of_mem _ h'')
          · exact Or.inr h''

theorem dispatchOne_origin (E : SimEnv) (σ : SimState) (r : TaskRef) (k : Nat) (vm : VM)
    (hvm : vm ∈ (dispatchOne E σ r).VMTP k) : vm ∈ σ.VMTP k ∨ vm.tk = some r := by
  unfold dispatchOne at hvm
  dsimp only at hvm
  split at hvm
  · split at hvm
    · rename_i pool hb
      simp only [setPool, setTask] at hvm
      split at hvm
      · rename_i hk
        subst hk
        exact bindIdle_origin r _ pool vm hb hvm
      · exact Or.inl hvm
    · exact Or.inl hvm
  · split at hvm
    · simp only [setPool, setTask] at hvm
      split at hvm
      · rename_i hk
        subst hk
        rcases List.mem_append.mp hvm with h | h
        · exact Or.inl h
        · right
          rw [List.mem_singleton] at h
          rw [h]
      · exact Or.inl hvm
    · exact Or.inl hvm

theorem dispatch_origin (E : SimEnv) (k : Nat) (vm : VM) :
    ∀ (l : List TaskRef) (σ : SimState), vm ∈ (l.foldl (dispatchOne E) σ).VMTP k →
      vm ∈ σ.VMTP k ∨ ∃ r ∈ l, vm.tk = some r := by
  intro l
  induction l with
  | nil => intro σ h; exact Or.inl h
  | cons x xs ih =>
    intro σ h
    rcases ih _ h with h' | ⟨r, hr, e⟩
    · rcases dispatchOne_origin E σ x k vm h' with h'' | h''
      · exact Or.inl h''
      · exact Or.inr ⟨x, List.mem_cons_self _ _, h''⟩
    · exact Or.inr ⟨r, List.mem_cons_of_mem _ hr, e⟩

/-- C24: from the tick `a` in which job `j` is accepted, a vertex `i` whose
status after the acceptance is not `ready` is dispatched only after its
predecessors. At every tick `n ≥ a`: if the vertex is in `ready_task`, or the
dispatch loop changes its record (the provisioning delay is started, or the
status becomes `scheduled`), or after the dispatch loop a VM holds it that was
not in the pool before, then the vertex has an in-edge and the sources of all
its in-edges are finished in that tick. And a vertex of the job that is finished
in tick `n` is finished in every later tick. -/
theorem C24_dispatch_only_after_predecessors (E : SimEnv) (task : Nat → Nat → taskVertex)
    (hperm : ∀ task l, (E.sortReady task l).Perm l) (j a i : Nat)
    (hj : j < E.numjobs) (hi : i < E.numvertices)
    (ha : (a : Int) = truncInt (E.arrival_time j))
    (hinit : (jobTask E task j a i).status ≠ Status.ready) (n : Nat) (hn : a ≤ n) :
    (((j, i) ∈ (dispatchPhase E (ticks E n (simInit task))).2 ∨
      (dispatchPhase E (ticks E n (simInit task))).1.task j i ≠ jobTask E task j n i ∨
      (∃ k vm, vm ∈ (dispatchPhase E (ticks E n (simInit task))).1.VMTP k ∧
        vm.tk = some (j, i) ∧ vm ∉ (ticks E n (simInit task)).VMTP k)) →
      E.in_edges i ≠ [] ∧
      ∀ src ∈ E.in_edges i, (jobTask E task j n src).status = Status.finished) ∧
    (∀ p m, (jobTask E task j n p).status = Status.finished →
      (jobTask E task j (n + m) p).status = Status.finished) := by
  refine ⟨fun h => ?_, fun p m h => job_finished_persists E task hperm j a ha p m n hn h⟩
  have hmem : (j, i) ∈ (dispatchPhase E (ticks E n (simInit task))).2 := by
    rcases h with h | h | ⟨k, vm, h1, h2, h3⟩
    · exact h
    · by_contra hc
      exact h (foldl_task_frame (dispatchOne E) (dispatchOne_task_ne E) _ _ j i hc)
    · rcases dispatch_origin E k vm _ _ h1 with h' | ⟨r, hr, e⟩
      · exact absurd h' h3
      · rw [h2] at e
        cases e
        exact hr
  have hr : isReady E (acceptJobs E (ticks E n (simInit task))) j i = true :=
    ((mem_readyList E _ j i).mp ((hperm _ _).mem_iff.mp hmem)).2.2
  have hnr : (jobTask E task j n i).status ≠ Status.ready := by
    have := job_never_ready E task hperm j a i hj hi ha hinit (n - a)
    rw [show a + (n - a) = n by omega] at this
    exact this
  rcases (isReady_iff E _ j i).mp hr with h' | ⟨h1, h2, _, _⟩
  · exact absurd h' hnr
  · exact ⟨h1, h2⟩

theorem C24_dispatch_only_after_predecessors_witness :
    (jobTask (chainEnv 0) (fun _ _ => chainTask) 0 0 1).status ≠ Status.ready ∧
    (0, 1) ∈ (dispatchPhase (chainEnv 0)
      (ticks (chainEnv 0) 6 (simInit (fun _ _ => chainTask)))).2 ∧
    ((chainEnv 0).in_edges 1 ≠ [] ∧
      ∀ src ∈ (chainEnv 0).in_edges 1,
        (jobTask (chainEnv 0) (fun _ _ => chainTask) 0 6 src).status = Status.finished) :=
  ⟨by decide!, by decide!,
    (C24_dispatch_only_after_predecessors (chainEnv 0) (fun _ _ => chainTask)
      (fun _ l => List.Perm.refl l) 0 0 1 (by decide) (by decide) (by decide!) (by decide!)
      6 (by decide)).1 (Or.inl (by decide!))⟩

/-! ### The simulator: the binding of tasks and VMs -/

theorem bindIdle_mem (r : TaskRef) : ∀ (pool pool' : List VM) (vm' : VM),
    bindIdle r pool = some pool' → vm' ∈ pool' →
      vm' ∈ pool ∨ ∃ vm ∈ pool, vm'.type = vm.type ∧ vm'.tk = some r := by
  intro pool
  induction pool with
  | nil => intro pool' vm h; simp [bindIdle] at h
  | cons x rest ih =>
    intro pool' vm h hvm
    simp only [bindIdle] at h
    split at h
    · cases h
      rcases List.mem_cons.mp hvm with h' | h'
      · subst h'; exact Or.inr ⟨x, List.mem_cons_self _ _, rfl, rfl⟩
      · exact Or.inl (List.mem_cons_of_mem _ h')
    · cases hb : bindIdle r rest with
      | none => simp [hb] at h
      | some l =>
        simp only [hb, Option.map_some', Option.some.injEq] at h
        subst h
        rcases List.mem_cons.mp hvm with h' | h'
        · subst h'; exact Or.inl (List.mem_cons_self _ _)
        · rcases ih l vm hb h' with h'' | ⟨v, hv, e⟩
          · exact Or.inl (List.mem_cons_of_mem _ h'')
          · exact Or.inr ⟨v, List.mem_cons_of_mem _ hv, e⟩

theorem bindIdle_tks (r : TaskRef) : ∀ (pool pool' : List VM),
    bindIdle r pool = some pool' →
      (pool'.filterMap VM.tk).Perm (r :: pool.filterMap VM.tk) := by
  intro pool
  induction pool with
  | nil => intro pool' h; simp [bindIdle] at h
  | cons x rest ih =>
    intro pool' h
    simp only [bindIdle] at h
    split at h
    · rename_i hx
      cases h
      rw [List.filterMap_cons_some (show VM.tk { x with tk := some r } = some r from rfl),
        List.filterMap_cons_none hx]
    · rename_i hx
      cases hb : bindIdle r rest with
      | none => simp [hb] at h
      | some l =>
        simp only [hb, Option.map_some', Option.some.injEq] at h
        subst h
        obtain ⟨y, hy⟩ := Option.ne_none_iff_exists'.mp hx
        rw [List.filterMap_cons_some hy, List.filterMap_cons_some hy]
        exact ((ih l hb).cons y).trans (List.Perm.swap r y _)

theorem releaseTask_mem (r : TaskRef) : ∀ (pool : List VM) (vm' : VM),
    vm' ∈ releaseTask r pool →
      vm' ∈ pool ∨ ∃ vm ∈ pool, vm'.type = vm.type ∧ vm'.tk = none := by
  intro pool
  induction pool with
  | nil => intro vm h; simp [releaseTask] at h
  | cons x rest ih =>
    intro vm h
    simp only [releaseTask] at h
    split at h
    · rcases List.mem_cons.mp h with h' | h'
      · subst h'; exact Or.inr ⟨x, List.mem_cons_self _ _, rfl, rfl⟩
      · exact Or.inl (List.mem_cons_of_mem _ h')
    · rcases List.mem_cons.mp h with h' | h'
      · subst h'; exact Or.inl (List.mem_cons_self _ _)
      · rcases ih vm h' with h'' | ⟨v, hv, e⟩
        · exact Or.inl (List.mem_cons_of_mem _ h'')
        · exact Or.inr ⟨v, List.mem_cons_of_mem _ hv, e⟩

theorem releaseTask_keeps (r : TaskRef) : ∀ (pool : List VM) (vm : VM),
    vm ∈ pool → vm.tk ≠ some r → vm ∈ releaseTask r pool := by
  intro pool
  induction pool with
  | nil => intro vm h; simp at h
  | cons x rest ih =>
    intro vm h htk
    simp only [releaseTask]
    split
    · rename_i hx
      rcases List.mem_cons.mp h with h' | h'
      · subst h'; exact absurd hx htk
      · exact List.mem_cons_of_mem _ h'
    · rcases List.mem_cons.mp h with h' | h'
      · subst h'; exact List.mem_cons_self _ _
      · exact List.mem_cons_of_mem _ (ih vm h' htk)

theorem releaseTask_tks (r : TaskRef) : ∀ (pool : List VM),
    (releaseTask r pool).filterMap VM.tk = (pool.filterMap VM.tk).erase r := by
  intro pool
  induction pool with
  | nil => rfl
  | cons x rest ih =>
    simp only [releaseTask]
    split
    · rename_i hx
      rw [List.filterMap_cons_none (show VM.tk { x with tk := none } = none from rfl),
        List.filterMap_cons_some hx, List.erase_cons_head]
    · rename_i hx
      cases hy : x.tk with
      | none => rw [List.filterMap_cons_none hy, List.filterMap_cons_none hy, ih]
      | some y =>
        rw [List.filterMap_cons_some hy, List.filterMap_cons_some hy, ih,
          List.erase_cons_tail]
        rw [hy] at hx
        simpa using hx

theorem holders_le_one (r : TaskRef) : ∀ (pool : List VM),
    (pool.filterMap VM.tk).Nodup →
      (pool.filter (fun vm => decide (vm.tk = some r))).length ≤ 1 := by
  intro pool
  induction pool with
  | nil => intro _; simp
  | cons x rest ih =>
    intro h
    by_cases hx : x.tk = some r
    · rw [List.filterMap_cons_some hx] at h
      obtain ⟨h1, _⟩ := List.nodup_cons.mp h
      have : rest.filter (fun vm => decide (vm.tk = some r)) = [] := by
        rw [List.filter_eq_nil_iff]
        intro vm hvm hd
        exact h1 (List.mem_filterMap.mpr ⟨vm, hvm, of_decide_eq_true hd⟩)
      rw [List.filter_cons_of_pos (by simpa using hx), this]
      simp
    · rw [List.filter_cons_of_neg (by simpa using hx)]
      apply ih
      cases hy : x.tk with
      | none => rw [List.filterMap_cons_none hy] at h; exact h
      | some y => rw [List.filterMap_cons_some hy] at h; exact (List.nodup_cons.mp h).2

theorem BindInv_of_same (E : SimEnv) (s s' : SimState) (hV : s'.VMTP = s.VMTP)
    (hT : ∀ j i, (s'.task j i).status = (s.task j i).status ∧
      (s'.task j i).assigned_type = (s.task j i).assigned_type)
    (h : BindInv E s) : BindInv E s' := by
  obtain ⟨h1, h2, h3⟩ := h
  refine ⟨?_, ?_, ?_⟩
  · intro k vm hvm
    rw [hV] at hvm
    refine ⟨(h1 k vm hvm).1, fun r hr => ?_⟩
    obtain ⟨a, b, c, d⟩ := (h1 k vm hvm).2 r hr
    exact ⟨a, b, (hT r.1 r.2).1.trans c, (hT r.1 r.2).2.trans d⟩
  · intro j i hj hi hs
    rw [hV, (hT j i).2]
    exact h2 j i hj hi ((hT j i).1.symm.trans hs)
  · intro k
    rw [hV]
    exact h3 k

theorem BindInv_bind (E : SimEnv) (σ : SimState) (r : TaskRef) (v' : taskVertex) (a : Nat)
    (pool' : List VM) (h : BindInv E σ) (hr1 : r.1 < E.numjobs) (hr2 : r.2 < E.numvertices)
    (hs : (σ.task r.1 r.2).status ≠ Status.scheduled)
    (hv1 : v'.status = Status.scheduled) (hv2 : v'.assigned_type = a)
    (m1 : ∀ vm' ∈ pool', vm' ∈ σ.VMTP a ∨ (vm'.type = a ∧ vm'.tk = some r))
    (m2 : ∀ vm ∈ σ.VMTP a, vm.tk ≠ none → vm ∈ pool')
    (m3 : (pool'.filterMap VM.tk).Perm (r :: (σ.VMTP a).filterMap VM.tk)) :
    BindInv E (setPool (setTask σ r v') a pool') := by
  obtain ⟨h1, h2, h3⟩ := h
  have hfree : ∀ k vm, vm ∈ σ.VMTP k → vm.tk ≠ some r :=
    fun k vm hvm e => hs ((h1 k vm hvm).2 r e).2.2.1
  have htask : ∀ j i, (setPool (setTask σ r v') a pool').task j i
      = if (j, i) = r then v' else σ.task j i := fun _ _ => rfl
  have hpool : ∀ k, (setPool (setTask σ r v') a pool').VMTP k
      = if k = a then pool' else σ.VMTP k := fun _ => rfl
  have hold : ∀ k vm, vm ∈ σ.VMTP k → vm.type = k ∧
      ∀ r', vm.tk = some r' →
        r'.1 < E.numjobs ∧ r'.2 < E.numvertices ∧
        ((setPool (setTask σ r v') a pool').task r'.1 r'.2).status = Status.scheduled ∧
        ((setPool (setTask σ r v') a pool').task r'.1 r'.2).assigned_type = k := by
    intro k vm hvm
    refine ⟨(h1 k vm hvm).1, fun r' hr' => ?_⟩
    have hne : (r'.1, r'.2) ≠ r := fun e => hfree k vm hvm (by rw [hr', ← e])
    rw [htask, if_neg hne]
    exact (h1 k vm hvm).2 r' hr'
  refine ⟨?_, ?_, ?_⟩
  · intro k vm hvm
    rw [hpool] at hvm
    split at hvm
    · rename_i hk
      subst hk
      rcases m1 vm hvm with h' | ⟨e1, e2⟩
      · exact hold k vm h'
      · refine ⟨e1, fun r' hr' => ?_⟩
        rw [e2] at hr'
        cases hr'
        rw [htask, if_pos rfl]
        exact ⟨hr1, hr2, hv1, hv2⟩
    · exact hold k vm hvm
  · intro j i hj hi hsch
    rw [htask] at hsch ⊢
    rw [hpool]
    by_cases hji : (j, i) = r
    · rw [if_pos hji, hv2, if_pos rfl]
      have : r ∈ pool'.filterMap VM.tk := m3.mem_iff.mpr (List.mem_cons_self _ _)
      obtain ⟨vm, hvm, e⟩ := List.mem_filterMap.mp this
      exact ⟨vm, hvm, by rw [e, hji]⟩
    · rw [if_neg hji] at hsch ⊢
      obtain ⟨vm, hvm, e⟩ := h2 j i hj hi hsch
      split
      · rename_i hk
        rw [hk] at hvm
        exact ⟨vm, m2 vm hvm (by rw [e]; simp), e⟩
      · exact ⟨vm, hvm, e⟩
  · intro k
    rw [hpool]
    split
    · rw [m3.nodup_iff, List.nodup_cons]
      refine ⟨fun hmem => ?_, h3 a⟩
      obtain ⟨vm, hvm, e⟩ := List.mem_filterMap.mp hmem
      exact hfree a vm hvm e
    · exact h3 k

theorem BindInv_dispatchOne (E : SimEnv) (σ : SimState) (r : TaskRef) (h : BindInv E σ)
    (hr1 : r.1 < E.numjobs) (hr2 : r.2 < E.numvertices)
    (hs : (σ.task r.1 r.2).status ≠ Status.scheduled) : BindInv E (dispatchOne E σ r) := by
  unfold dispatchOne
  dsimp only
  split
  · split
    · rename_i pool hb
      apply BindInv_bind E σ r _ _ pool h hr1 hr2 hs rfl rfl
      · intro vm' hvm'
        rcases bindIdle_mem r _ pool vm' hb hvm' with h' | ⟨vm, hvm, e1, e2⟩
        · exact Or.inl h'
        · exact Or.inr ⟨e1.trans (h.1 _ vm hvm).1, e2⟩
      · exact fun vm hvm htk => bindIdle_keeps r _ pool vm hb hvm htk
      · exact bindIdle_tks r _ pool hb
    · refine BindInv_of_same E σ _ rfl ?_ h
      intro j i
      simp only [setTask]
      split
      · rename_i e
        cases e
        exact ⟨rfl, rfl⟩
      · exact ⟨rfl, rfl⟩
  · split
    · have := BindInv_bind E σ r
        { σ.task r.1 r.2 with
          status := Status.scheduled
          restTime := (σ.task r.1 r.2).probestTime.getD
            ((σ.task r.1 r.2).assigned_type * E.randomsize + E.monte) 0 }
        (σ.task r.1 r.2).assigned_type
        (σ.VMTP (σ.task r.1 r.2).assigned_type ++
          [{ life_time := E.OnDemandLag, tk := some r, type := (σ.task r.1 r.2).assigned_type,
             id := σ.created }])
        h hr1 hr2 hs rfl rfl
        (by
          intro vm' hvm'
          rcases List.mem_append.mp hvm' with h' | h'
          · exact Or.inl h'
          · rw [List.mem_singleton] at h'
            rw [h']
            exact Or.inr ⟨rfl, rfl⟩)
        (fun vm hvm _ => List.mem_append_left _ hvm)
        (by
          rw [List.filterMap_append]
          simp only [List.filterMap_cons, List.filterMap_nil]
          exact List.perm_append_comm)
      exact BindInv_of_same E _ _ rfl (fun _ _ => ⟨rfl, rfl⟩) this
    · exact h

theorem BindInv_dispatch (E : SimEnv) : ∀ (l : List TaskRef) (σ : SimState),
    BindInv E σ → l.Nodup →
    (∀ r ∈ l, r.1 < E.numjobs ∧ r.2 < E.numvertices ∧
      (σ.task r.1 r.2).status ≠ Status.scheduled) →
    BindInv E (l.foldl (dispatchOne E) σ) := by
  intro l
  induction l with
  | nil => intro σ h _ _; exact h
  | cons x xs ih =>
    intro σ h hnd hl
    obtain ⟨hx, hxs⟩ := List.nodup_cons.mp hnd
    obtain ⟨a, b, c⟩ := hl x (List.mem_cons_self _ _)
    rw [List.foldl_cons]
    apply ih _ (BindInv_dispatchOne E σ x h a b c) hxs
    intro r hr
    obtain ⟨a', b', c'⟩ := hl r (List.mem_cons_of_mem _ hr)
    refine ⟨a', b', ?_⟩
    rw [dispatchOne_task_ne E σ x r.1 r.2 (fun e => hx (by rw [← e]; exact hr))]
    exact c'

theorem BindInv_reapPool (E : SimEnv) (s : SimState) (i : Nat) (h : BindInv E s) :
    BindInv E (reapPool E s i) := by
  obtain ⟨h1, h2, h3⟩ := h
  have hpool : ∀ k, (reapPool E s i).VMTP k
      = if k = i then (s.VMTP i).filter (fun vm => !decide (vm.tk = none)) else s.VMTP k :=
    fun _ => rfl
  have hin : ∀ k vm, vm ∈ (reapPool E s i).VMTP k → vm ∈ s.VMTP k := by
    intro k vm hvm
    rw [hpool] at hvm
    split at hvm
    · rename_i hk
      subst hk
      exact (List.mem_filter.mp hvm).1
    · exact hvm
  refine ⟨fun k vm hvm => h1 k vm (hin k vm hvm), ?_, ?_⟩
  · intro j i' hj hi hs
    obtain ⟨vm, hvm, e⟩ := h2 j i' hj hi hs
    refine ⟨vm, ?_, e⟩
    show vm ∈ (reapPool E s i).VMTP (s.task j i').assigned_type
    rw [hpool]
    split
    · rename_i hk
      rw [hk] at hvm
      exact List.mem_filter.mpr ⟨hvm, by rw [e]; rfl⟩
    · exact hvm
  · intro k
    rw [hpool]
    split
    · exact (h3 i).sublist (List.Sublist.filterMap _ (List.filter_sublist _))
    · exact h3 k

theorem BindInv_reapIdle (E : SimEnv) (s : SimState) (h : BindInv E s) :
    BindInv E (reapIdle E s) := by
  unfold reapIdle
  generalize List.range E.types = l
  induction l generalizing s with
  | nil => exact h
  | cons x xs ih =>
    rw [List.foldl_cons]
    exact ih _ (BindInv_reapPool E s x h)

theorem BindInv_progressOne (E : SimEnv) (s : SimState) (r : TaskRef) (h : BindInv E s) :
    BindInv E (progressOne E s r) := by
  unfold progressOne
  dsimp only
  split
  · obtain ⟨h1, h2, h3⟩ := h
    generalize hv : ({ s.task r.1 r.2 with
        restTime := fsub1 E.precision (s.task r.1 r.2).restTime
        status := Status.finished
        end_time := (s.t : ℚ)
        tasktime := (s.t : ℚ) - (s.task r.1 r.2).tasktime
        cost := ((s.t : ℚ) - (s.task r.1 r.2).tasktime)
          * E.priceOnDemand.getD (s.task r.1 r.2).assigned_type 0 / 3600 } : taskVertex) = v'
    have hv1 : v'.status = Status.finished := by rw [← hv]
    have hv2 : v'.assigned_type = (s.task r.1 r.2).assigned_type := by rw [← hv]
    generalize ha : (s.task r.1 r.2).assigned_type = a at hv2
    have htask : ∀ j i, (setPool (setTask s r v') a (releaseTask r (s.VMTP a))).task j i
        = if (j, i) = r then v' else s.task j i := fun _ _ => rfl
    have hpool : ∀ k, (setPool (setTask s r v') a (releaseTask r (s.VMTP a))).VMTP k
        = if k = a then releaseTask r (s.VMTP a) else s.VMTP k := fun _ => rfl
    have hgone : ∀ k vm, vm ∈ (setPool (setTask s r v') a (releaseTask r (s.VMTP a))).VMTP k →
        vm.tk ≠ some r := by
      intro k vm hvm e
      rw [hpool] at hvm
      split at hvm
      · have : r ∈ (releaseTask r (s.VMTP a)).filterMap VM.tk :=
          List.mem_filterMap.mpr ⟨vm, hvm, e⟩
        rw [releaseTask_tks, (h3 a).mem_erase_iff] at this
        exact this.1 rfl
      · rename_i hk
        exact hk (((h1 k vm hvm).2 r e).2.2.2.symm.trans ha)
    refine ⟨?_, ?_, ?_⟩
    · intro k vm hvm
      have hg := hgone k vm hvm
      rw [hpool] at hvm
      have hold : vm ∈ s.VMTP k → vm.type = k ∧
          ∀ r', vm.tk = some r' →
            r'.1 < E.numjobs ∧ r'.2 < E.numvertices ∧
            ((setPool (setTask s r v') a (releaseTask r (s.VMTP a))).task r'.1 r'.2).status
              = Status.scheduled ∧
            ((setPool (setTask s r v') a (releaseTask r (s.VMTP a))).task r'.1 r'.2).assigned_type
              = k := by
        intro hvm'
        refine ⟨(h1 k vm hvm').1, fun r' hr' => ?_⟩
        have hne : (r'.1, r'.2) ≠ r := fun e => hg (by rw [hr', ← e])
        rw [htask, if_neg hne]
        exact (h1 k vm hvm').2 r' hr'
      split at hvm
      · rename_i hk
        subst hk
        rcases releaseTask_mem r _ vm hvm with h' | ⟨vm0, hvm0, e1, e2⟩
        · exact hold h'
        · refine ⟨e1.trans (h1 k vm0 hvm0).1, fun r' hr' => ?_⟩
          rw [e2] at hr'
          cases hr'
      · exact hold hvm
    · intro j i hj hi hsch
      rw [htask] at hsch ⊢
      rw [hpool]
      by_cases hji : (j, i) = r
      · rw [if_pos hji, hv1] at hsch
        cases hsch
      · rw [if_neg hji] at hsch ⊢
        obtain ⟨vm, hvm, e⟩ := h2 j i hj hi hsch
        split
        · rename_i hk
          rw [hk] at hvm
          exact ⟨vm, releaseTask_keeps r _ vm hvm (by rw [e]; simpa using hji), e⟩
        · exact ⟨vm, hvm, e⟩
    · intro k
      rw [hpool]
      split
      · rw [releaseTask_tks]
        exact (h3 a).erase r
      · exact h3 k
  · refine BindInv_of_same E s _ rfl ?_ h
    intro j i
    simp only [setTask]
    split
    · rename_i e
      cases e
      exact ⟨rfl, rfl⟩
    · exact ⟨rfl, rfl⟩

theorem BindInv_foldl (E : SimEnv) (f : SimState → TaskRef → SimState)
    (hf : ∀ σ r, BindInv E σ → BindInv E (f σ r)) :
    ∀ (l : List TaskRef) (σ : SimState), BindInv E σ → BindInv E (l.foldl f σ) := by
  intro l
  induction l with
  | nil => intro σ h; exact h
  | cons x xs ih => intro σ h; exact ih _ (hf σ x h)

theorem BindInv_ageVMs (E : SimEnv) (s : SimState) (h : BindInv E s) :
    BindInv E (ageVMs E s) := by
  obtain ⟨h1, h2, h3⟩ := h
  have hpool : ∀ k, (ageVMs E s).VMTP k
      = if k < E.types then (s.VMTP k).map (fun vm => { vm with life_time := vm.life_time + 1 })
        else s.VMTP k := fun _ => rfl
  have hin : ∀ k vm, vm ∈ (ageVMs E s).VMTP k →
      ∃ vm0 ∈ s.VMTP k, vm.type = vm0.type ∧ vm.tk = vm0.tk := by
    intro k vm hvm
    rw [hpool] at hvm
    split at hvm
    · obtain ⟨vm0, hvm0, e⟩ := List.mem_map.mp hvm
      exact ⟨vm0, hvm0, by rw [← e], by rw [← e]⟩
    · exact ⟨vm, hvm, rfl, rfl⟩
  refine ⟨?_, ?_, ?_⟩
  · intro k vm hvm
    obtain ⟨vm0, hvm0, e1, e2⟩ := hin k vm hvm
    refine ⟨e1.trans (h1 k vm0 hvm0).1, fun r hr => ?_⟩
    exact (h1 k vm0 hvm0).2 r (e2.symm.trans hr)
  · intro j i hj hi hs
    obtain ⟨vm, hvm, e⟩ := h2 j i hj hi hs
    show ∃ vm ∈ (ageVMs E s).VMTP (s.task j i).assigned_type, vm.tk = some (j, i)
    rw [hpool]
    split
    · exact ⟨{ vm with life_time := vm.life_time + 1 }, List.mem_map.mpr ⟨vm, hvm, rfl⟩, e⟩
    · exact ⟨vm, hvm, e⟩
  · intro k
    rw [hpool]
    split
    · rw [List.filterMap_map]
      exact h3 k
    · exact h3 k

theorem BindInv_countdownOne (E : SimEnv) (s : SimState) (r : TaskRef) (h : BindInv E s) :
    BindInv E (countdownOne s r) := by
  unfold countdownOne
  split
  · refine BindInv_of_same E s _ rfl ?_ h
    intro j i
    simp only [setTask]
    split
    · rename_i e
      cases e
      exact ⟨rfl, rfl⟩
    · exact ⟨rfl, rfl⟩
  · exact h

theorem BindInv_finishTick (E : SimEnv) (σ : SimState) (rl : List TaskRef)
    (h : BindInv E σ) : BindInv E (finishTick E σ rl) := by
  unfold finishTick
  dsimp only
  refine BindInv_of_same E _ _ rfl (fun _ _ => ⟨rfl, rfl⟩)
    (BindInv_foldl E countdownOne (BindInv_countdownOne E) rl _
      (BindInv_ageVMs E _
        (BindInv_foldl E (progressOne E) (BindInv_progressOne E) _ _
          (BindInv_reapIdle E σ h))))

theorem acceptVertex_scheduled (E : SimEnv) (i : Nat) (v : taskVertex)
    (h : (acceptVertex E i v).status = Status.scheduled) : v.status = Status.scheduled := by
  unfold acceptVertex at h
  dsimp only at h
  split_ifs at h <;> exact h

theorem BindInv_acceptJobs (E : SimEnv) (s : SimState) (h : BindInv E s)
    (hd : Dormant E s) : BindInv E (acceptJobs E s) := by
  obtain ⟨h1, h2, h3⟩ := h
  have htask : ∀ j i, (acceptJobs E s).task j i
      = if j < E.numjobs ∧ (s.t : Int) = truncInt (E.arrival_time j) then
          acceptVertex E i (s.task j i)
        else s.task j i := fun _ _ => rfl
  refine ⟨?_, ?_, h3⟩
  · intro k vm hvm
    refine ⟨(h1 k vm hvm).1, fun r hr => ?_⟩
    obtain ⟨a, b, c, d⟩ := (h1 k vm hvm).2 r hr
    rw [htask]
    split
    · rename_i hc
      exact absurd c (hd r.1 (le_of_eq hc.2) r.2).1
    · exact ⟨a, b, c, d⟩
  · intro j i hj hi hs
    rw [htask] at hs ⊢
    split at hs
    · rename_i hc
      exact absurd (acceptVertex_scheduled E i _ hs) (hd j (le_of_eq hc.2) i).1
    · rename_i hc
      rw [if_neg hc]
      exact h2 j i hj hi hs

theorem tick_task_idle (E : SimEnv) (s : SimState)
    (hperm : ∀ task l, (E.sortReady task l).Perm l) (j i : Nat)
    (hns : ((acceptJobs E s).task j i).status ≠ Status.scheduled)
    (hr : isReady E (acceptJobs E s) j i = false) :
    (tick E s).task j i = (acceptJobs E s).task j i := by
  have hnd : (dispatchPhase E s).2.Nodup :=
    (List.Perm.nodup_iff (hperm _ _)).mpr (nodup_readyList E _)
  have hnotin : (j, i) ∉ E.sortReady (acceptJobs E s).task (readyList E (acceptJobs E s)) := by
    intro hm
    have := ((mem_readyList E _ j i).mp ((hperm _ _).mem_iff.mp hm)).2.2
    rw [hr] at this
    cases this
  have hframe : (dispatchPhase E s).1.task j i = (acceptJobs E s).task j i :=
    foldl_task_frame (dispatchOne E) (dispatchOne_task_ne E) _ _ j i hnotin
  unfold tick
  rw [finishTick_task E _ _ hnd j i (by rw [hframe]; exact hns), hframe]
  exact if_neg hnotin

theorem Dormant_tick (E : SimEnv) (s : SimState)
    (hperm : ∀ task l, (E.sortReady task l).Perm l) (hd : Dormant E s) :
    Dormant E (tick E s) := by
  intro j hle i
  rw [tick_t] at hle
  push_cast at hle
  have hne : (s.t : Int) ≠ truncInt (E.arrival_time j) := by omega
  have hall : ∀ p, (acceptJobs E s).task j p = s.task j p :=
    fun p => acceptJobs_task_of_not_now E s j p hne
  have hrd : ∀ p, isReady E (acceptJobs E s) j p = isReady E s j p :=
    fun p => isReady_congr E s _ j p hall
  have hsame : ∀ p, (tick E s).task j p = s.task j p := by
    intro p
    obtain ⟨d1, d2⟩ := hd j (by omega) p
    rw [tick_task_idle E s hperm j p (by rw [hall]; exact d1) (by rw [hrd]; exact d2), hall]
  obtain ⟨d1, d2⟩ := hd j (by omega) i
  refine ⟨by rw [hsame]; exact d1, ?_⟩
  rw [isReady_congr E s _ j i hsame]
  exact d2

theorem BindInv_tick (E : SimEnv) (s : SimState)
    (hperm : ∀ task l, (E.sortReady task l).Perm l) (h : BindInv E s) (hd : Dormant E s) :
    BindInv E (tick E s) := by
  unfold tick
  apply BindInv_finishTick
  show BindInv E ((E.sortReady (acceptJobs E s).task (readyList E (acceptJobs E s))).foldl
    (dispatchOne E) (acceptJobs E s))
  apply BindInv_dispatch E _ _ (BindInv_acceptJobs E s h hd)
    ((List.Perm.nodup_iff (hperm _ _)).mpr (nodup_readyList E _))
  intro r hr
  obtain ⟨a, b, c⟩ := (mem_readyList E _ r.1 r.2).mp ((hperm _ _).mem_iff.mp hr)
  exact ⟨a, b, isReady_not_scheduled E _ r.1 r.2 c⟩

theorem BindInv_ticks (E : SimEnv) (hperm : ∀ task l, (E.sortReady task l).Perm l) :
    ∀ (n : Nat) (s : SimState), BindInv E s → Dormant E s → BindInv E (ticks E n s) := by
  intro n
  induction n with
  | zero => intro s h _; exact h
  | succ n ih =>
    intro s h hd
    exact ih _ (BindInv_tick E s hperm h hd) (Dormant_tick E s hperm hd)

/-- C25: in a replica whose task records at the start hold no scheduled task and
no task that passes the test of lines 287-305 (the sources at hand do not set
the status before a job is accepted), after every tick: a scheduled task of a
job is held by exactly one VM of the pool of its assigned type, every VM that
holds it has that type and lies in that pool; a task that a VM holds is
scheduled; within a pool no task is held by two VMs, and two VMs that hold the
same task lie in the same pool. -/
theorem C25_scheduled_tasks_and_VMs (E : SimEnv) (task : Nat → Nat → taskVertex)
    (hperm : ∀ task l, (E.sortReady task l).Perm l)
    (hinit : ∀ j i, (task j i).status ≠ Status.scheduled ∧
      isReady E (simInit task) j i = false) (n : Nat) :
    (∀ j i, j < E.numjobs → i < E.numvertices →
      ((ticks E n (simInit task)).task j i).status = Status.scheduled →
      (((ticks E n (simInit task)).VMTP ((ticks E n (simInit task)).task j i).assigned_type).filter
        (fun vm => decide (vm.tk = some (j, i)))).length = 1 ∧
      ∀ k, ∀ vm ∈ (ticks E n (simInit task)).VMTP k, vm.tk = some (j, i) →
        k = ((ticks E n (simInit task)).task j i).assigned_type ∧
        vm.type = ((ticks E n (simInit task)).task j i).assigned_type) ∧
    (∀ k, ∀ vm ∈ (ticks E n (simInit task)).VMTP k, ∀ r, vm.tk = some r →
      ((ticks E n (simInit task)).task r.1 r.2).status = Status.scheduled) ∧
    (∀ k r, (((ticks E n (simInit task)).VMTP k).filter
      (fun vm => decide (vm.tk = some r))).length ≤ 1) ∧
    (∀ k k' r, (∃ vm ∈ (ticks E n (simInit task)).VMTP k, vm.tk = some r) →
      (∃ vm ∈ (ticks E n (simInit task)).VMTP k', vm.tk = some r) → k = k') := by
  have h0 : BindInv E (simInit task) := by
    refine ⟨fun k vm hvm => ?_, fun j i _ _ hs => absurd hs (hinit j i).1, fun k => ?_⟩
    · simp [simInit] at hvm
    · simp [simInit]
  have hd0 : Dormant E (simInit task) := fun j _ i => hinit j i
  obtain ⟨h1, h2, h3⟩ := BindInv_ticks E hperm n (simInit task) h0 hd0
  refine ⟨fun j i hj hi hs => ⟨?_, fun k vm hvm e => ?_⟩, fun k vm hvm r e => ?_,
    fun k r => holders_le_one r _ (h3 k), ?_⟩
  · apply le_antisymm (holders_le_one (j, i) _ (h3 _))
    obtain ⟨vm, hvm, e⟩ := h2 j i hj hi hs
    exact List.length_pos_of_mem (List.mem_filter.mpr ⟨hvm, by simpa using e⟩)
  · obtain ⟨a, b⟩ := h1 k vm hvm
    have := (b (j, i) e).2.2.2
    exact ⟨this.symm, a.trans this.symm⟩
  · exact ((h1 k vm hvm).2 r e).2.2.1
  · rintro k k' r ⟨vm, hvm, e⟩ ⟨vm', hvm', e'⟩
    exact (((h1 k vm hvm).2 r e).2.2.2).symm.trans (((h1 k' vm' hvm').2 r e').2.2.2)

theorem chain_dormant (L : Nat) (j i : Nat) :
    ((fun (_ _ : Nat) => chainTask) j i).status ≠ Status.scheduled ∧
      isReady (chainEnv L) (simInit (fun _ _ => chainTask)) j i = false := by
  have hst : ∀ p, ((simInit (fun _ _ => chainTask)).task j p).status = Status.not_ready :=
    fun _ => rfl
  refine ⟨by show chainTask.status ≠ Status.scheduled; decide, ?_⟩
  cases h : isReady (chainEnv L) (simInit (fun _ _ => chainTask)) j i
  · rfl
  · exfalso
    rcases (isReady_iff _ _ j i).mp h with h' | ⟨h1, h2, _⟩
    · rw [hst] at h'
      cases h'
    · obtain ⟨src, hsrc⟩ := List.exists_mem_of_ne_nil _ h1
      have := h2 src hsrc
      rw [hst] at this
      cases this

theorem C25_scheduled_tasks_and_VMs_witness :
    ((ticks (chainEnv 0) 3 (simInit (fun _ _ => chainTask))).task 0 0).status
      = Status.scheduled ∧
    (((ticks (chainEnv 0) 3 (simInit (fun _ _ => chainTask))).VMTP
        ((ticks (chainEnv 0) 3 (simInit (fun _ _ => chainTask))).task 0 0).assigned_type).filter
      (fun vm => decide (vm.tk = some (0, 0)))).length = 1 :=
  ⟨by decide!,
    ((C25_scheduled_tasks_and_VMs (chainEnv 0) (fun _ _ => chainTask)
      (fun _ l => List.Perm.refl l) (chain_dormant 0) 3).1 0 0 (by decide) (by decide)
      (by decide!)).1⟩

/-! ### The simulator: from the binding of a task to its end -/

theorem smallFloat_sub (p : Nat) (r : ℚ) (hr : SmallFloat p r) :
    ∀ k : Nat, (k : ℚ) < r → SmallFloat p (r - (k : ℚ)) := by
  intro k
  induction k with
  | zero =>
    intro _
    rw [Nat.cast_zero, sub_zero]
    exact hr
  | succ k ih =>
    intro hk
    push_cast at hk
    have hk' := ih (by linarith)
    have he := fsub1_exact p (r - (k : ℚ)) hk'.1 (by linarith) hk'.2
    have e : r - ((k + 1 : Nat) : ℚ) = r - (k : ℚ) - 1 := by
      push_cast
      ring
    rw [e]
    exact ⟨he, by linarith [hk'.2]⟩

theorem rest_run (p : Nat) (r : ℚ) (hr : SmallFloat p r) (k : Nat)
    (h : k + 1 < ticksNeeded r) :
    fsub1 p (r - (k : ℚ)) = r - ((k + 1 : Nat) : ℚ) ∧ ¬ (fsub1 p (r - (k : ℚ)) ≤ 0) := by
  have h1 : k + 1 < ⌈r⌉₊ := by
    unfold ticksNeeded at h
    omega
  have h2 : ((k + 1 : Nat) : ℚ) < r := Nat.lt_ceil.mp h1
  push_cast at h2
  have hk := smallFloat_sub p r hr k (by linarith)
  have he := fsub1_exact p (r - (k : ℚ)) hk.1 (by linarith) hk.2
  have e : r - ((k + 1 : Nat) : ℚ) = r - (k : ℚ) - 1 := by
    push_cast
    ring
  rw [e, he]
  exact ⟨rfl, by linarith⟩

theorem rest_done (p : Nat) (r : ℚ) (k : Nat) (h : k + 1 = ticksNeeded r) :
    fsub1 p (r - (k : ℚ)) ≤ 0 := by
  have h1 : ⌈r⌉₊ ≤ k + 1 := by
    unfold ticksNeeded at h
    omega
  have h2 : r ≤ ((k + 1 : Nat) : ℚ) := Nat.ceil_le.mp h1
  push_cast at h2
  exact fsub1_nonpos p _ (by linarith)

theorem progressed_run (E : SimEnv) (t : Nat) (w : taskVertex) (k : Nat)
    (hr : SmallFloat E.precision w.restTime) (h : k + 1 < ticksNeeded w.restTime) :
    progressed E t { w with restTime := w.restTime - (k : ℚ) }
      = { w with restTime := w.restTime - ((k + 1 : Nat) : ℚ) } := by
  obtain ⟨e1, e2⟩ := rest_run E.precision w.restTime hr k h
  unfold progressed
  dsimp only
  rw [if_neg e2, e1]

theorem progressed_done (E : SimEnv) (t : Nat) (w : taskVertex) (k : Nat)
    (h : k + 1 = ticksNeeded w.restTime) :
    progressed E t { w with restTime := w.restTime - (k : ℚ) }
      = { w with
          restTime := fsub1 E.precision (w.restTime - (k : ℚ))
          status := Status.finished
          end_time := t
          tasktime := (t : ℚ) - w.tasktime
          cost := ((t : ℚ) - w.tasktime) * E.priceOnDemand.getD w.assigned_type 0 / 3600 } := by
  unfold progressed
  dsimp only
  rw [if_pos (rest_done E.precision w.restTime k h)]

theorem restTime_sub_zero (w : taskVertex) :
    ({ w with restTime := w.restTime - ((0 : Nat) : ℚ) } : taskVertex) = w := by
  cases w
  simp

theorem bound_cases (E : SimEnv) (s : SimState)
    (hperm : ∀ task l, (E.sortReady task l).Perm l) (j i : Nat)
    (h1 : ((acceptJobs E s).task j i).status ≠ Status.scheduled)
    (h2 : ((dispatchPhase E s).1.task j i).status = Status.scheduled) :
    (j, i) ∈ (dispatchPhase E s).2 ∧
    (((dispatchPhase E s).1.task j i = boundNow E s.t ((acceptJobs E s).task j i) ∧
        ((acceptJobs E s).task j i).readyCountdown = -1) ∨
      ((dispatchPhase E s).1.task j i = boundNew E ((acceptJobs E s).task j i) ∧
        ((acceptJobs E s).task j i).readyCountdown = 0)) := by
  have hnd : (dispatchPhase E s).2.Nodup :=
    (List.Perm.nodup_iff (hperm _ _)).mpr (nodup_readyList E _)
  have hmem : (j, i) ∈ (dispatchPhase E s).2 := by
    by_contra hc
    have : (dispatchPhase E s).1.task j i = (acceptJobs E s).task j i :=
      foldl_task_frame (dispatchOne E) (dispatchOne_task_ne E) _ _ j i hc
    rw [this] at h2
    exact h1 h2
  refine ⟨hmem, ?_⟩
  obtain ⟨pre, post, _, _, _, e1, e2⟩ := dispatch_split E (j, i) _ (acceptJobs E s) hnd hmem
  have hpt : (pre.foldl (dispatchOne E) (acceptJobs E s)).t = s.t := by
    rw [foldl_t_frame (dispatchOne E) (dispatchOne_t E)]
    rfl
  have hd : (dispatchPhase E s).1.task j i
      = (dispatchOne E (pre.foldl (dispatchOne E) (acceptJobs E s)) (j, i)).task j i := e2
  rw [dispatchOne_task_self] at hd
  dsimp only at e1 hd
  rw [e1, hpt] at hd
  by_cases c1 : ((acceptJobs E s).task j i).readyCountdown = -1
  · rw [if_pos c1] at hd
    split at hd
    · rw [hd] at h2
      exact absurd h2 h1
    · exact Or.inl ⟨hd, c1⟩
  · rw [if_neg c1] at hd
    by_cases c2 : ((acceptJobs E s).task j i).readyCountdown = 0
    · rw [if_pos c2] at hd
      exact Or.inr ⟨hd, c2⟩
    · rw [if_neg c2] at hd
      rw [hd] at h2
      exact absurd h2 h1

theorem tick_of_dispatched (E : SimEnv) (s : SimState)
    (hperm : ∀ task l, (E.sortReady task l).Perm l) (j i : Nat)
    (hj : j < E.numjobs) (hi : i < E.numvertices)
    (hs : ((dispatchPhase E s).1.task j i).status = Status.scheduled)
    (hrc : ((dispatchPhase E s).1.task j i).readyCountdown ≤ 0) :
    (tick E s).task j i = progressed E s.t ((dispatchPhase E s).1.task j i) := by
  have hnd : (dispatchPhase E s).2.Nodup :=
    (List.Perm.nodup_iff (hperm _ _)).mpr (nodup_readyList E _)
  unfold tick
  rw [finishTick_task_scheduled E _ _ hnd j i hj hi hs, dispatchPhase_t]
  split
  · apply countedDown_id
    rw [progressed_countdown]
    exact hrc
  · rfl

theorem bound_run (E : SimEnv) (task : Nat → Nat → taskVertex)
    (hperm : ∀ task l, (E.sortReady task l).Perm l) (j a i : Nat)
    (hj : j < E.numjobs) (hi : i < E.numvertices)
    (ha : (a : Int) = truncInt (E.arrival_time j)) (ts : Nat) (hts : a ≤ ts)
    (hs : ((dispatched E task ts).task j i).status = Status.scheduled)
    (hrc : ((dispatched E task ts).task j i).readyCountdown ≤ 0)
    (hr : SmallFloat E.precision ((dispatched E task ts).task j i).restTime) :
    ∀ k : Nat, k < ticksNeeded ((dispatched E task ts).task j i).restTime →
      (dispatched E task (ts + k)).task j i
        = { (dispatched E task ts).task j i with
            restTime := ((dispatched E task ts).task j i).restTime - (k : ℚ) } ∧
      (ticks E (ts + k + 1) (simInit task)).task j i
        = progressed E (ts + k)
            { (dispatched E task ts).task j i with
              restTime := ((dispatched E task ts).task j i).restTime - (k : ℚ) } := by
  intro k
  induction k with
  | zero =>
    intro _
    have e0 := restTime_sub_zero ((dispatched E task ts).task j i)
    refine ⟨e0.symm, ?_⟩
    rw [e0]
    have := tick_of_dispatched E (ticks E ts (simInit task)) hperm j i hj hi hs hrc
    rw [run_t] at this
    rw [ticks_succ]
    exact this
  | succ k ih =>
    intro hk
    obtain ⟨_, i2⟩ := ih (by omega)
    rw [progressed_run E (ts + k) _ k hr (by omega)] at i2
    have hne : ((ticks E (ts + k + 1) (simInit task)).t : Int) ≠ truncInt (E.arrival_time j) := by
      rw [run_t, ← ha]
      omega
    have hacc : ∀ p, (acceptJobs E (ticks E (ts + k + 1) (simInit task))).task j p
        = (ticks E (ts + k + 1) (simInit task)).task j p :=
      fun p => acceptJobs_task_of_not_now E _ j p hne
    have hsch : ((acceptJobs E (ticks E (ts + k + 1) (simInit task))).task j i).status
        = Status.scheduled := by
      rw [hacc, i2]
      exact hs
    have hnot : (j, i) ∉ (dispatchPhase E (ticks E (ts + k + 1) (simInit task))).2 := by
      intro hm
      have := ((mem_readyList E _ j i).mp ((hperm _ _).mem_iff.mp hm)).2.2
      exact isReady_not_scheduled E _ j i this hsch
    have hd : (dispatched E task (ts + k + 1)).task j i
        = { (dispatched E task ts).task j i with
            restTime := ((dispatched E task ts).task j i).restTime - ((k + 1 : Nat) : ℚ) } := by
      have : (dispatched E task (ts + k + 1)).task j i
          = (acceptJobs E (ticks E (ts + k + 1) (simInit task))).task j i :=
        foldl_task_frame (dispatchOne E) (dispatchOne_task_ne E) _ _ j i hnot
      rw [this, hacc, i2]
    refine ⟨hd, ?_⟩
    have := tick_of_dispatched E (ticks E (ts + k + 1) (simInit task)) hperm j i hj hi
      (by
        show ((dispatched E task (ts + k + 1)).task j i).status = Status.scheduled
        rw [hd]
        exact hs)
      (by
        show ((dispatched E task (ts + k + 1)).task j i).readyCountdown ≤ 0
        rw [hd]
        exact hrc)
    rw [run_t] at this
    rw [show ts + (k + 1) + 1 = (ts + k + 1) + 1 by omega, ticks_succ, this]
    show progressed E (ts + k + 1) ((dispatched E task (ts + k + 1)).task j i) = _
    rw [hd]
    rfl

theorem reapPool_keeps (E : SimEnv) (s : SimState) (i k : Nat) (vm : VM)
    (hvm : vm ∈ s.VMTP k) (htk : vm.tk ≠ none) : vm ∈ (reapPool E s i).VMTP k := by
  show vm ∈ (if k = i then (s.VMTP i).filter (fun vm => !decide (vm.tk = none)) else s.VMTP k)
  split
  · rename_i hk
    rw [hk] at hvm
    exact List.mem_filter.mpr ⟨hvm, by simpa using htk⟩
  · exact hvm

theorem reapIdle_keeps (E : SimEnv) (s : SimState) (k : Nat) (vm : VM)
    (hvm : vm ∈ s.VMTP k) (htk : vm.tk ≠ none) : vm ∈ (reapIdle E s).VMTP k := by
  unfold reapIdle
  generalize List.range E.types = l
  induction l generalizing s with
  | nil => exact hvm
  | cons x xs ih =>
    rw [List.foldl_cons]
    exact ih _ (reapPool_keeps E s x k vm hvm htk)

theorem progressOne_keeps (E : SimEnv) (s : SimState) (r : TaskRef) (k : Nat) (vm : VM)
    (hvm : vm ∈ s.VMTP k) (htk : vm.tk ≠ some r) : vm ∈ (progressOne E s r).VMTP k := by
  unfold progressOne
  dsimp only
  split
  · simp only [setPool, setTask]
    split
    · rename_i hk
      rw [hk] at hvm
      exact releaseTask_keeps r _ vm hvm htk
    · exact hvm
  · exact hvm

theorem progress_keeps (E : SimEnv) (k : Nat) (vm : VM) :
    ∀ (l : List TaskRef) (s : SimState), vm ∈ s.VMTP k → (∀ r ∈ l, vm.tk ≠ some r) →
      vm ∈ (l.foldl (progressOne E) s).VMTP k := by
  intro l
  induction l with
  | nil => intro s h _; exact h
  | cons x xs ih =>
    intro s h hl
    rw [List.foldl_cons]
    exact ih _ (progressOne_keeps E s x k vm h (hl x (List.mem_cons_self _ _)))
      (fun r hr => hl r (List.mem_cons_of_mem _ hr))

theorem releaseTask_released (r : TaskRef) : ∀ (pool : List VM) (vm : VM),
    (pool.filterMap VM.tk).Nodup → vm ∈ pool → vm.tk = some r →
      { vm with tk := none } ∈ releaseTask r pool := by
  intro pool
  induction pool with
  | nil => intro vm _ h; simp at h
  | cons x rest ih =>
    intro vm hnd hvm htk
    simp only [releaseTask]
    split
    · rename_i hx
      rcases List.mem_cons.mp hvm with h' | h'
      · subst h'; exact List.mem_cons_self _ _
      · rw [List.filterMap_cons_some hx] at hnd
        exact absurd (List.mem_filterMap.mpr ⟨vm, h', htk⟩) (List.nodup_cons.mp hnd).1
    · rename_i hx
      rcases List.mem_cons.mp hvm with h' | h'
      · subst h'; exact absurd htk hx
      · apply List.mem_cons_of_mem
        apply ih vm _ h' htk
        cases hy : x.tk with
        | none => rw [List.filterMap_cons_none hy] at hnd; exact hnd
        | some y => rw [List.filterMap_cons_some hy] at hnd; exact (List.nodup_cons.mp hnd).2

theorem progressOne_holder (E : SimEnv) (s : SimState) (r : TaskRef) (k : Nat) (vm : VM)
    (h : BindInv E s) (hvm : vm ∈ s.VMTP k) (htk : vm.tk = some r) :
    (if fsub1 E.precision (s.task r.1 r.2).restTime ≤ 0 then { vm with tk := none } else vm)
      ∈ (progressOne E s r).VMTP k := by
  have hk : (s.task r.1 r.2).assigned_type = k := ((h.1 k vm hvm).2 r htk).2.2.2
  unfold progressOne
  dsimp only
  split
  · simp only [setPool, setTask]
    rw [if_pos hk.symm, hk]
    exact releaseTask_released r _ vm (h.2.2 k) hvm htk
  · exact hvm

theorem progress_holder (E : SimEnv) (r : TaskRef) (k : Nat) (vm : VM)
    (l : List TaskRef) (s : SimState) (hnd : l.Nodup) (hr : r ∈ l)
    (h : BindInv E s) (hvm : vm ∈ s.VMTP k) (htk : vm.tk = some r) :
    (if fsub1 E.precision (s.task r.1 r.2).restTime ≤ 0 then { vm with tk := none } else vm)
      ∈ (l.foldl (progressOne E) s).VMTP k := by
  obtain ⟨pre, post, hsplit⟩ := List.append_of_mem hr
  subst hsplit
  have h1 : r ∉ pre := by
    intro hc
    exact (List.nodup_append.mp hnd).2.2 hc (by simp)
  have h2 : r ∉ post := (List.nodup_cons.mp (List.nodup_append.mp hnd).2.1).1
  rw [List.foldl_append, List.foldl_cons]
  have hpre : vm ∈ (pre.foldl (progressOne E) s).VMTP k :=
    progress_keeps E k vm pre s hvm (fun r' hr' e => h1 (by
      rw [htk] at e
      cases e
      exact hr'))
  have hrec : (pre.foldl (progressOne E) s).task r.1 r.2 = s.task r.1 r.2 :=
    foldl_task_frame (progressOne E) (progressOne_task_ne E) pre s r.1 r.2 h1
  have hone := progressOne_holder E _ r k vm
    (BindInv_foldl E (progressOne E) (BindInv_progressOne E) pre s h) hpre htk
  rw [hrec] at hone
  apply progress_keeps E k _ post _ hone
  intro r' hr' e
  split at e
  · cases e
  · rw [htk] at e
    cases e
    exact h2 hr'

theorem ageVMs_holder (E : SimEnv) (s : SimState) (k : Nat) (vm : VM) (hvm : vm ∈ s.VMTP k) :
    ∃ vm' ∈ (ageVMs E s).VMTP k, vm'.id = vm.id ∧ vm'.tk = vm.tk := by
  show ∃ vm' ∈ (if k < E.types then
      (s.VMTP k).map (fun vm => { vm with life_time := vm.life_time + 1 }) else s.VMTP k),
    vm'.id = vm.id ∧ vm'.tk = vm.tk
  split
  · exact ⟨{ vm with life_time := vm.life_time + 1 }, List.mem_map.mpr ⟨vm, hvm, rfl⟩, rfl, rfl⟩
  · exact ⟨vm, hvm, rfl, rfl⟩

theorem countdown_VMTP : ∀ (l : List TaskRef) (s : SimState),
    (l.foldl countdownOne s).VMTP = s.VMTP := by
  intro l
  induction l with
  | nil => intro s; rfl
  | cons x xs ih =>
    intro s
    rw [List.foldl_cons, ih]
    unfold countdownOne
    split <;> rfl

theorem finishTick_holder (E : SimEnv) (σ : SimState) (rl : List TaskRef) (j i k : Nat)
    (vm : VM) (h : BindInv E σ) (hvm : vm ∈ σ.VMTP k) (htk : vm.tk = some (j, i)) :
    ∃ vm' ∈ (finishTick E σ rl).VMTP k, vm'.id = vm.id ∧
      vm'.tk = if fsub1 E.precision (σ.task j i).restTime ≤ 0 then none
        else some (j, i) := by
  obtain ⟨hj, hi, hs, _⟩ := (h.1 k vm hvm).2 (j, i) htk
  have h1 : vm ∈ (reapIdle E σ).VMTP k := reapIdle_keeps E σ k vm hvm (by rw [htk]; simp)
  have hmem : (j, i) ∈ scheduledList E (reapIdle E σ) := by
    rw [mem_scheduledList]
    refine ⟨hj, hi, ?_⟩
    rw [(reapIdle_frame E σ).1]
    exact hs
  have h2 := progress_holder E (j, i) k vm _ (reapIdle E σ) (nodup_scheduledList E _) hmem
    (BindInv_reapIdle E σ h) h1 htk
  dsimp only at h2
  rw [(reapIdle_frame E σ).1] at h2
  obtain ⟨vm', hvm', e1, e2⟩ := ageVMs_holder E _ k _ h2
  refine ⟨vm', ?_, ?_, ?_⟩
  · unfold finishTick
    dsimp only
    rw [countdown_VMTP]
    exact hvm'
  · rw [e1]
    split <;> rfl
  · rw [e2]
    split
    · rfl
    · exact htk

theorem BindInv_dispatched (E : SimEnv) (task : Nat → Nat → taskVertex)
    (hperm : ∀ task l, (E.sortReady task l).Perm l)
    (hinit : ∀ j i, (task j i).status ≠ Status.scheduled ∧
      isReady E (simInit task) j i = false) :
    ∀ n, BindInv E (ticks E n (simInit task)) ∧ Dormant E (ticks E n (simInit task)) ∧
      BindInv E (dispatched E task n) := by
  have h0 : BindInv E (simInit task) := by
    refine ⟨fun k vm hvm => ?_, fun j i _ _ hs => absurd hs (hinit j i).1, fun k => ?_⟩
    · simp [simInit] at hvm
    · simp [simInit]
  have hd0 : Dormant E (simInit task) := fun j _ i => hinit j i
  have hstep : ∀ s, BindInv E s → Dormant E s → BindInv E (dispatchPhase E s).1 := by
    intro s h hd
    show BindInv E ((E.sortReady (acceptJobs E s).task (readyList E (acceptJobs E s))).foldl
      (dispatchOne E) (acceptJobs E s))
    apply BindInv_dispatch E _ _ (BindInv_acceptJobs E s h hd)
      ((List.Perm.nodup_iff (hperm _ _)).mpr (nodup_readyList E _))
    intro r hr
    obtain ⟨a, b, c⟩ := (mem_readyList E _ r.1 r.2).mp ((hperm _ _).mem_iff.mp hr)
    exact ⟨a, b, isReady_not_scheduled E _ r.1 r.2 c⟩
  have hall : ∀ n, BindInv E (ticks E n (simInit task)) ∧ Dormant E (ticks E n (simInit task)) := by
    intro n
    induction n with
    | zero => exact ⟨h0, hd0⟩
    | succ n ih =>
      rw [ticks_succ]
      exact ⟨BindInv_tick E _ hperm ih.1 ih.2, Dormant_tick E _ hperm ih.2⟩
  intro n
  exact ⟨(hall n).1, (hall n).2, hstep _ (hall n).1 (hall n).2⟩

theorem bound_holder (E : SimEnv) (task : Nat → Nat → taskVertex)
    (hperm : ∀ task l, (E.sortReady task l).Perm l)
    (hinit : ∀ j i, (task j i).status ≠ Status.scheduled ∧
      isReady E (simInit task) j i = false)
    (j a i : Nat) (hj : j < E.numjobs) (hi : i < E.numvertices)
    (ha : (a : Int) = truncInt (E.arrival_time j)) (ts : Nat) (hts : a ≤ ts)
    (hs : ((dispatched E task ts).task j i).status = Status.scheduled)
    (hrc : ((dispatched E task ts).task j i).readyCountdown ≤ 0)
    (hr : SmallFloat E.precision ((dispatched E task ts).task j i).restTime) :
    ∃ x : Nat,
      (∀ k, k < ticksNeeded ((dispatched E task ts).task j i).restTime →
        ∃ vm ∈ (dispatched E task (ts + k)).VMTP ((dispatched E task ts).task j i).assigned_type,
          vm.id = x ∧ vm.tk = some (j, i)) ∧
      ∃ vm ∈ (ticks E (ts + ticksNeeded ((dispatched E task ts).task j i).restTime)
          (simInit task)).VMTP ((dispatched E task ts).task j i).assigned_type,
        vm.id = x ∧ vm.tk = none := by
  have hB := BindInv_dispatched E task hperm hinit
  have hrun := bound_run E task hperm j a i hj hi ha ts hts hs hrc hr
  obtain ⟨vm0, hvm0, e0⟩ := (hB ts).2.2.2.1 j i hj hi hs
  have hstep : ∀ k, k < ticksNeeded ((dispatched E task ts).task j i).restTime →
      ∀ vm ∈ (dispatched E task (ts + k)).VMTP ((dispatched E task ts).task j i).assigned_type,
        vm.tk = some (j, i) →
        ∃ vm' ∈ (ticks E (ts + k + 1) (simInit task)).VMTP
            ((dispatched E task ts).task j i).assigned_type,
          vm'.id = vm.id ∧
          vm'.tk = if fsub1 E.precision
              (((dispatched E task ts).task j i).restTime - (k : ℚ)) ≤ 0 then none
            else some (j, i) := by
    intro k hk vm hvm htk
    have := finishTick_holder E (dispatched E task (ts + k))
      (dispatchPhase E (ticks E (ts + k) (simInit task))).2 j i _ vm (hB (ts + k)).2.2 hvm htk
    rw [(hrun k hk).1] at this
    rw [ticks_succ]
    exact this
  have hH : ∀ k, k < ticksNeeded ((dispatched E task ts).task j i).restTime →
      ∃ vm ∈ (dispatched E task (ts + k)).VMTP ((dispatched E task ts).task j i).assigned_type,
        vm.id = vm0.id ∧ vm.tk = some (j, i) := by
    intro k
    induction k with
    | zero => intro _; exact ⟨vm0, hvm0, rfl, e0⟩
    | succ k ih =>
      intro hk
      obtain ⟨vm, hvm, e1, e2⟩ := ih (by omega)
      obtain ⟨vm', hvm', e1', e2'⟩ := hstep k (by omega) vm hvm e2
      rw [if_neg (rest_run _ _ hr k hk).2] at e2'
      refine ⟨vm', ?_, e1'.trans e1, e2'⟩
      exact dispatch_keeps_vm E _ vm' (by rw [e2']; simp) _ _ hvm'
  refine ⟨vm0.id, hH, ?_⟩
  have hpos := ticksNeeded_pos ((dispatched E task ts).task j i).restTime
  obtain ⟨vm, hvm, e1, e2⟩ := hH (ticksNeeded ((dispatched E task ts).task j i).restTime - 1)
    (by omega)
  obtain ⟨vm', hvm', e1', e2'⟩ := hstep _ (by omega) vm hvm e2
  rw [if_pos (rest_done _ _ _ (by omega))] at e2'
  rw [show ts + (ticksNeeded ((dispatched E task ts).task j i).restTime - 1) + 1
    = ts + ticksNeeded ((dispatched E task ts).task j i).restTime by omega] at hvm'
  exact ⟨vm', hvm', e1'.trans e1, e2'⟩

/-- C21: let vertex `i` of job `j`, accepted in tick `a`, be bound to a VM by the
dispatch loop of tick `ts ≥ a` (its status is not `scheduled` before the loop and
`scheduled` after it), `w` being its record after the loop and `r` the sampled
time `probestTime[assigned_type*randomsize + monte]`, a value of the floating
type of `restTime` below `2^p` (`p` the precision of the type). Then `w` is the
record of lines 333-337 or of lines 344-355, with `restTime = r`; with
`N = max(ceil(r), 1)`, after each of the ticks `ts, ..., ts + N - 2` the record is
`w` with `restTime` lowered by the number of ticks run, so the task is still
scheduled; and after tick `ts + N - 1` the task is finished, with `restTime` the
rounded last difference, `end_time` that tick, `tasktime` that tick minus the
`tasktime` of `w`, and `cost` the new `tasktime` times
`priceOnDemand[assigned_type] / 3600`. One VM of the pool of the assigned type
holds the task after the dispatch loop of each of these ticks; after tick
`ts + N - 1` this VM is in the pool without a task, and no VM holds the task.
(The initial records hold no scheduled task and no task that passes the test of
lines 287-305.) -/
theorem C21_bound_task_runs_to_its_end (E : SimEnv) (task : Nat → Nat → taskVertex)
    (hperm : ∀ task l, (E.sortReady task l).Perm l)
    (hinit : ∀ j i, (task j i).status ≠ Status.scheduled ∧
      isReady E (simInit task) j i = false)
    (j a i : Nat) (hj : j < E.numjobs) (hi : i < E.numvertices)
    (ha : (a : Int) = truncInt (E.arrival_time j)) (ts : Nat) (hts : a ≤ ts)
    (w : taskVertex) (hw : w = (dispatched E task ts).task j i)
    (hbefore : (jobTask E task j ts i).status ≠ Status.scheduled)
    (hbound : w.status = Status.scheduled)
    (r : ℚ) (hr : r = sampledRest E (jobTask E task j ts i))
    (hsmall : SmallFloat E.precision r)
    (N : Nat) (hN : N = max ⌈r⌉₊ 1) :
    (w = boundNow E ts (jobTask E task j ts i) ∨ w = boundNew E (jobTask E task j ts i)) ∧
    w.restTime = r ∧
    (∀ k, k + 1 < N →
      (ticks E (ts + k + 1) (simInit task)).task j i
        = { w with restTime := r - ((k + 1 : Nat) : ℚ) }) ∧
    (ticks E (ts + N) (simInit task)).task j i
      = { w with
          restTime := fsub1 E.precision (r - ((N - 1 : Nat) : ℚ))
          status := Status.finished
          end_time := ((ts + N - 1 : Nat) : ℚ)
          tasktime := ((ts + N - 1 : Nat) : ℚ) - w.tasktime
          cost := (((ts + N - 1 : Nat) : ℚ) - w.tasktime)
            * E.priceOnDemand.getD w.assigned_type 0 / 3600 } ∧
    (∀ k, ∀ vm ∈ (ticks E (ts + N) (simInit task)).VMTP k, vm.tk ≠ some (j, i)) ∧
    (∃ x : Nat,
      (∀ k, k < N →
        ∃ vm ∈ (dispatched E task (ts + k)).VMTP w.assigned_type,
          vm.id = x ∧ vm.tk = some (j, i)) ∧
      ∃ vm ∈ (ticks E (ts + N) (simInit task)).VMTP w.assigned_type,
        vm.id = x ∧ vm.tk = none) := by
  have hcases := (bound_cases E (ticks E ts (simInit task)) hperm j i hbefore
    (by
      show ((dispatched E task ts).task j i).status = Status.scheduled
      rw [← hw]
      exact hbound)).2
  rw [run_t] at hcases
  have hcases' : (w = boundNow E ts (jobTask E task j ts i) ∧
        (jobTask E task j ts i).readyCountdown = -1) ∨
      (w = boundNew E (jobTask E task j ts i) ∧
        (jobTask E task j ts i).readyCountdown = 0) := by
    rw [hw]
    exact hcases
  have hrest : w.restTime = r := by
    rcases hcases' with ⟨e, _⟩ | ⟨e, _⟩
    · rw [e, hr]; rfl
    · rw [e, hr]; rfl
  have hrc : w.readyCountdown ≤ 0 := by
    rcases hcases' with ⟨e, c⟩ | ⟨e, c⟩
    · rw [e]
      show (jobTask E task j ts i).readyCountdown ≤ 0
      omega
    · rw [e]
      show (jobTask E task j ts i).readyCountdown ≤ 0
      omega
  have hNt : N = ticksNeeded w.restTime := by rw [hrest, hN]; rfl
  have hpos : 1 ≤ N := by rw [hN]; exact le_max_right _ _
  subst hw
  have hsm : SmallFloat E.precision ((dispatched E task ts).task j i).restTime := by
    rw [hrest]
    exact hsmall
  have hrun := bound_run E task hperm j a i hj hi ha ts hts hbound hrc hsm
  have hend : (ticks E (ts + N) (simInit task)).task j i
      = { (dispatched E task ts).task j i with
          restTime := fsub1 E.precision (r - ((N - 1 : Nat) : ℚ))
          status := Status.finished
          end_time := ((ts + N - 1 : Nat) : ℚ)
          tasktime := ((ts + N - 1 : Nat) : ℚ) - ((dispatched E task ts).task j i).tasktime
          cost := (((ts + N - 1 : Nat) : ℚ) - ((dispatched E task ts).task j i).tasktime)
            * E.priceOnDemand.getD ((dispatched E task ts).task j i).assigned_type 0 / 3600 } := by
    have h1 := (hrun (N - 1) (by omega)).2
    rw [progressed_done E _ _ (N - 1) (by omega)] at h1
    rw [show ts + (N - 1) + 1 = ts + N by omega,
      show ts + (N - 1) = ts + N - 1 by omega, hrest] at h1
    exact h1
  refine ⟨?_, hrest, ?_, hend, ?_, ?_⟩
  · rcases hcases' with ⟨e, _⟩ | ⟨e, _⟩
    · exact Or.inl e
    · exact Or.inr e
  · intro k hk
    rw [(hrun k (by omega)).2, progressed_run E _ _ k hsm (by omega), hrest]
  · intro k vm hvm e
    have hsch := (((BindInv_dispatched E task hperm hinit (ts + N)).1.1 k vm hvm).2 (j, i)
      e).2.2.1
    rw [hend] at hsch
    cases hsch
  · have := bound_holder E task hperm hinit j a i hj hi ha ts hts hbound hrc hsm
    rw [← hNt] at this
    exact this

theorem C21_bound_task_runs_to_its_end_witness :
    ((dispatched (chainEnv 0) (fun _ _ => chainTask) 1).task 0 0).status = Status.scheduled ∧
    (5 : ℚ) = sampledRest (chainEnv 0) (jobTask (chainEnv 0) (fun _ _ => chainTask) 0 1 0) ∧
    (ticks (chainEnv 0) (1 + 5) (simInit (fun _ _ => chainTask))).task 0 0
      = { (dispatched (chainEnv 0) (fun _ _ => chainTask) 1).task 0 0 with
          restTime := fsub1 (chainEnv 0).precision (5 - ((5 - 1 : Nat) : ℚ))
          status := Status.finished
          end_time := ((1 + 5 - 1 : Nat) : ℚ)
          tasktime := ((1 + 5 - 1 : Nat) : ℚ)
            - ((dispatched (chainEnv 0) (fun _ _ => chainTask) 1).task 0 0).tasktime
          cost := (((1 + 5 - 1 : Nat) : ℚ)
              - ((dispatched (chainEnv 0) (fun _ _ => chainTask) 1).task 0 0).tasktime)
            * (chainEnv 0).priceOnDemand.getD
                ((dispatched (chainEnv 0) (fun _ _ => chainTask) 1).task 0 0).assigned_type 0
            / 3600 } :=
  ⟨by decide!, by decide!,
    (C21_bound_task_runs_to_its_end (chainEnv 0) (fun _ _ => chainTask)
      (fun _ l => List.Perm.refl l) (chain_dormant 0) 0 0 0 (by decide) (by decide)
      (by decide!) 1 (by decide) _ rfl (by decide!) (by decide!) 5 (by decide!)
      ⟨by decide!, by decide!⟩ 5
      (by rw [show ((5 : ℚ)) = ((5 : Nat) : ℚ) by norm_num, Nat.ceil_natCast]; rfl)).2.2.2.1⟩

/-- C21, the claim as it stands fails: in the replica `chainEnv 0` with the
sampled time `r = 2^60` of every task, the first task is bound to a VM by the
dispatch loop of tick `ts = 1`; `max(ceil(r), 1)` is `2^60`, so the claim has the
task finished at tick `2^60`. But the decrement of line 390 rounds `2^60 - 1` back
to `2^60`: after tick `2^60` (and after every other tick from tick 1 on) the task
is scheduled with `restTime = 2^60`. -/
theorem C21_huge_sample_not_finished :
    (jobTask (chainEnv 0) (fun _ _ => hugeTask) 0 1 0).status ≠ Status.scheduled ∧
    ((dispatched (chainEnv 0) (fun _ _ => hugeTask) 1).task 0 0).status = Status.scheduled ∧
    sampledRest (chainEnv 0) (jobTask (chainEnv 0) (fun _ _ => hugeTask) 0 1 0)
      = 1152921504606846976 ∧
    max ⌈(1152921504606846976 : ℚ)⌉₊ 1 = 1152921504606846975 + 1 ∧
    ((ticks (chainEnv 0) (1152921504606846975 + 2) (simInit (fun _ _ => hugeTask))).task 0
        0).status = Status.scheduled ∧
    ((ticks (chainEnv 0) (1152921504606846975 + 2) (simInit (fun _ _ => hugeTask))).task 0
        0).restTime = 1152921504606846976 := by
  refine ⟨by decide!, by decide!, by decide!, ?_, ?_, ?_⟩
  · rw [show (1152921504606846976 : ℚ) = ((1152921504606846976 : Nat) : ℚ) by norm_num,
      Nat.ceil_natCast]
    norm_num
  · rw [huge_run]
    rfl
  · rw [huge_run]
    rfl

/-! ### The search: the parallel region under any interleaving -/

/-- C6, a run in which the claim fails: the search `raceParams` selects in its
second round two children of the initial state, of cost 5 and 3, for the
workers 0 and 1; every node meets the constraint and the seed costs 10.
Worker 0 passes the test of line 236 (5 < 10), then worker 1 passes it (3 < 10),
assigns `globalBestCost = 3` and pushes its node, and then worker 0 assigns
`globalBestCost = 5` and pushes its node: the search returns the node of cost
5 although `solutions` holds the node of cost 3, and the final `globalBestCost`
is 5, not the least `fvalue` in `solutions`. When instead worker 0 pushes
before worker 1 does, the node returned costs 3 and the final `globalBestCost`
is 5. With the workers taken one at a time the node of cost 3 is returned and
`globalBestCost` is 3. -/
theorem C6_unguarded_update_returns_dearer_node :
    OfflineAstarUnder raceParams [[], [0, 1, 1, 1, 0, 0], []] raceInit raceSeed
      = some { taskno := 0, fvalue := 5, configurations := [1, 0] } ∧
    (parRounds raceParams localFlag [[], [0, 1, 1, 1, 0, 0], []]
      (searchInit raceInit raceSeed)).solutions
      = [raceSeed, { taskno := 0, fvalue := 3, configurations := [2, 0] },
          { taskno := 0, fvalue := 5, configurations := [1, 0] }] ∧
    (parRounds raceParams localFlag [[], [0, 1, 1, 1, 0, 0], []]
      (searchInit raceInit raceSeed)).globalBestCost = 5 ∧
    OfflineAstarUnder raceParams [[], [0, 1, 1, 0, 0, 1], []] raceInit raceSeed
      = some { taskno := 0, fvalue := 3, configurations := [2, 0] } ∧
    (parRounds raceParams localFlag [[], [0, 1, 1, 0, 0, 1], []]
      (searchInit raceInit raceSeed)).globalBestCost = 5 ∧
    OfflineAstarUnder raceParams [[], [], []] raceInit raceSeed
      = some { taskno := 0, fvalue := 3, configurations := [2, 0] } ∧
    (parRounds raceParams localFlag [[], [], []] (searchInit raceInit raceSeed)).globalBestCost = 3 ∧
    OfflineAstar raceParams 10 raceInit raceSeed
      = some { taskno := 0, fvalue := 3, configurations := [2, 0] } := by
  decide!

/-- The tests of one head node can read different values of `globalBestCost`. In
the second round of the search `pruneParams` worker 1 holds the node of cost 3,
whose three children all cost 4, and worker 0 the node of cost 5. Worker 0
passes the test of line 236; worker 1 passes it, assigns `globalBestCost = 3`
and tests its first child (4 against 3: rejected); then worker 0 assigns
`globalBestCost = 5`, and worker 1 tests its other children (4 against 5:
kept). -/
theorem reads_differ_within_one_node :
    (((parRegion pruneParams localFlag [0, 1, 1, 1, 1, 1, 1, 0]
        (parRounds pruneParams localFlag [[]] (searchInit raceInit raceSeed))).2.map
      (fun w => (w.head, w.reads, w.localOpenset.map Prod.snd))).getD 1
        (raceInit, [], []))
      = ({ taskno := 0, fvalue := 3, configurations := [2, 0] }, [3, 5, 5],
          [{ taskno := 1, fvalue := 4, configurations := [2, 2] },
           { taskno := 1, fvalue := 4, configurations := [2, 3] }]) := by
  decide!

end Deco
